import Mathlib

/-!
# Judge core of procon-service-api: a shallow embedding

The definitions below transcribe the judge service of the repository
(`src/judge/utils/build_docker.go`, `src/judge/utils/save_code_file.go`,
`src/judge/utils/cleanup.go`, `src/common/config/langconfig.go`,
`src/common/minio/minio.go`, `src/common/models/solution.go`), the error values and
the responses of the HTTP boundary (`src/common/errors`, `src/common/utils/response.go`,
`src/common/utils/request.go`), and two checks of the web service
(`src/web/utils/filecheck.go`, `src/web/database/db_problems.go` with
`src/web/middleware/middleware.go`).

Conventions.
* Go `int` / `int64` values are `Int`.  The only arithmetic performed on them by
  the embedded code is a division by `1_000_000`, a comparison and `++` on
  counters that are bounded by the number of test cases, so no wrap-around is
  reachable.
* Go strings are `String`; the path helpers only inspect the byte `/`, which in
  UTF-8 occurs only as the character `/`.
* A Go `(value, error)` pair is an `Except String _` whose error is the text of
  the Go error.  Where the type of an error decides what happens, at the HTTP
  boundary, an error is a value of `GoError`.
-/

namespace Procon

/-! ## `common/config/langconfig.go` -/

/-- Per-language execution settings (`config.LanguageConfig`). -/
structure LanguageConfig where
  LanguageID : Int
  Image : String
  Compile : String
  Setup : String
  Run : String
deriving DecidableEq, Repr

/-- The zero value of `LanguageConfig`, which a failed Go map lookup yields. -/
def LanguageConfig.zero : LanguageConfig :=
  { LanguageID := 0, Image := "", Compile := "", Setup := "", Run := "" }

/-- The map literal `config.SupportedLanguages`, as its key/value entries. -/
def SupportedLanguages : List (Int × LanguageConfig) :=
  [ (1, { LanguageID := 1, Image := "python:3.8-slim", Compile := "", Setup := "",
          Run := "python3 {code}" }),
    (2, { LanguageID := 2, Image := "gcc:latest",
          Compile := "g++ {code} -o /workspace/tmp/a.out",
          Setup := "export TMPDIR=/workspace/tmp &&",
          Run := "/workspace/tmp/a.out" }),
    (3, { LanguageID := 3, Image := "golang:latest",
          Compile := "go build -o /workspace/tmp/a.out {code}",
          Setup := "export TMPDIR=/workspace/tmp && export GOCACHE=/workspace/tmp/go-cache &&",
          Run := "/workspace/tmp/a.out" }),
    (4, { LanguageID := 4, Image := "openjdk:11", Compile := "javac {code}",
          Setup := "export TMPDIR=/workspace/tmp &&",
          Run := "java -cp /workspace/code Main" }),
    (5, { LanguageID := 5, Image := "rust:latest",
          Compile := "rustc {code} -o /workspace/tmp/code",
          Setup := "export TMPDIR=/workspace/tmp &&",
          Run := "/workspace/tmp/code" }) ]

/-- `config.GetLanguageConfigByID`: the two-valued map read
`config, ok := SupportedLanguages[languageID]`. -/
def GetLanguageConfigByID (languageID : Int) : LanguageConfig × Bool :=
  match SupportedLanguages.lookup languageID with
  | some config => (config, true)
  | none => (LanguageConfig.zero, false)

/-! ## `common/models/solution.go` -/

/-- One test case's verdict (`models.CaseResult`); `ExecutionTime` is the
`time.Duration`, a count of nanoseconds. -/
structure CaseResult where
  CaseName : String
  Result : String
  ExecutionTime : Int
deriving DecidableEq, Repr

/-- The summary returned to the caller (`models.ResultDetail`). -/
structure ResultDetail where
  TotalCases : Int
  CorrectCases : Int
  IncorrectCases : Int
  TimeLimitExceeded : Int
  CaseResults : List CaseResult
  ErrorMessage : String
deriving DecidableEq, Repr

/-- The zero value `var results models.ResultDetail`. -/
def ResultDetail.zero : ResultDetail :=
  { TotalCases := 0, CorrectCases := 0, IncorrectCases := 0, TimeLimitExceeded := 0,
    CaseResults := [], ErrorMessage := "" }

/-- A submitted solution (`models.Solution`); `SubmittedAt` is not read by the judge. -/
structure Solution where
  SolutionID : Int
  UserID : Int
  ProblemID : Int
  LanguageID : Int
  Code : String
deriving DecidableEq, Repr

/-! ## `judge/utils/build_docker.go`: outcome of one run and its classification -/

/-- The parsed outcome of one sandbox run (`utils.ExecutionResult`). -/
structure ExecutionResult where
  Success : Bool
  ExecutionTime : Int
  OutputDiff : Bool
  ErrorMessage : String
deriving DecidableEq, Repr

/-- The closure that computes `CaseResult.Result` inside `BuildAndRunInContainer`
(lines 105-120): it bumps one counter of the shared `results` and returns the verdict
text.  Go's `/` on integers truncates toward zero, which is `Int.tdiv`. -/
def classifyCase (results : ResultDetail) (executionResult : ExecutionResult) :
    ResultDetail × String :=
  if executionResult.ErrorMessage ≠ "" then
    ({ results with IncorrectCases := results.IncorrectCases + 1 }, "INTERNAL ERROR")
  else if executionResult.OutputDiff then
    ({ results with IncorrectCases := results.IncorrectCases + 1 }, "FAILED")
  else if Int.tdiv executionResult.ExecutionTime 1000000 > 2000 then
    ({ results with TimeLimitExceeded := results.TimeLimitExceeded + 1 },
      "TIME LIMITED EXCEEDED")
  else
    ({ results with CorrectCases := results.CorrectCases + 1 }, "PASSED")

/-! ## Go standard-library helpers used by the judge

`strings.Replace`, `strings.Join`, `strconv.Itoa`, and the Unix versions of
`filepath.Clean`, `filepath.Join`, `filepath.Base`, `filepath.Dir`, written
after the documented behaviour of the Go library. -/

/-- Worker of `stringsReplaceAll`: `skip` counts the characters of a matched `old` that
are still to be dropped. -/
def replaceGo (old new : List Char) : Nat → List Char → List Char
  | _, [] => []
  | skip + 1, _ :: cs => replaceGo old new skip cs
  | 0, c :: cs =>
    if old.isPrefixOf (c :: cs) then new ++ replaceGo old new (old.length - 1) cs
    else c :: replaceGo old new 0 cs

/-- `strings.Replace(s, old, new, -1)`: every non-overlapping occurrence of `old`,
scanning from the left, is replaced by `new`.  An empty `old` matches before every
character and at the end. -/
def stringsReplaceAll (s old new : String) : String :=
  if old.data = [] then
    String.mk (new.data ++ s.data.flatMap (fun c => c :: new.data))
  else String.mk (replaceGo old.data new.data 0 s.data)

/-- `strings.Join(elems, sep)`. -/
def stringsJoin (elems : List String) (sep : String) : String :=
  sep.intercalate elems

/-- `strconv.Itoa`: the decimal text of an integer, with a leading `-` when negative. -/
def Itoa (n : Int) : String :=
  match n with
  | Int.ofNat m => Nat.repr m
  | Int.negSucc m => "-" ++ Nat.repr (m + 1)

/-- The elements of a path between its `/` separators (empty elements included). -/
def splitSlash : List Char → List (List Char)
  | [] => [[]]
  | c :: cs =>
    if c = '/' then [] :: splitSlash cs
    else
      match splitSlash cs with
      | [] => [[c]]
      | x :: xs => (c :: x) :: xs

/-- One element of `filepath.Clean`; `stack` holds the kept elements, last one first.
Empty and `.` elements are dropped, `..` removes the last kept real element, is
dropped at the root, and is kept in front of a relative path. -/
def cleanStep (rooted : Bool) (stack : List (List Char)) (elem : List Char) :
    List (List Char) :=
  if elem = [] ∨ elem = ['.'] then stack
  else if elem = ['.', '.'] then
    match stack with
    | [] => if rooted then [] else [elem]
    | top :: rest => if top = ['.', '.'] then elem :: stack else rest
  else elem :: stack

/-- `filepath.Clean` on Unix. -/
def Clean (path : String) : String :=
  if path.data = [] then "."
  else
    let rooted : Bool := path.data.head? = some '/'
    let kept := ((splitSlash path.data).foldl (cleanStep rooted) []).reverse
    let body := String.mk (['/'].intercalate kept)
    if rooted then "/" ++ body
    else if kept = [] then "." else body

/-- `filepath.Join` on Unix: leading empty elements are skipped, the rest is joined with
`/` and cleaned; with no non-empty element the result is empty. -/
def Join : List String → String
  | [] => ""
  | e :: es => if e = "" then Join es else Clean (stringsJoin (e :: es) "/")

/-- `filepath.Base` on Unix: the last element of the path, trailing slashes removed;
`.` for the empty path and `/` for a path of slashes only. -/
def Base (path : String) : String :=
  if path.data = [] then "."
  else
    let stripped := path.data.reverse.dropWhile (fun c => c = '/')
    let last := (stripped.takeWhile (fun c => c ≠ '/')).reverse
    if last = [] then "/" else String.mk last

/-- `filepath.Dir` on Unix: everything up to the last `/`, cleaned. -/
def Dir (path : String) : String :=
  Clean (String.mk (path.data.reverse.dropWhile (fun c => c ≠ '/')).reverse)

/-! ## `common/minio/minio.go` -/

/-- `minio.GetFileSaveName`. -/
def GetFileSaveName (dirName : String) (problemID : Int) (fileType fileName : String) :
    String :=
  Join [dirName, "problem_" ++ Itoa problemID, fileType, fileName]

/-! ## The environment of one judge run

The file system, the object storage and the sandbox are outside the program.  Each call
into them is answered by a field of `Env`, and is recorded as an `Effect` in the order
in which the program performs it. -/

/-- One entry of a directory listing (`os.FileInfo`, as far as the judge reads it). -/
structure DirEntry where
  Name : String
  IsDir : Bool
deriving DecidableEq, Repr

/-- The answers of the outside world.  An `Option String` is a Go `error` (`none` is
`nil`). -/
structure Env where
  /-- `ioutil.TempDir(dir, pattern)`: the random part of the name of the directory
  created by the call with the given number, or the error. -/
  tempDir : String → String → Nat → Except String String
  /-- `os.Create(path)`. -/
  createFile : String → Option String
  /-- `(*os.File).WriteString` on the file created at `path`. -/
  writeString : String → String → Option String
  /-- `ioutil.WriteFile(path, data, 0666)`. -/
  writeFile : String → String → Option String
  /-- `minio.DownloadIOFiles(ctx, problemID)`. -/
  downloadIOFiles : Int → Option String
  /-- `ioutil.ReadDir(path)`. -/
  readDir : String → Except String (List DirEntry)
  /-- `ioutil.ReadFile(path)`. -/
  readFile : String → Except String String
  /-- `exec.CommandContext(ctx, "sh", "-c", cmd).Run()` with both output streams
  captured: the captured text and the error of `Run`. -/
  runCommand : String → String × Option String

/-- A call into the outside world. -/
inductive Effect where
  | mkdirTemp (dir pattern : String) (created : Option String)
  | createFile (path : String)
  | writeString (path content : String)
  | writeFile (path content : String)
  | removeAll (path : String)
  | download (problemID : Int)
  | readDir (path : String)
  | readFile (path : String)
  | exec (command : String)
deriving DecidableEq, Repr

/-- `ioutil.TempDir(dir, pattern)` for a pattern without `*`: the new directory is
`dir/pattern<random>`. -/
def TempDir (env : Env) (dir pattern : String) (call : Nat) : Except String String :=
  match env.tempDir dir pattern call with
  | .ok random => .ok (dir ++ "/" ++ pattern ++ random)
  | .error e => .error e

/-! ## `judge/utils/save_code_file.go` -/

/-- `getFileExtension`. -/
def getFileExtension (languageID : Int) : String :=
  if languageID = 1 then "py"
  else if languageID = 2 then "cpp"
  else if languageID = 3 then "go"
  else if languageID = 4 then "java"
  else if languageID = 5 then "rs"
  else "txt"

/-- What `SaveCodeToFile` returns: `(codeFilePath, langConfig, cleanupFunc, err)`.  The
function value `cleanupFunc` is the directory it removes, `none` being a nil function. -/
structure SaveCodeResult where
  codeFilePath : String
  langConfig : LanguageConfig
  cleanupFunc : Option String
  err : Option String
deriving DecidableEq, Repr

/-- `SaveCodeToFile`, with the calls it performs. -/
def SaveCodeToFile (env : Env) (languageID : Int) (code : String) :
    SaveCodeResult × List Effect :=
  let (langConfig, ok) := GetLanguageConfigByID languageID
  if !ok then
    (⟨"", langConfig, none, some ("unsupported language ID: " ++ Itoa languageID)⟩, [])
  else
    match TempDir env "/tmp" "codeDir_" 0 with
    | .error e =>
      (⟨"", langConfig, none,
          some ("failed to create temporary directory for code: " ++ e)⟩,
        [Effect.mkdirTemp "/tmp" "codeDir_" none])
    | .ok codeDir =>
      let fileExt := getFileExtension langConfig.LanguageID
      let name := Join [codeDir, "solution." ++ fileExt]
      let made := [Effect.mkdirTemp "/tmp" "codeDir_" (some codeDir), Effect.createFile name]
      match env.createFile name with
      | some e =>
        (⟨"", langConfig, some codeDir, some ("failed to create code file: " ++ e)⟩, made)
      | none =>
        let content := stringsReplaceAll code "\\n" "\n"
        match env.writeString name content with
        | some e =>
          (⟨"", langConfig, some codeDir, some ("failed to write code to file: " ++ e)⟩,
            made ++ [Effect.writeString name content])
        | none =>
          (⟨name, langConfig, some codeDir, none⟩, made ++ [Effect.writeString name content])

/-- `CreateTempFile`, with the calls it performs.  On success the result is
`(tempFilePath, tempDirPath)`, where `tempDirPath` is the directory that the returned
`cleanupFunc` removes. -/
def CreateTempFile (env : Env) (call : Nat) :
    Except String (String × String) × List Effect :=
  match TempDir env "/tmp" "judge_" call with
  | .error e => (.error e, [Effect.mkdirTemp "/tmp" "judge_" none])
  | .ok tempDirPath =>
    let tempFilePath := Join [tempDirPath, "tempfile.txt"]
    let made := [Effect.mkdirTemp "/tmp" "judge_" (some tempDirPath),
      Effect.writeFile tempFilePath ""]
    match env.writeFile tempFilePath "" with
    | some e => (.error e, made ++ [Effect.removeAll tempDirPath])
    | none => (.ok (tempFilePath, tempDirPath), made)

/-! ## `judge/utils/build_docker.go`: test assets and the sandbox command -/

/-- The assignment `m[key] = value` on a Go map kept as its list of entries. -/
def mapSet (m : List (String × String)) (key value : String) : List (String × String) :=
  match m with
  | [] => [(key, value)]
  | (k, v) :: rest => if k = key then (k, value) :: rest else (k, v) :: mapSet rest key value

/-- The loop of `getTestCases` over the listing of the input directory. -/
def getTestCasesLoop (env : Env) (inDir outDir : String) :
    List DirEntry → List (String × String) → List Effect →
      Except String (List (String × String)) × List Effect
  | [], testCases, done => (.ok testCases, done)
  | inFile :: rest, testCases, done =>
    if !inFile.IsDir then
      let inFilePath := Join [inDir, inFile.Name]
      let outFilePath := Join [outDir, inFile.Name]
      match env.readFile outFilePath with
      | .ok _ =>
        getTestCasesLoop env inDir outDir rest (mapSet testCases inFilePath outFilePath)
          (done ++ [Effect.readFile outFilePath])
      | .error _ =>
        (.error ("output file does not exist for input file " ++ inFile.Name),
          done ++ [Effect.readFile outFilePath])
    else getTestCasesLoop env inDir outDir rest testCases done

/-- `getTestCases`, with the calls it performs. -/
def getTestCases (env : Env) (problemID : Int) :
    Except String (List (String × String)) × List Effect :=
  let inDir := GetFileSaveName "/tmp" problemID "in" ""
  let outDir := GetFileSaveName "/tmp" problemID "out" ""
  match env.readDir inDir with
  | .error e => (.error ("failed to read input directory: " ++ e), [Effect.readDir inDir])
  | .ok inputFiles =>
    match env.readDir outDir with
    | .error e =>
      (.error ("failed to read output directory: " ++ e),
        [Effect.readDir inDir, Effect.readDir outDir])
    | .ok _ =>
      getTestCasesLoop env inDir outDir inputFiles []
        [Effect.readDir inDir, Effect.readDir outDir]

/-- The package variable `memoryLimit`. -/
def memoryLimit : String := "512m"

/-- The package variable `cpuLimit`. -/
def cpuLimit : String := "1.0"

/-- The package variable `timeout`. -/
def timeout : Int := 1

/-- The package variable `securityOpts`. -/
def securityOpts : List String :=
  ["--net=none", "--read-only", "--tmpfs /workspace:rw,size=512m", "--cap-drop=ALL"]

/-! The local variables of `buildDockerRunCommandWithTimeout`, in the order of the
source; each `fmt.Sprintf` is written out as the concatenation its format denotes. -/

/-- The local `codeFileVolume`: the mount of the directory of the staged source. -/
def codeFileVolume (codeFilePath : String) : String :=
  "-v " ++ Dir codeFilePath ++ ":/workspace/code"

/-- The local `ioVolumeMapping`: the mount of the problem's test assets. -/
def ioVolumeMapping (problemID : Int) : String :=
  "-v " ++ GetFileSaveName "/tmp" problemID "" "" ++ ":/workspace/io"

/-- The local `tempFileVolume`: the mount of the directory of the scratch file. -/
def tempFileVolume (tempFilePath : String) : String :=
  "-v " ++ Dir tempFilePath ++ ":/workspace/tmp"

/-- The local `compileCmd`: empty without a compile template, otherwise the template
with the placeholder replaced, followed by ` && `. -/
def compileCmd (langConfig : LanguageConfig) (codeFilePath : String) : String :=
  if langConfig.Compile ≠ "" then
    stringsReplaceAll langConfig.Compile "{code}" ("/workspace/code/" ++ Base codeFilePath)
      ++ " && "
  else ""

/-- The local `runCmd`: the run template with the placeholder replaced. -/
def runCmd (langConfig : LanguageConfig) (codeFilePath : String) : String :=
  stringsReplaceAll langConfig.Run "{code}" ("/workspace/code/" ++ Base codeFilePath)

/-- The local `executionCmd`: the run command with its input and output redirected. -/
def executionCmd (langConfig : LanguageConfig)
    (codeFilePath inputFilePath tempFilePath : String) : String :=
  runCmd langConfig codeFilePath ++ " < /workspace/io/in/" ++ Base inputFilePath
    ++ " > /workspace/tmp/" ++ Base tempFilePath

/-- The local `commandWithTimeout`: setup, compile step, and the timed run under
`timeout`. -/
def commandWithTimeout (langConfig : LanguageConfig)
    (codeFilePath inputFilePath tempFilePath : String) (timeoutSec : Int) : String :=
  langConfig.Setup ++ " " ++ compileCmd langConfig codeFilePath
    ++ " timeout --preserve-status " ++ Itoa timeoutSec
    ++ "s /bin/sh -c 'start=\\$(date +%s%N); "
    ++ executionCmd langConfig codeFilePath inputFilePath tempFilePath
    ++ "; end=\\$(date +%s%N); echo Execution time: \\$((end-start)) nanoseconds'"

/-- The local `compareScript`: the comparison of the scratch file with the expected
output. -/
def compareScript (tempFilePath outputFilePath : String) : String :=
  " && diff -q /workspace/tmp/" ++ Base tempFilePath
    ++ " /workspace/io/out/" ++ Base outputFilePath

/-- `buildDockerRunCommandWithTimeout`; the argument `timeout` is `timeoutSec`. -/
def buildDockerRunCommandWithTimeout (langConfig : LanguageConfig)
    (codeFilePath inputFilePath tempFilePath outputFilePath : String)
    (problemID : Int) (timeoutSec : Int) : String :=
  "docker run --rm " ++ stringsJoin securityOpts " " ++ " " ++ codeFileVolume codeFilePath
    ++ " " ++ ioVolumeMapping problemID ++ " " ++ tempFileVolume tempFilePath
    ++ " --memory " ++ memoryLimit ++ " --cpus " ++ cpuLimit ++ " " ++ langConfig.Image
    ++ " /bin/sh -c \""
    ++ commandWithTimeout langConfig codeFilePath inputFilePath tempFilePath timeoutSec
    ++ compareScript tempFilePath outputFilePath ++ "\""

/-! ## `judge/utils/build_docker.go`: parsing the captured output -/

/-- The value of a run of decimal digits. -/
def decimalValue (digits : List Char) : Nat :=
  digits.foldl (fun acc c => acc * 10 + (c.toNat - '0'.toNat)) 0

/-- `strconv.ParseInt(s, 10, 64)` on a non-empty run of decimal digits, error dropped:
the value, or the largest `int64` when the value does not fit. -/
def ParseInt (digits : List Char) : Int :=
  if decimalValue digits ≥ 2 ^ 63 then 2 ^ 63 - 1 else (decimalValue digits : Int)

/-- A match of `Execution time: (\d+) nanoseconds` that starts at the head of `s`: the
text of the group.  The digits taken are the whole run, since the character after the
group is a space. -/
def timeMatchAt (s : List Char) : Option (List Char) :=
  if "Execution time: ".data.isPrefixOf s then
    let rest := s.drop "Execution time: ".data.length
    let digits := rest.takeWhile Char.isDigit
    let after := rest.dropWhile Char.isDigit
    if digits ≠ [] ∧ " nanoseconds".data.isPrefixOf after then some digits else none
  else none

/-- The group of the leftmost match of the timing pattern
(`timeRegex.FindStringSubmatch(output)[1]`). -/
def findTime : List Char → Option (List Char)
  | [] => none
  | c :: cs =>
    match timeMatchAt (c :: cs) with
    | some digits => some digits
    | none => findTime cs

/-- The pattern `.+lit` followed by `next`: one or more characters other than a newline,
then the literal, then whatever `next` accepts. -/
def dotPlusThen (lit : List Char) (next : List Char → Bool) : List Char → Bool
  | [] => false
  | c :: cs =>
    c ≠ '\n' && ((lit.isPrefixOf cs && next (cs.drop lit.length)) || dotPlusThen lit next cs)

/-- A match of `Files /workspace/tmp/.+ and /workspace/io/out/.+ differ` that starts at
the head of `s`. -/
def diffMatchAt (s : List Char) : Bool :=
  "Files /workspace/tmp/".data.isPrefixOf s &&
    dotPlusThen " and /workspace/io/out/".data
      (dotPlusThen " differ".data (fun _ => true))
      (s.drop "Files /workspace/tmp/".data.length)

/-- The result of `diffRegex.MatchString(output)`: a match starts somewhere in the text. -/
def diffMatch (output : List Char) : Bool :=
  output.tails.any diffMatchAt

/-- The part of `executeDockerCommand` after the process has run: the captured output
and the error of `cmd.Run()` are turned into an `ExecutionResult`. -/
def parseOutput (output : String) (err : Option String) : ExecutionResult :=
  let executionTime : Int :=
    match findTime output.data with
    | some digits => ParseInt digits
    | none => 0
  let outputDiff := diffMatch output.data
  match err with
  | some e =>
    { Success := false, ExecutionTime := executionTime, OutputDiff := outputDiff,
      ErrorMessage := e }
  | none =>
    { Success := true, ExecutionTime := executionTime, OutputDiff := outputDiff,
      ErrorMessage := "" }

/-- `executeDockerCommand`: runs the command and parses what it printed.  The Go error
it returns is always `nil`. -/
def executeDockerCommand (env : Env) (dockerCmd : String) :
    ExecutionResult × Option String :=
  let (output, err) := env.runCommand dockerCmd
  (parseOutput output err, none)

/-! ## `judge/utils/build_docker.go`: the orchestrator

`BuildAndRunInContainer` starts one goroutine per test case and then collects their
messages in a `select` loop.  The case tasks are run one after another, each one up to
the point where it hands over its message.  The order in which `range` visits the map of
test cases and the order in which the goroutines reach their channel operation are left
open by Go: which of the cases that have not run yet runs next, when the context ends
and which ready branch a `select` takes is given by a schedule of `Event`s, so that the
verdicts can arrive in any order. -/

/-- What the orchestrator shares with its case tasks while they run. -/
structure Orch where
  /-- The variable `results`, written by the tasks and by the collecting loop. -/
  results : ResultDetail
  /-- The cases whose goroutine has not run yet. -/
  pending : List (String × String)
  /-- The number of case tasks that have run so far. -/
  started : Nat
  /-- The number of tasks waiting to send on the full `errChan`. -/
  blocked : Nat
  /-- The buffer of `errChan` (capacity 1). -/
  errChan : Option String
  /-- The buffer of `resultsChan` (capacity `len(ioFiles)`), oldest message first. -/
  resultsChan : List CaseResult
  /-- `ctx.Err()`: `none` as long as `ctx.Done()` is open. -/
  ctxErr : Option String
  /-- The calls performed so far. -/
  trace : List Effect
deriving DecidableEq, Repr

/-- All tasks have returned, so `wg.Wait()` is over and both channels are closed. -/
def Orch.closed (st : Orch) : Bool :=
  st.pending.isEmpty && st.blocked == 0

/-- One step of a run. -/
inductive Event where
  /-- The task of the case at position `pick` among the cases that have not run yet
  runs up to its channel operation; when both the send and `ctx.Done()` are ready,
  `takeDone` says that the `select` takes `ctx.Done()`. -/
  | task (pick : Nat) (takeDone : Bool)
  /-- The context ends with the given error. -/
  | cancel (err : String)
  /-- The collecting `select` takes `<-errChan`. -/
  | recvErr
  /-- The collecting `select` takes `<-resultsChan`. -/
  | recvResult
  /-- The collecting `select` takes `<-ctx.Done()`. -/
  | recvDone
deriving DecidableEq, Repr

/-- What `BuildAndRunInContainer` returns, a `(*models.ResultDetail, error)` pair with
`none` for `nil`, and the calls performed up to the return. -/
structure Returned where
  summary : Option ResultDetail
  err : Option String
  trace : List Effect
deriving DecidableEq, Repr

/-- The `select` of a task that reports an error (lines 85-88 and 96-99): the error is
buffered when `errChan` has room, the task leaves when the context has ended, and it
waits when neither is the case. -/
def sendErr (st : Orch) (takeDone : Bool) (e : String) : Orch :=
  match st.errChan, st.ctxErr with
  | none, none => { st with errChan := some e }
  | none, some _ => if takeDone then st else { st with errChan := some e }
  | some _, some _ => st
  | some _, none => { st with blocked := st.blocked + 1 }

/-- The body of one case goroutine (lines 79-128) for the case `(inputFilePath,
outputFilePath)`, run up to and including its channel operation and its deferred
cleanup. -/
def runTask (env : Env) (langConfig : LanguageConfig) (codeFilePath : String)
    (problemID : Int) (takeDone : Bool) (inputFilePath outputFilePath : String)
    (st : Orch) : Orch :=
  let st := { st with started := st.started + 1 }
  match CreateTempFile env (st.started - 1) with
  | (.error e, made) => sendErr { st with trace := st.trace ++ made } takeDone e
  | (.ok (tempFilePath, tempDirPath), made) =>
    let dockerCommand := buildDockerRunCommandWithTimeout langConfig codeFilePath
      inputFilePath tempFilePath outputFilePath problemID timeout
    let ran := made ++ [Effect.exec dockerCommand, Effect.removeAll tempDirPath]
    match executeDockerCommand env dockerCommand with
    | (_, some e) => sendErr { st with trace := st.trace ++ ran } takeDone e
    | (executionResult, none) =>
      let (results, verdict) := classifyCase st.results executionResult
      let caseResult : CaseResult :=
        { CaseName := Base inputFilePath, Result := verdict,
          ExecutionTime := executionResult.ExecutionTime }
      let st := { st with results := results, trace := st.trace ++ ran }
      if st.ctxErr.isSome && takeDone then st
      else { st with resultsChan := st.resultsChan ++ [caseResult] }

/-- One event of a run: either the new shared state or, when the collecting loop
returns, the returned pair.  `none` when the event cannot happen in this state. -/
def step (env : Env) (langConfig : LanguageConfig) (codeFilePath : String)
    (problemID : Int) (st : Orch) :
    Event → Option (Orch ⊕ (Option ResultDetail × Option String))
  | .task pick takeDone =>
    match st.pending[pick]? with
    | none => none
    | some (inputFilePath, outputFilePath) =>
      some (.inl (runTask env langConfig codeFilePath problemID takeDone inputFilePath
        outputFilePath { st with pending := st.pending.eraseIdx pick }))
  | .cancel err =>
    match st.ctxErr with
    | some _ => none
    | none => some (.inl { st with ctxErr := some err, blocked := 0 })
  | .recvErr =>
    match st.errChan with
    | some e => some (.inr (none, some e))
    | none => if st.closed then some (.inl st) else none
  | .recvResult =>
    match st.resultsChan with
    | result :: rest =>
      some (.inl { st with
        results := { st.results with CaseResults := st.results.CaseResults ++ [result] },
        resultsChan := rest })
    | [] => if st.closed then some (.inr (some st.results, none)) else none
  | .recvDone =>
    match st.ctxErr with
    | some e => some (.inr (none, some e))
    | none => none

/-- The run of the tasks and of the collecting loop (lines 76-156) along a schedule;
`none` when the schedule ends before the loop returns or holds an event that cannot
happen. -/
def collect (env : Env) (langConfig : LanguageConfig) (codeFilePath : String)
    (problemID : Int) : Orch → List Event → Option (Option ResultDetail × Option String × Orch)
  | _, [] => none
  | st, ev :: evs =>
    match step env langConfig codeFilePath problemID st ev with
    | none => none
    | some (.inr (summary, err)) => some (summary, err, st)
    | some (.inl st') => collect env langConfig codeFilePath problemID st' evs

/-- The deferred call `cleanup()` of the staged source directory. -/
def deferredCleanup (cleanupFunc : Option String) : List Effect :=
  match cleanupFunc with
  | some codeDir => [Effect.removeAll codeDir]
  | none => []

/-- `BuildAndRunInContainer` along a schedule.  `none` when the schedule does not take
the collecting loop to a return. -/
def BuildAndRunInContainer (env : Env) (sched : List Event) (solution : Solution) :
    Option Returned :=
  let (_, ok) := GetLanguageConfigByID solution.LanguageID
  if !ok then
    some ⟨none, some ("unsupported language ID: " ++ Itoa solution.LanguageID), []⟩
  else
    let (saved, staged) := SaveCodeToFile env solution.LanguageID solution.Code
    match saved.err with
    | some e => some ⟨none, some e, staged⟩
    | none =>
      let fetched := staged ++ [Effect.download solution.ProblemID]
      match env.downloadIOFiles solution.ProblemID with
      | some e => some ⟨none, some e, fetched ++ deferredCleanup saved.cleanupFunc⟩
      | none =>
        match getTestCases env solution.ProblemID with
        | (.error e, listed) =>
          some ⟨none, some e, fetched ++ listed ++ deferredCleanup saved.cleanupFunc⟩
        | (.ok ioFiles, listed) =>
          let start : Orch :=
            { results := { ResultDetail.zero with TotalCases := ioFiles.length },
              pending := ioFiles, started := 0, blocked := 0, errChan := none,
              resultsChan := [], ctxErr := none, trace := fetched ++ listed }
          match collect env saved.langConfig saved.codeFilePath solution.ProblemID start
              sched with
          | none => none
          | some (summary, err, st) =>
            some ⟨summary, err, st.trace ++ deferredCleanup saved.cleanupFunc⟩

/-- The calls that create scratch files or run the sandbox: the creation of a scratch
directory (`judge_`), the writing of a scratch file and the execution of a command. -/
def Effect.isScratchOrSandbox : Effect → Bool
  | .mkdirTemp _ pattern _ => pattern == "judge_"
  | .writeFile _ _ => true
  | .exec _ => true
  | _ => false

/-- A name as a directory listing returns it: not empty, without `/`, and neither `.`
nor `..`. -/
def plainName (name : String) : Prop :=
  name.data ≠ [] ∧ '/' ∉ name.data ∧ name.data ≠ ['.'] ∧ name.data ≠ ['.', '.']

/-- The local path of a test asset: `/tmp/problem_<id>/<fileType>/<name>`. -/
def assetPath (problemID : Int) (fileType name : String) : String :=
  "/tmp/problem_" ++ Itoa problemID ++ "/" ++ fileType ++ "/" ++ name

/-- The test cases of a listing of the input directory: one pair of asset paths for
every entry that is not a directory, in the order of the listing. -/
def pairedCases (problemID : Int) (entries : List DirEntry) : List (String × String) :=
  (entries.filter (fun e => !e.IsDir)).map
    (fun e => (assetPath problemID "in" e.Name, assetPath problemID "out" e.Name))

/-! ## Texts inside a command or a captured output -/

/-- Whether `pat` occurs somewhere in `s`. -/
def occursIn (pat s : List Char) : Bool :=
  s.tails.any (fun t => pat.isPrefixOf t)

/-- The part of `s` in front of the first occurrence of `pat` (all of `s` when `pat`
does not occur). -/
def beforeFirst (pat : List Char) : List Char → List Char
  | [] => []
  | c :: cs => if pat.isPrefixOf (c :: cs) then [] else c :: beforeFirst pat cs

/-- The part of `s` from the first occurrence of `pat` on (empty when `pat` does not
occur). -/
def fromFirst (pat : List Char) : List Char → List Char
  | [] => []
  | c :: cs => if pat.isPrefixOf (c :: cs) then c :: cs else fromFirst pat cs

/-- The timing marker `Execution time: <digits> nanoseconds`. -/
def timeMarker (digits : List Char) : List Char :=
  "Execution time: ".data ++ digits ++ " nanoseconds".data

/-- A non-empty run of decimal digits. -/
def isDecimal (digits : List Char) : Prop :=
  digits ≠ [] ∧ ∀ c ∈ digits, c.isDigit = true

/-- The message of the comparison step for the operands `/workspace/tmp/<x>` and
`/workspace/io/out/<y>`. -/
def diffMessage (x y : List Char) : List Char :=
  "Files /workspace/tmp/".data ++ x ++ " and /workspace/io/out/".data ++ y
    ++ " differ".data

/-! ## The verdict of one case, taken by itself -/

/-- The scratch file of the case task with the given number (empty when it cannot be
created). -/
def scratchPath (env : Env) (call : Nat) : String :=
  match (CreateTempFile env call).1 with
  | .ok (tempFilePath, _) => tempFilePath
  | .error _ => ""

/-- The parsed outcome of the sandbox run of one case: the command built for the case
and the scratch file of its task is executed and its output parsed. -/
def caseRun (env : Env) (langConfig : LanguageConfig) (codeFilePath : String)
    (problemID : Int) (call : Nat) (testCase : String × String) : ExecutionResult :=
  (executeDockerCommand env
    (buildDockerRunCommandWithTimeout langConfig codeFilePath testCase.1
      (scratchPath env call) testCase.2 problemID timeout)).1

/-- The verdict that the task of one case reports: the base name of the input file, the
classification of the run and its elapsed time. -/
def caseVerdict (env : Env) (langConfig : LanguageConfig) (codeFilePath : String)
    (problemID : Int) (call : Nat) (testCase : String × String) : CaseResult :=
  { CaseName := Base testCase.1,
    Result := (classifyCase ResultDetail.zero
      (caseRun env langConfig codeFilePath problemID call testCase)).2,
    ExecutionTime := (caseRun env langConfig codeFilePath problemID call testCase).ExecutionTime }

/-- The verdicts of a list of cases whose tasks are numbered from `call` on. -/
def caseVerdicts (env : Env) (langConfig : LanguageConfig) (codeFilePath : String)
    (problemID : Int) : Nat → List (String × String) → List CaseResult
  | _, [] => []
  | call, testCase :: rest =>
    caseVerdict env langConfig codeFilePath problemID call testCase
      :: caseVerdicts env langConfig codeFilePath problemID (call + 1) rest

/-- The schedule in which the `n` case tasks run one after another, in the order of the
list of cases, and the collecting loop then takes `<-resultsChan` until the channel is
closed and drained. -/
def runAll (n : Nat) : List Event :=
  List.replicate n (Event.task 0 false) ++ List.replicate (n + 1) Event.recvResult

/-! ## Escaped newlines in a submitted source text -/

/-- The source text with every backslash that is followed by `n` turned, together
with that `n`, into one newline, reading from the left; every other character is
kept. -/
def restoreNewlines : List Char → List Char
  | [] => []
  | [c] => [c]
  | c :: d :: cs =>
    if c = '\\' ∧ d = 'n' then '\n' :: restoreNewlines cs
    else c :: restoreNewlines (d :: cs)

/-! ## `judge/utils/cleanup.go`

The swept directory is the list of its entries.  Instants and durations are counted in
nanoseconds. -/

/-- One entry of a directory as `ioutil.ReadDir` reports it (`os.FileInfo`), with the
number of entries it holds itself when it is a directory. -/
structure FileInfo where
  Name : String
  ModTime : Int
  IsDir : Bool
  Entries : Nat
deriving DecidableEq, Repr

/-- `t.Sub(u)` of package `time`: the duration `t - u`, cut to the range of
`time.Duration` (`int64`). -/
def timeSub (t u : Int) : Int :=
  if t - u > 2 ^ 63 - 1 then 2 ^ 63 - 1
  else if t - u < -(2 ^ 63) then -(2 ^ 63)
  else t - u

/-- `os.Remove(filepath.Join(directory, name))` on the entries of `directory`: a file or
an empty directory is removed; a directory that holds entries stays and an error is
returned, and so it is when no entry has the name. -/
def osRemove (directory : String) (disk : List FileInfo) (name : String) :
    List FileInfo × Option String :=
  match disk.find? (fun f => f.Name == name) with
  | none =>
    (disk, some ("remove " ++ Join [directory, name] ++ ": no such file or directory"))
  | some f =>
    if f.IsDir && f.Entries != 0 then
      (disk, some ("remove " ++ Join [directory, name] ++ ": directory not empty"))
    else (disk.filter (fun g => g.Name != name), none)

/-- `cleanupTmpFiles(directory, maxAge)` at the instant `now`: the entries of the
directory after the sweep.  `readErr` is the error of `ioutil.ReadDir`, whose listing
is sorted by name; the order only decides the order of the log lines, which are left
out.  The error of `os.Remove` is dropped, as in the source. -/
def cleanupTmpFiles (readErr : Option String) (now : Int) (directory : String)
    (maxAge : Int) (disk : List FileInfo) : List FileInfo :=
  match readErr with
  | some _ => disk
  | none =>
    let files := disk
    files.foldl
      (fun disk file =>
        if timeSub now file.ModTime > maxAge then (osRemove directory disk file.Name).1
        else disk)
      disk

/-- What the sweep is said to leave of a listing: the entries that are not older than
`maxAge`. -/
def notOlderThan (now maxAge : Int) (disk : List FileInfo) : List FileInfo :=
  disk.filter (fun f => decide (now - f.ModTime ≤ maxAge))

/-- A directory that holds entries. -/
def FileInfo.nonEmptyDir (f : FileInfo) : Bool :=
  f.IsDir && f.Entries != 0

/-! ## `common/errors`: the error values and their mapping to API errors -/

/-- A Go `error` value: the error types of package `commonerrors`, the library errors
that `ErrorToAPIError` looks for, and the untyped errors. -/
inductive GoError where
  | DBError (Op : String) (Err : GoError)
  | NotFoundError (Resource Identifier IdentifierValue : String)
  | TransactionError (Stage : String) (Err : GoError)
  | ConstraintViolationError (Constraint : String) (Err : GoError)
  | ValidationError (Field : String) (Err : GoError)
  | ForeignKeyViolationError (ForeignKey : String) (Err : GoError)
  | DataMismatchError (Err : GoError)
  /-- A `TokenError`; `ErrType` is its field `Type`. -/
  | TokenError (ErrType Message : String)
  | AccessDeniedError (Message : String)
  | RequestParsingError (Message : String)
  | RequestVariableError (VariableName Message : String)
  | MinIOError (Action Message : String)
  | FileValidationError (Message : String)
  /-- A `*jwt.ValidationError` with its bit field `Errors` and the text of `Error()`. -/
  | jwtValidationError (Errors : Nat) (text : String)
  /-- The value `redis.Nil`. -/
  | redisNil
  /-- The value `sql.ErrNoRows`. -/
  | sqlErrNoRows
  /-- A `*mysql.MySQLError` with its fields `Number` and `Message` and the text of
  `Error()`. -/
  | mysqlError (Number : Nat) (Message text : String)
  /-- The value of `errors.New(text)`, or of `fmt.Errorf` without `%w`. -/
  | plain (text : String)
  /-- The value of `fmt.Errorf` with `%w`: its text and the wrapped error. -/
  | wrapped (text : String) (inner : GoError)
deriving DecidableEq, Repr

/-- The method `Error()` of each error type. -/
def GoError.Error : GoError → String
  | .DBError Op Err => "db operation " ++ Op ++ " failed: " ++ Err.Error
  | .NotFoundError Resource Identifier IdentifierValue =>
    Resource ++ " with " ++ Identifier ++ " " ++ IdentifierValue ++ " not found"
  | .TransactionError Stage Err => "transaction " ++ Stage ++ " error: " ++ Err.Error
  | .ConstraintViolationError Constraint Err =>
    "constraint violation: " ++ Constraint ++ ", " ++ Err.Error
  | .ValidationError Field Err => "validation error: field " ++ Field ++ ", " ++ Err.Error
  | .ForeignKeyViolationError ForeignKey Err =>
    "foreign key violation: " ++ ForeignKey ++ ", " ++ Err.Error
  | .DataMismatchError Err => Err.Error
  | .TokenError ErrType Message => ErrType ++ ": " ++ Message
  | .AccessDeniedError Message => Message
  | .RequestParsingError Message => Message
  | .RequestVariableError VariableName Message =>
    "variable " ++ VariableName ++ " error: " ++ Message
  | .MinIOError Action Message => "MinIO error on " ++ Action ++ ": " ++ Message
  | .FileValidationError Message => "File validation error: " ++ Message
  | .jwtValidationError _ text => text
  | .redisNil => "redis: nil"
  | .sqlErrNoRows => "sql: no rows in result set"
  | .mysqlError _ _ text => text
  | .plain text => text
  | .wrapped text _ => text

/-- The call `errors.As(err, &ve)` for `ve *jwt.ValidationError`: the bit field of the
first JWT validation error in the chain of `Unwrap` (`DBError`, `TransactionError` and
the errors of `fmt.Errorf` with `%w` unwrap). -/
def asJWTValidationError : GoError → Option Nat
  | .jwtValidationError Errors _ => some Errors
  | .DBError _ Err => asJWTValidationError Err
  | .TransactionError _ Err => asJWTValidationError Err
  | .wrapped _ inner => asJWTValidationError inner
  | _ => none

/-- The call `errors.Is(err, redis.Nil)`. -/
def isRedisNil : GoError → Bool
  | .redisNil => true
  | .DBError _ Err => isRedisNil Err
  | .TransactionError _ Err => isRedisNil Err
  | .wrapped _ inner => isRedisNil inner
  | _ => false

def StatusOK : Int := 200
def StatusBadRequest : Int := 400
def StatusUnauthorized : Int := 401
def StatusForbidden : Int := 403
def StatusNotFound : Int := 404
def StatusInternalServerError : Int := 500

/-- The bits `jwt.ValidationErrorMalformed`, `jwt.ValidationErrorExpired` and
`jwt.ValidationErrorNotValidYet` of package `jwt-go`. -/
def ValidationErrorMalformed : Nat := 1
def ValidationErrorExpired : Nat := 16
def ValidationErrorNotValidYet : Nat := 128

/-- The error sent to a client (`APIError`). -/
structure APIError where
  StatusCode : Int
  Message : String
deriving DecidableEq, Repr

/-- `NewAPIError`. -/
def NewAPIError (statusCode : Int) (message : String) : APIError :=
  { StatusCode := statusCode, Message := message }

/-- `ErrorToAPIError`; `none` is `nil`. -/
def ErrorToAPIError (err : Option GoError) : Option APIError :=
  match err with
  | none => none
  | some e =>
    match e with
    | .DBError _ _ => some (NewAPIError StatusInternalServerError "Internal server error")
    | .NotFoundError Resource _ _ =>
      some (NewAPIError StatusNotFound (Resource ++ " not found"))
    | .ValidationError _ _ => some (NewAPIError StatusBadRequest e.Error)
    | .ForeignKeyViolationError _ _ =>
      some (NewAPIError StatusBadRequest "Invalid reference")
    | .ConstraintViolationError _ _ => some (NewAPIError StatusBadRequest e.Error)
    | .TransactionError _ _ =>
      some (NewAPIError StatusInternalServerError "Transaction error")
    | .TokenError ErrType Message =>
      if ErrType = "InvalidTokenFormat" ∨ ErrType = "TokenValidationFailed" then
        some (NewAPIError StatusUnauthorized Message)
      else if ErrType = "TokenExpired" then
        some (NewAPIError StatusUnauthorized "Token expired")
      else some (NewAPIError StatusInternalServerError Message)
    | .RequestParsingError _ => some (NewAPIError StatusBadRequest e.Error)
    | .RequestVariableError _ _ => some (NewAPIError StatusBadRequest e.Error)
    | .MinIOError _ _ =>
      some (NewAPIError StatusInternalServerError "File storage error")
    | .FileValidationError _ => some (NewAPIError StatusBadRequest e.Error)
    | .AccessDeniedError _ => some (NewAPIError StatusForbidden e.Error)
    | .DataMismatchError _ => some (NewAPIError StatusBadRequest "Invalid data format")
    | _ =>
      match asJWTValidationError e with
      | some Errors =>
        if Errors &&& ValidationErrorMalformed ≠ 0 then
          some (NewAPIError StatusUnauthorized "Invalid token format")
        else if Errors &&& ValidationErrorExpired ≠ 0 then
          some (NewAPIError StatusUnauthorized "Token expired")
        else if Errors &&& ValidationErrorNotValidYet ≠ 0 then
          some (NewAPIError StatusUnauthorized "Token not active yet")
        else some (NewAPIError StatusUnauthorized "Token validation failed")
      | none =>
        if isRedisNil e then
          some (NewAPIError StatusUnauthorized "Session not found or expired")
        else some (NewAPIError StatusInternalServerError "Unexpected error occurred")

/-- `WrapRequestParsingError`. -/
def WrapRequestParsingError (err : GoError) : GoError :=
  .RequestParsingError ("Failed to decode request body: " ++ err.Error)

/-- `WrapRequestVariableError`. -/
def WrapRequestVariableError (variableName : String) (err : GoError) : GoError :=
  .RequestVariableError variableName err.Error

/-- `NewAccessDeniedError`. -/
def NewAccessDeniedError (message : String) : GoError :=
  .AccessDeniedError message

/-- `NewFileValidationError`. -/
def NewFileValidationError (message : String) : GoError :=
  .FileValidationError message

/-- `NewDBError`. -/
def NewDBError (op errMsg : String) : GoError :=
  .DBError op (.plain errMsg)

/-- `NewConstraintViolationError`. -/
def NewConstraintViolationError (constraint errMsg : String) : GoError :=
  .ConstraintViolationError constraint (.plain errMsg)

/-- `NewValidationError`. -/
def NewValidationError (field errMsg : String) : GoError :=
  .ValidationError field (.plain errMsg)

/-- `NewForeignKeyViolationError`. -/
def NewForeignKeyViolationError (foreignKey errMsg : String) : GoError :=
  .ForeignKeyViolationError foreignKey (.plain errMsg)

/-- `NewDataMismatchError`. -/
def NewDataMismatchError (errMsg : String) : GoError :=
  .DataMismatchError (.plain errMsg)

/-- The call `errors.As(err, &mysqlErr)` for `mysqlErr *mysql.MySQLError`: the fields
`Number` and `Message` of the first MySQL error in the chain of `Unwrap`. -/
def asMySQLError : GoError → Option (Nat × String)
  | .mysqlError Number Message _ => some (Number, Message)
  | .DBError _ Err => asMySQLError Err
  | .TransactionError _ Err => asMySQLError Err
  | .wrapped _ inner => asMySQLError inner
  | _ => none

/-- The call `errors.Is(err, sql.ErrNoRows)`. -/
def isErrNoRows : GoError → Bool
  | .sqlErrNoRows => true
  | .DBError _ Err => isErrNoRows Err
  | .TransactionError _ Err => isErrNoRows Err
  | .wrapped _ inner => isErrNoRows inner
  | _ => false

/-- `strings.Contains(s, substr)`. -/
def stringsContains (s substr : String) : Bool :=
  occursIn substr.data s.data

/-- `handleTruncatedValueError`. -/
def handleTruncatedValueError : GoError :=
  NewDataMismatchError "The format of the input data is invalid."

/-- `handleDuplicateEntryError`, on the field `Message` of the MySQL error. -/
def handleDuplicateEntryError (message : String) : GoError :=
  if stringsContains message "username_unique" then
    NewConstraintViolationError "username" "This username is already in use."
  else NewDBError "INSERT" "A unique constraint violation occurred."

/-- `handleCheckConstraintError`, on the field `Message` of the MySQL error. -/
def handleCheckConstraintError (message : String) : GoError :=
  if stringsContains message "chk_Problems_Difficulty" then
    NewValidationError "Difficulty"
      "The difficulty value is out of range (integer value between 1 - 5)."
  else if stringsContains message "Data too long for column 'Username'" then
    NewValidationError "Username" "The Username length must be less than 255 characters."
  else NewDBError "CONSTRAINT" "A data constraint violation occurred."

/-- `handleForeignKeyError`, on the field `Message` of the MySQL error. -/
def handleForeignKeyError (message : String) : GoError :=
  if stringsContains message "fk_Solutions_Users" then
    NewForeignKeyViolationError "UserID" "The specified user does not exist."
  else if stringsContains message "fk_Solutions_Problems" then
    NewForeignKeyViolationError "ProblemID" "The specified problem does not exist."
  else NewDBError "FOREIGN_KEY" "A foreign key constraint violation occurred."

/-- `handleUnexpectedDBError`. -/
def handleUnexpectedDBError (op : String) : GoError :=
  NewDBError op "An unexpected error occurred during database operations."

/-- `WrapDBError`; `none` is `nil`. -/
def WrapDBError (op : String) (err : Option GoError) : Option GoError :=
  match err with
  | none => none
  | some e =>
    match asMySQLError e with
    | some (number, message) =>
      if number = 1062 then some (handleDuplicateEntryError message)
      else if number = 1406 ∨ number = 3819 then some (handleCheckConstraintError message)
      else if number = 1452 then some (handleForeignKeyError message)
      else if number = 1366 then some handleTruncatedValueError
      else some (handleUnexpectedDBError op)
    | none => some (NewDBError op e.Error)

/-! ## `common/utils/response.go` and `common/utils/request.go` -/

/-- A JSON value, as far as the responses need it. -/
inductive JSON where
  | null
  | number (n : Int)
  | string (s : String)
  | object (members : List (String × JSON))
deriving Repr

/-- The state of an `http.ResponseWriter`: the header map, the status line once it has
been written, and the values written to the body. -/
structure ResponseWriter where
  header : List (String × String)
  statusCode : Option Int
  body : List JSON
deriving Repr

/-- The writer a handler is called with: nothing has been written. -/
def ResponseWriter.fresh : ResponseWriter :=
  { header := [], statusCode := none, body := [] }

/-- The call `w.Header().Set(key, value)`. -/
def ResponseWriter.SetHeader (w : ResponseWriter) (key value : String) : ResponseWriter :=
  { w with header := mapSet w.header key value }

/-- `bodyAllowedForStatus` of package `net/http`: a response with a status 1xx, 204 or
304 has no body. -/
def bodyAllowedForStatus (status : Int) : Bool :=
  !((100 ≤ status && status ≤ 199) || status == 204 || status == 304)

/-- The call `w.Write(data)` with data that is not empty: when the status line has not
been written yet, `Write` first writes it with `http.StatusOK`; the data is then added
to the body, unless the status allows none. -/
def ResponseWriter.Write (w : ResponseWriter) (data : JSON) : ResponseWriter :=
  match w.statusCode with
  | none => { w with statusCode := some StatusOK, body := w.body ++ [data] }
  | some status =>
    if bodyAllowedForStatus status then { w with body := w.body ++ [data] } else w

/-- `SendErrorResponse`.  The three values of the map can always be encoded, so the
branch for a failed encoding is never taken.  The closure for `"message"` reads the
parameter `err`.  The function does not call `w.WriteHeader`. -/
def SendErrorResponse (w : ResponseWriter) (err : Option GoError) : ResponseWriter :=
  let w := w.SetHeader "Content-Type" "application/json"
  let apiErr := ErrorToAPIError err
  let statusCode : Int :=
    match apiErr with
    | none => StatusInternalServerError
    | some a => a.StatusCode
  let response := JSON.object
    [("message",
        match err with
        | some e => JSON.string e.Error
        | none => JSON.null),
      ("result", JSON.null), ("status", JSON.number statusCode)]
  w.Write response

/-- `DecodeRequestBody`; `decodeErr` is the error of `decoder.Decode(dst)`. -/
def DecodeRequestBody (decodeErr : Option GoError) : Option GoError :=
  match decodeErr with
  | some err => some (WrapRequestParsingError err)
  | none => none

/-- The error value of `BuildAndRunInContainer` for a language that is not registered
(lines 45-48): `fmt.Errorf("unsupported language ID: %d", solution.LanguageID)`. -/
def unsupportedLanguage (languageID : Int) : GoError :=
  .plain ("unsupported language ID: " ++ Itoa languageID)

/-! ## `web/utils/filecheck.go` -/

/-- The loop of `filepath.Ext` over the characters of the path from the last one on:
`seen` holds the characters passed so far. -/
def extLoop : List Char → List Char → List Char
  | [], _ => []
  | c :: rest, seen =>
    if c = '/' then []
    else if c = '.' then c :: seen
    else extLoop rest (c :: seen)

/-- `filepath.Ext(path)`: the suffix of the last element of the path that begins at its
last dot, empty when that element has no dot. -/
def Ext (path : String) : String :=
  String.mk (extLoop path.data.reverse [])

/-- One of the first two loops of `ValidateFiles`, over the names of the uploaded files:
`names` holds the keys of the map filled so far.  The result is the filled map, or the
error returned from inside the loop. -/
def checkFileNames : List String → List String → Except GoError (List String)
  | [], names => .ok names
  | file :: rest, names =>
    if Ext file ≠ ".txt" then
      .error (NewFileValidationError "拡張子が .txt ではないファイルが存在します")
    else if file ∈ names then
      .error (NewFileValidationError "重複するファイル名が存在します")
    else checkFileNames rest (names ++ [file])

/-- `ValidateFiles` on the names of the uploaded input and output files; `none` is
`nil`.  `rangeKeys` is the order in which `range` visits the keys of a map, which Go
leaves open. -/
def ValidateFiles (rangeKeys : List String → List String)
    (inputFiles outputFiles : List String) : Option GoError :=
  match checkFileNames inputFiles [] with
  | .error e => some e
  | .ok inputFileNames =>
    match checkFileNames outputFiles [] with
    | .error e => some e
    | .ok outputFileNames =>
      match (rangeKeys inputFileNames).find?
          (fun name => decide (name ∉ outputFileNames)) with
      | some inputFileName =>
        some (NewFileValidationError
          ("input_file: " ++ inputFileName ++ " に対応する output_file が存在しません"))
      | none =>
        match (rangeKeys outputFileNames).find?
            (fun name => decide (name ∉ inputFileNames)) with
        | some outputFileName =>
          some (NewFileValidationError
            ("output_file: " ++ outputFileName ++ " に対応する input_file が存在しません"))
        | none => none

/-- A name that ends in `.txt`. -/
def hasTxtExtension (name : String) : Prop :=
  ".txt".data <:+ name.data

/-! ## `web/database/db_problems.go` and `web/middleware/middleware.go` -/

/-- A row of the table `Problems`, with the two columns that the ownership query
reads. -/
structure ProblemRow where
  ProblemID : Int
  UserID : Int
deriving DecidableEq, Repr

/-- The call `db.QueryRow(query, problemID, userID).Scan(&exists)` for the query
`SELECT EXISTS(SELECT 1 FROM Problems WHERE ProblemID = ? AND UserID = ?)`: the query
has exactly one result row, which holds whether some row of the table meets the
condition; `queryErr` is the failure of the connection or the driver, if any. -/
def scanExists (table : List ProblemRow) (queryErr : Option GoError)
    (problemID userID : Int) : Except GoError Bool :=
  match queryErr with
  | some err => .error err
  | none =>
    .ok (table.any (fun row => row.ProblemID == problemID && row.UserID == userID))

/-- `IsProblemOwner`; `none` is `nil`.  The scanned value `exists` is not read. -/
def IsProblemOwner (table : List ProblemRow) (queryErr : Option GoError)
    (userID problemID : Int) : Option GoError :=
  match scanExists table queryErr problemID userID with
  | .error err =>
    if isErrNoRows err then
      some (NewAccessDeniedError "You do not have permission to access this resource")
    else WrapDBError "SELECT" (some err)
  | .ok _ => none

/-- `GetIntVarFromRequest`; `atoi` is the result of `strconv.Atoi(vars[varName])`. -/
def GetIntVarFromRequest (varName : String) (atoi : Except GoError Int) :
    Except GoError Int :=
  match atoi with
  | .error err => .error (WrapRequestVariableError varName err)
  | .ok value => .ok value

/-- What a middleware has done with a request: the response it wrote, and whether it
called the next handler. -/
structure Served where
  w : ResponseWriter
  nextCalled : Bool
deriving Repr

/-- The handler made by `ProblemOwnerMiddlewareFactory(db)(next)`.  `authenticated` is
the result of `webutils.IsUserAuthenticated(r)`, the field `UserID` of the claims or
the error, and `atoi` the result of `strconv.Atoi` on the path variable `problem_id`. -/
def ProblemOwnerMiddlewareFactory (table : List ProblemRow) (queryErr : Option GoError)
    (authenticated : Except GoError Int) (atoi : Except GoError Int) : Served :=
  match authenticated with
  | .error err => ⟨SendErrorResponse ResponseWriter.fresh (some err), false⟩
  | .ok claimsUserID =>
    match GetIntVarFromRequest "problem_id" atoi with
    | .error err => ⟨SendErrorResponse ResponseWriter.fresh (some err), false⟩
    | .ok problemID =>
      match IsProblemOwner table queryErr claimsUserID problemID with
      | some err => ⟨SendErrorResponse ResponseWriter.fresh (some err), false⟩
      | none => ⟨ResponseWriter.fresh, true⟩

/-- A table in which the problem 7 belongs to the user 1. -/
def sampleProblems : List ProblemRow :=
  [⟨7, 1⟩]

/-! ## Sample environments, used to instantiate the theorems -/

/-- An environment in which every call succeeds: the problem has the one test case
`a.txt`, and the sandbox prints a timing marker of 5000 ns and no difference. -/
def sampleEnv : Env where
  tempDir := fun _ _ call => .ok (Nat.repr (100 + call))
  createFile := fun _ => none
  writeString := fun _ _ => none
  writeFile := fun _ _ => none
  downloadIOFiles := fun _ => none
  readDir := fun _ => .ok [⟨"a.txt", false⟩]
  readFile := fun _ => .ok "1\n"
  runCommand := fun _ => ("Execution time: 5000 nanoseconds\n", none)

/-- As `sampleEnv`, but the input directory also holds `b.txt`, which has no readable
counterpart in the output directory. -/
def unpairedEnv : Env :=
  { sampleEnv with
    readDir := fun path =>
      if path = "/tmp/problem_7/in" then .ok [⟨"a.txt", false⟩, ⟨"b.txt", false⟩]
      else .ok [⟨"a.txt", false⟩]
    readFile := fun path =>
      if path = "/tmp/problem_7/out/b.txt" then .error "no such file or directory"
      else .ok "1\n" }

/-- As `sampleEnv`, but no scratch directory can be created. -/
def scratchFailEnv : Env :=
  { sampleEnv with
    tempDir := fun _ pattern call =>
      if pattern = "judge_" then .error "mkdir /tmp/judge_1: no space left on device"
      else .ok (Nat.repr (100 + call)) }

/-- As `sampleEnv`, but the sandbox process is killed because the context has ended. -/
def killedEnv : Env :=
  { sampleEnv with runCommand := fun _ => ("", some "signal: killed") }

/-- An environment with the two test cases `a.txt` and `b.txt`: the run of `a.txt`
prints its timing marker and exits with status 0; in the run of `b.txt` the comparison
step finds a difference, so `diff -q` prints its message and the pipeline exits with
status 1. -/
def wrongAnswerEnv : Env :=
  { sampleEnv with
    readDir := fun _ => .ok [⟨"a.txt", false⟩, ⟨"b.txt", false⟩]
    runCommand := fun cmd =>
      if occursIn "/workspace/io/in/b.txt".data cmd.data then
        ("Execution time: 5000 nanoseconds\n" ++
          "Files /workspace/tmp/tempfile.txt and /workspace/io/out/b.txt differ\n",
          some "exit status 1")
      else ("Execution time: 5000 nanoseconds\n", none) }

/-- As `sampleEnv`, but the program never ends: after the time limit `timeout` ends the
timed shell, which therefore prints no timing marker, and the pipeline exits with
status 143. -/
def timedOutEnv : Env :=
  { sampleEnv with runCommand := fun _ => ("", some "exit status 143") }

/-- As `sampleEnv`, but the code file cannot be created inside the staging directory. -/
def createFailEnv : Env :=
  { sampleEnv with createFile := fun _ => some "no space left on device" }

/-- As `sampleEnv`, but the source text cannot be written to the code file. -/
def writeFailEnv : Env :=
  { sampleEnv with writeString := fun _ _ => some "no space left on device" }

/-- The retention directory `/tmp` three hours after the instant 0: a leaked workspace
with its code file, an emptied scratch directory and a stray file, all made at the
instant 0, and the scratch directory of a run started ten minutes ago. -/
def sampleTmp : List FileInfo :=
  [⟨"codeDir_100", 0, true, 1⟩, ⟨"judge_7", 0, true, 0⟩, ⟨"old.log", 0, false, 0⟩,
    ⟨"judge_200", 10200000000000, true, 1⟩]

/-- An environment with the two test cases `a.txt` and `b.txt`: the run of `a.txt`
prints its timing marker and exits with status 0; the run of `b.txt` is still going on
when the context ends, and its process is killed. -/
def deadlineEnv : Env :=
  { sampleEnv with
    readDir := fun _ => .ok [⟨"a.txt", false⟩, ⟨"b.txt", false⟩]
    runCommand := fun cmd =>
      if occursIn "/workspace/io/in/b.txt".data cmd.data then ("", some "signal: killed")
      else ("Execution time: 5000 nanoseconds\n", none) }

/-- A C++ submission for problem 7. -/
def sampleSolution : Solution :=
  { SolutionID := 1, UserID := 1, ProblemID := 7, LanguageID := 2,
    Code := "int main(){}" }

/-! # Theorems -/

/-! ## Classification of one case -/

/-- The millisecond test of the classification, in nanoseconds: the truncated quotient
by `1_000_000` is above 2000 exactly from 2,001,000,000 ns on. -/
theorem tdiv_million_gt_iff (t : Int) : Int.tdiv t 1000000 > 2000 ↔ t ≥ 2001000000 := by
  rcases Int.lt_or_le t 0 with hneg | hpos
  · have h1 : Int.tdiv (-t) 1000000 ≥ 0 := Int.tdiv_nonneg (by omega) (by omega)
    have h2 : Int.tdiv t 1000000 = -Int.tdiv (-t) 1000000 := by
      rw [Int.neg_tdiv, Int.neg_neg]
    constructor
    · intro h; omega
    · intro h; omega
  · rw [Int.tdiv_eq_ediv hpos (by omega)]
    constructor
    · intro h; omega
    · intro h; omega

/-- C1 as stated fails: a clean run without output difference that took 2,000,500,000 ns,
that is 2000.5 ms and so above the threshold of 2000 ms, is classified "PASSED", not
"TIME LIMITED EXCEEDED". -/
theorem classifyCase_priority_counterexample :
    (2000500000 : Int) > 2000 * 1000000 ∧
      (classifyCase ResultDetail.zero ⟨true, 2000500000, false, ""⟩).2 = "PASSED" ∧
      (classifyCase ResultDetail.zero ⟨true, 2000500000, false, ""⟩).2 ≠
        "TIME LIMITED EXCEEDED" := by
  decide

/-- C1, amended.  The verdict of a case follows the priority order of the source: a
non-empty error message gives "INTERNAL ERROR" whatever the diff flag and the elapsed
time are; otherwise an output difference gives "FAILED" whatever the elapsed time is;
otherwise an elapsed time of at least 2,001,000,000 ns, that is of more than 2000 whole
milliseconds, gives "TIME LIMITED EXCEEDED"; otherwise, for every elapsed time below
2,001,000,000 ns, the verdict is "PASSED".  The verdict is always one of these four
texts. -/
theorem classifyCase_priority (results : ResultDetail) (success diff : Bool)
    (nanos : Int) (message : String) :
    (message ≠ "" →
      (classifyCase results ⟨success, nanos, diff, message⟩).2 = "INTERNAL ERROR") ∧
    ((classifyCase results ⟨success, nanos, true, ""⟩).2 = "FAILED") ∧
    (nanos ≥ 2001000000 →
      (classifyCase results ⟨success, nanos, false, ""⟩).2 = "TIME LIMITED EXCEEDED") ∧
    (nanos < 2001000000 →
      (classifyCase results ⟨success, nanos, false, ""⟩).2 = "PASSED") ∧
    (classifyCase results ⟨success, nanos, diff, message⟩).2 ∈
      ["PASSED", "FAILED", "TIME LIMITED EXCEEDED", "INTERNAL ERROR"] := by
  refine ⟨?_, ?_, ?_, ?_, ?_⟩
  · intro h
    simp [classifyCase, h]
  · simp [classifyCase]
  · intro h
    have hms : Int.tdiv nanos 1000000 > 2000 := (tdiv_million_gt_iff nanos).2 h
    simp [classifyCase, hms]
  · intro h
    have hms : ¬ Int.tdiv nanos 1000000 > 2000 :=
      fun hgt => absurd ((tdiv_million_gt_iff nanos).1 hgt) (by omega)
    simp [classifyCase, hms]
  · unfold classifyCase
    split_ifs <;> simp

/-- Witness of the amended C1: a crashed run whose output also differs and which ran for
three seconds is an "INTERNAL ERROR"; a clean run of 2,001,000,000 ns is a time-out, and
clean runs of 2,000,500,000 ns and of 2,000,999,999 ns are "PASSED". -/
theorem classifyCase_priority_witness :
    (classifyCase ResultDetail.zero ⟨false, 3000000000, true, "exit status 1"⟩).2
        = "INTERNAL ERROR" ∧
      (classifyCase ResultDetail.zero ⟨true, 2001000000, false, ""⟩).2
        = "TIME LIMITED EXCEEDED" ∧
      (classifyCase ResultDetail.zero ⟨true, 2000500000, false, ""⟩).2 = "PASSED" ∧
      (classifyCase ResultDetail.zero ⟨true, 2000999999, false, ""⟩).2 = "PASSED" :=
  ⟨(classifyCase_priority ResultDetail.zero false true 3000000000 "exit status 1").1
      (by decide),
    (classifyCase_priority ResultDetail.zero true false 2001000000 "").2.2.1 (by decide),
    (classifyCase_priority ResultDetail.zero true false 2000500000 "").2.2.2.1
      (by decide),
    (classifyCase_priority ResultDetail.zero true false 2000999999 "").2.2.2.1
      (by decide)⟩

/-- C2 as stated fails: a clean run without output difference that took
2,000,000,001 ns, which is more than 2,000,000,000 ns, is classified "PASSED". -/
theorem classifyCase_threshold_counterexample :
    ¬ (∀ (results : ResultDetail) (r : ExecutionResult),
        r.ErrorMessage = "" → r.OutputDiff = false →
        ((classifyCase results r).2 = "TIME LIMITED EXCEEDED" ↔
          r.ExecutionTime > 2000000000)) := by
  intro h
  have h1 := h ResultDetail.zero ⟨true, 2000000001, false, ""⟩ rfl rfl
  have h2 : (classifyCase ResultDetail.zero ⟨true, 2000000001, false, ""⟩).2 = "PASSED" := by
    decide
  rw [h2] at h1
  exact absurd (h1.mpr (by decide)) (by decide)

/-- C2, amended. For an outcome with no error message and no output difference the
verdict is "TIME LIMITED EXCEEDED" exactly when the elapsed time in whole milliseconds
(nanoseconds divided by 1,000,000, rounded toward zero) is above 2000, that is exactly
when the elapsed nanoseconds are at least 2,001,000,000; otherwise it is "PASSED". -/
theorem classifyCase_threshold (results : ResultDetail) (r : ExecutionResult)
    (herr : r.ErrorMessage = "") (hdiff : r.OutputDiff = false) :
    ((classifyCase results r).2 = "TIME LIMITED EXCEEDED" ↔
        Int.tdiv r.ExecutionTime 1000000 > 2000) ∧
    ((classifyCase results r).2 = "TIME LIMITED EXCEEDED" ↔
        r.ExecutionTime ≥ 2001000000) ∧
    ((classifyCase results r).2 = "PASSED" ↔ r.ExecutionTime < 2001000000) := by
  have key := tdiv_million_gt_iff r.ExecutionTime
  by_cases h : Int.tdiv r.ExecutionTime 1000000 > 2000
  · have hv : (classifyCase results r).2 = "TIME LIMITED EXCEEDED" := by
      simp [classifyCase, herr, hdiff, h]
    have hge := key.mp h
    rw [hv]
    refine ⟨by simp [h], by simp [hge], ?_⟩
    constructor
    · intro hc; exact absurd hc (by decide)
    · intro hc; omega
  · have hv : (classifyCase results r).2 = "PASSED" := by
      simp [classifyCase, herr, hdiff, h]
    have hlt : r.ExecutionTime < 2001000000 := by
      rcases Int.lt_or_le r.ExecutionTime 2001000000 with h1 | h1
      · exact h1
      · exact absurd (key.mpr h1) h
    rw [hv]
    refine ⟨?_, ?_, by simp [hlt]⟩
    · constructor
      · intro hc; exact absurd hc (by decide)
      · intro hc; exact absurd hc h
    · constructor
      · intro hc; exact absurd hc (by decide)
      · intro hc; omega

/-- Witness of the amended C2 at the boundary: 2,000,999,999 ns is still "PASSED" and
2,001,000,000 ns is the first time-out. -/
theorem classifyCase_threshold_witness :
    (classifyCase ResultDetail.zero ⟨true, 2000999999, false, ""⟩).2 = "PASSED" ∧
      (classifyCase ResultDetail.zero ⟨true, 2001000000, false, ""⟩).2
        = "TIME LIMITED EXCEEDED" :=
  ⟨(classifyCase_threshold ResultDetail.zero ⟨true, 2000999999, false, ""⟩ rfl rfl).2.2.mpr
      (by decide),
    (classifyCase_threshold ResultDetail.zero ⟨true, 2001000000, false, ""⟩ rfl rfl).2.1.mpr
      (by decide)⟩

/-- C3. Classifying one case adds exactly 1 to exactly one of the counters
`CorrectCases`, `IncorrectCases`, `TimeLimitExceeded` and leaves the other two,
`TotalCases` and the rest of the summary as they were: "PASSED" counts as correct,
"FAILED" and "INTERNAL ERROR" as incorrect, "TIME LIMITED EXCEEDED" as time-out. -/
theorem classifyCase_counts (results : ResultDetail) (r : ExecutionResult) :
    (classifyCase results r).1.TotalCases = results.TotalCases ∧
    (classifyCase results r).1.CaseResults = results.CaseResults ∧
    (classifyCase results r).1.ErrorMessage = results.ErrorMessage ∧
    (((classifyCase results r).2 = "PASSED" ∧
        (classifyCase results r).1.CorrectCases = results.CorrectCases + 1 ∧
        (classifyCase results r).1.IncorrectCases = results.IncorrectCases ∧
        (classifyCase results r).1.TimeLimitExceeded = results.TimeLimitExceeded) ∨
      (((classifyCase results r).2 = "FAILED" ∨
          (classifyCase results r).2 = "INTERNAL ERROR") ∧
        (classifyCase results r).1.CorrectCases = results.CorrectCases ∧
        (classifyCase results r).1.IncorrectCases = results.IncorrectCases + 1 ∧
        (classifyCase results r).1.TimeLimitExceeded = results.TimeLimitExceeded) ∨
      ((classifyCase results r).2 = "TIME LIMITED EXCEEDED" ∧
        (classifyCase results r).1.CorrectCases = results.CorrectCases ∧
        (classifyCase results r).1.IncorrectCases = results.IncorrectCases ∧
        (classifyCase results r).1.TimeLimitExceeded = results.TimeLimitExceeded + 1)) := by
  unfold classifyCase
  split_ifs <;> simp

/-! ## The language registry -/

/-- An id outside 1..5 is not found, and the zero profile comes back. -/
theorem GetLanguageConfigByID_not_found (id : Int)
    (h : id ∉ [(1 : Int), 2, 3, 4, 5]) :
    GetLanguageConfigByID id = (LanguageConfig.zero, false) := by
  simp only [List.mem_cons, List.mem_singleton, List.not_mem_nil, or_false, not_or] at h
  obtain ⟨h1, h2, h3, h4, h5⟩ := h
  have e1 : (id == 1) = false := by simpa using h1
  have e2 : (id == 2) = false := by simpa using h2
  have e3 : (id == 3) = false := by simpa using h3
  have e4 : (id == 4) = false := by simpa using h4
  have e5 : (id == 5) = false := by simpa using h5
  simp only [GetLanguageConfigByID, SupportedLanguages, List.lookup, e1, e2, e3, e4, e5]

/-- The keys of the registry are 1 to 5. -/
theorem SupportedLanguages_keys :
    SupportedLanguages.map Prod.fst = [(1 : Int), 2, 3, 4, 5] := by
  decide

/-- C6. `GetLanguageConfigByID id` reports `found = true` exactly for the registered
ids 1 to 5; the profile it then returns is the registered entry for `id`, whose
`LanguageID` is `id`; for every other id it reports `false` together with the zero
profile, which is the profile of no registered language. -/
theorem GetLanguageConfigByID_spec (id : Int) :
    ((GetLanguageConfigByID id).2 = true ↔ id ∈ [(1 : Int), 2, 3, 4, 5]) ∧
    ((GetLanguageConfigByID id).2 = true →
      (id, (GetLanguageConfigByID id).1) ∈ SupportedLanguages ∧
      (GetLanguageConfigByID id).1.LanguageID = id) ∧
    ((GetLanguageConfigByID id).2 = false →
      (GetLanguageConfigByID id).1 = LanguageConfig.zero ∧
      ∀ entry ∈ SupportedLanguages, (GetLanguageConfigByID id).1 ≠ entry.2) := by
  by_cases h1 : id = 1
  · subst h1; decide
  by_cases h2 : id = 2
  · subst h2; decide
  by_cases h3 : id = 3
  · subst h3; decide
  by_cases h4 : id = 4
  · subst h4; decide
  by_cases h5 : id = 5
  · subst h5; decide
  have hnone : GetLanguageConfigByID id = (LanguageConfig.zero, false) :=
    GetLanguageConfigByID_not_found id (by simp [h1, h2, h3, h4, h5])
  rw [hnone]
  refine ⟨by simp [h1, h2, h3, h4, h5], by simp, ?_⟩
  intro _
  refine ⟨rfl, ?_⟩
  decide

/-- Witness of C6: id 3 is found with the Go profile, id 0 and id 6 are not found. -/
theorem GetLanguageConfigByID_spec_witness :
    ((3, (GetLanguageConfigByID 3).1) ∈ SupportedLanguages ∧
        (GetLanguageConfigByID 3).1.LanguageID = 3) ∧
      ((GetLanguageConfigByID 6).1 = LanguageConfig.zero ∧
        ∀ entry ∈ SupportedLanguages, (GetLanguageConfigByID 6).1 ≠ entry.2) :=
  ⟨(GetLanguageConfigByID_spec 3).2.1 (by decide),
    (GetLanguageConfigByID_spec 6).2.2 (by decide)⟩

/-! ## The sandbox command -/

/-- The joined isolation options, as they stand in every command. -/
theorem securityOpts_joined :
    stringsJoin securityOpts " " =
      "--net=none --read-only --tmpfs /workspace:rw,size=512m --cap-drop=ALL" := by
  decide

/-- C10. Every built command has the same sandbox policy around the language-dependent
parts: it begins with `docker run --rm` and the four isolation options `--net=none`,
`--read-only`, `--tmpfs /workspace:rw,size=512m`, `--cap-drop=ALL`, continues with the
three mounts, which are made from the paths only, and has `--memory 512m --cpus 1.0`
directly before the image of the profile, which is followed by the in-container
script.  The flags are the same text for every profile. -/
theorem buildDockerRunCommandWithTimeout_policy
    (codeFilePath inputFilePath tempFilePath outputFilePath : String)
    (problemID timeoutSec : Int) (langConfig : LanguageConfig) :
    buildDockerRunCommandWithTimeout langConfig codeFilePath inputFilePath tempFilePath
        outputFilePath problemID timeoutSec =
      "docker run --rm --net=none --read-only --tmpfs /workspace:rw,size=512m --cap-drop=ALL "
        ++ (codeFileVolume codeFilePath ++ " " ++ ioVolumeMapping problemID ++ " "
          ++ tempFileVolume tempFilePath)
        ++ " --memory 512m --cpus 1.0 " ++ langConfig.Image
        ++ (" /bin/sh -c \""
          ++ (commandWithTimeout langConfig codeFilePath inputFilePath tempFilePath timeoutSec
            ++ compareScript tempFilePath outputFilePath)
          ++ "\"") := by
  unfold buildDockerRunCommandWithTimeout
  simp only [securityOpts_joined, memoryLimit, cpuLimit]
  simp only [String.append_assoc]
  rfl

/-! ## Failures before the fan-out -/

/-- C5. For a language id that is not a key of the registry, `BuildAndRunInContainer`
returns a nil summary and the error "unsupported language ID: <id>" without having
performed any call: no directory is created, nothing is downloaded or listed, no
command is run, whatever the environment and the schedule are.  `SaveCodeToFile`
rejects such an id in the same way before creating anything. -/
theorem BuildAndRunInContainer_unknown_language (env : Env) (sched : List Event)
    (solution : Solution)
    (hunknown : solution.LanguageID ∉ SupportedLanguages.map Prod.fst) :
    BuildAndRunInContainer env sched solution =
        some ⟨none, some ("unsupported language ID: " ++ Itoa solution.LanguageID), []⟩ ∧
      (SaveCodeToFile env solution.LanguageID solution.Code).1.err =
        some ("unsupported language ID: " ++ Itoa solution.LanguageID) ∧
      (SaveCodeToFile env solution.LanguageID solution.Code).2 = [] := by
  rw [SupportedLanguages_keys] at hunknown
  have hnone := GetLanguageConfigByID_not_found solution.LanguageID hunknown
  refine ⟨?_, ?_, ?_⟩
  · simp [BuildAndRunInContainer, hnone]
  · simp [SaveCodeToFile, hnone]
  · simp [SaveCodeToFile, hnone]

/-- Witness of C5: language id 9 is rejected with an empty trace. -/
theorem BuildAndRunInContainer_unknown_language_witness :
    BuildAndRunInContainer sampleEnv [Event.task 0 false, Event.recvResult]
          { sampleSolution with LanguageID := 9 } =
        some ⟨none, some ("unsupported language ID: " ++ Itoa 9), []⟩ ∧
      (SaveCodeToFile sampleEnv 9 sampleSolution.Code).1.err =
        some ("unsupported language ID: " ++ Itoa 9) ∧
      (SaveCodeToFile sampleEnv 9 sampleSolution.Code).2 = [] :=
  BuildAndRunInContainer_unknown_language sampleEnv [Event.task 0 false, Event.recvResult]
    { sampleSolution with LanguageID := 9 } (by decide)

/-- Staging performs no scratch-file or sandbox call. -/
theorem SaveCodeToFile_effects (env : Env) (languageID : Int) (code : String) :
    ∀ eff ∈ (SaveCodeToFile env languageID code).2, eff.isScratchOrSandbox = false := by
  unfold SaveCodeToFile
  split
  split
  · simp
  · split
    · simp [Effect.isScratchOrSandbox]
    · simp only []
      split
      · simp [Effect.isScratchOrSandbox]
      · split <;> simp [Effect.isScratchOrSandbox]

/-- A successful staging has created the directory that its cleanup removes. -/
theorem SaveCodeToFile_created (env : Env) (languageID : Int) (code : String)
    (codeFilePath : String) (langConfig : LanguageConfig) (codeDir : String)
    (staged : List Effect)
    (h : SaveCodeToFile env languageID code =
      (⟨codeFilePath, langConfig, some codeDir, none⟩, staged)) :
    Effect.mkdirTemp "/tmp" "codeDir_" (some codeDir) ∈ staged ∧
      (GetLanguageConfigByID languageID).2 = true := by
  unfold SaveCodeToFile at h
  split at h
  rename_i cfg ok hcfg
  split at h
  · simp at h
  · rename_i hok
    have hok' : ok = true := by simpa using hok
    split at h
    · simp at h
    · simp only [] at h
      split at h
      · simp at h
      · split at h
        · simp at h
        · simp only [Prod.mk.injEq, SaveCodeResult.mk.injEq] at h
          obtain ⟨⟨_, _, hdir, _⟩, hst⟩ := h
          simp only [Option.some.injEq] at hdir
          subst hdir
          subst hst
          simp [hcfg, hok']

/-- The loop of `getTestCases` only reads files. -/
theorem getTestCasesLoop_effects (env : Env) (inDir outDir : String) :
    ∀ (entries : List DirEntry) (testCases : List (String × String)) (done : List Effect),
      (∀ eff ∈ done, eff.isScratchOrSandbox = false) →
      ∀ eff ∈ (getTestCasesLoop env inDir outDir entries testCases done).2,
        eff.isScratchOrSandbox = false := by
  intro entries
  induction entries with
  | nil => intro testCases done hdone; simpa [getTestCasesLoop] using hdone
  | cons inFile rest ih =>
    intro testCases done hdone
    unfold getTestCasesLoop
    have hdone' : ∀ eff ∈ done ++ [Effect.readFile (Join [outDir, inFile.Name])],
        eff.isScratchOrSandbox = false := by
      intro eff heff
      rcases List.mem_append.mp heff with h | h
      · exact hdone eff h
      · simp only [List.mem_singleton] at h
        subst h
        rfl
    split
    · simp only []
      split
      · exact ih _ _ hdone'
      · exact hdone'
    · exact ih _ _ hdone

/-- The loop of `getTestCases` fails as soon as one plain input file has no readable
file of the same name in the output directory. -/
theorem getTestCasesLoop_missing (env : Env) (inDir outDir : String) :
    ∀ (entries : List DirEntry) (testCases : List (String × String)) (done : List Effect),
      (∃ e ∈ entries, e.IsDir = false ∧
        ∃ msg, env.readFile (Join [outDir, e.Name]) = .error msg) →
      ∃ err, (getTestCasesLoop env inDir outDir entries testCases done).1 = .error err := by
  intro entries
  induction entries with
  | nil => intro _ _ h; obtain ⟨e, he, _⟩ := h; simp at he
  | cons inFile rest ih =>
    intro testCases done h
    obtain ⟨e, he, hfile, msg, hmsg⟩ := h
    unfold getTestCasesLoop
    rcases List.mem_cons.mp he with heq | hrest
    · subst heq
      simp [hfile, hmsg]
    · have hex : ∃ e ∈ rest, e.IsDir = false ∧
          ∃ msg, env.readFile (Join [outDir, e.Name]) = .error msg :=
        ⟨e, hrest, hfile, msg, hmsg⟩
      split
      · simp only []
        split
        · exact ih _ _ hex
        · exact ⟨_, rfl⟩
      · exact ih _ _ hex

/-- Resolving the test cases only lists directories and reads files. -/
theorem getTestCases_effects (env : Env) (problemID : Int) :
    ∀ eff ∈ (getTestCases env problemID).2, eff.isScratchOrSandbox = false := by
  unfold getTestCases
  simp only []
  split
  · simp [Effect.isScratchOrSandbox]
  · split
    · simp [Effect.isScratchOrSandbox]
    · apply getTestCasesLoop_effects
      simp [Effect.isScratchOrSandbox]

/-- C8. When the code has been staged and some plain file of the input directory has no
readable file of the same name in the output directory, `BuildAndRunInContainer`
returns a nil summary and an error, whatever the schedule is; up to the return there is
no call that creates a scratch directory or scratch file and no command execution, and
the last call performed is the removal of the staged source directory, the one that
staging created. -/
theorem BuildAndRunInContainer_unpaired (env : Env) (sched : List Event)
    (solution : Solution) (codeFilePath : String) (langConfig : LanguageConfig)
    (codeDir : String) (staged : List Effect)
    (hstage : SaveCodeToFile env solution.LanguageID solution.Code =
      (⟨codeFilePath, langConfig, some codeDir, none⟩, staged))
    (entries : List DirEntry)
    (hin : env.readDir (GetFileSaveName "/tmp" solution.ProblemID "in" "") = .ok entries)
    (inFile : DirEntry) (hmem : inFile ∈ entries) (hfile : inFile.IsDir = false)
    (msg : String)
    (hmiss : env.readFile
      (Join [GetFileSaveName "/tmp" solution.ProblemID "out" "", inFile.Name]) =
        .error msg) :
    ∃ err trace,
      BuildAndRunInContainer env sched solution = some ⟨none, some err, trace⟩ ∧
      (∀ eff ∈ trace, eff.isScratchOrSandbox = false) ∧
      Effect.mkdirTemp "/tmp" "codeDir_" (some codeDir) ∈ trace ∧
      trace.getLast? = some (Effect.removeAll codeDir) := by
  obtain ⟨hcreated, hok⟩ := SaveCodeToFile_created env _ _ _ _ _ _ hstage
  have hstaged := SaveCodeToFile_effects env solution.LanguageID solution.Code
  rw [hstage] at hstaged
  have hlisted := getTestCases_effects env solution.ProblemID
  have hfail : ∃ err, (getTestCases env solution.ProblemID).1 = .error err := by
    unfold getTestCases
    simp only [hin]
    split
    · exact ⟨_, rfl⟩
    · exact getTestCasesLoop_missing env _ _ entries [] _ ⟨inFile, hmem, hfile, msg, hmiss⟩
  obtain ⟨err, herr⟩ := hfail
  unfold BuildAndRunInContainer
  rw [hstage]
  cases hget : getTestCases env solution.ProblemID with
  | mk res listed =>
    rw [hget] at herr hlisted
    simp only at herr hlisted
    subst herr
    cases hdl : env.downloadIOFiles solution.ProblemID with
    | some e =>
      refine ⟨e, staged ++ [Effect.download solution.ProblemID] ++ [Effect.removeAll codeDir],
        ?_, ?_, ?_, ?_⟩
      · simp [hok, deferredCleanup]
      · intro eff heff
        simp only [List.mem_append, List.mem_singleton] at heff
        rcases heff with (h | h) | h
        · exact hstaged eff h
        · subst h; rfl
        · subst h; rfl
      · simp [hcreated]
      · exact List.getLast?_concat _
    | none =>
      refine ⟨err, staged ++ [Effect.download solution.ProblemID] ++ listed
        ++ [Effect.removeAll codeDir], ?_, ?_, ?_, ?_⟩
      · simp [hok, deferredCleanup]
      · intro eff heff
        simp only [List.mem_append, List.mem_singleton] at heff
        rcases heff with ((h | h) | h) | h
        · exact hstaged eff h
        · subst h; rfl
        · exact hlisted eff h
        · subst h; rfl
      · simp [hcreated]
      · exact List.getLast?_concat _

/-- Witness of C8: with `b.txt` unpaired the run of the sample submission fails after
staging, and the staged directory `/tmp/codeDir_100` is removed last. -/
theorem BuildAndRunInContainer_unpaired_witness :
    ∃ err trace,
      BuildAndRunInContainer unpairedEnv [Event.task 0 false, Event.recvResult]
        sampleSolution = some ⟨none, some err, trace⟩ ∧
      (∀ eff ∈ trace, eff.isScratchOrSandbox = false) ∧
      Effect.mkdirTemp "/tmp" "codeDir_" (some "/tmp/codeDir_100") ∈ trace ∧
      trace.getLast? = some (Effect.removeAll "/tmp/codeDir_100") :=
  BuildAndRunInContainer_unpaired unpairedEnv [Event.task 0 false, Event.recvResult]
    sampleSolution "/tmp/codeDir_100/solution.cpp" (GetLanguageConfigByID 2).1
    "/tmp/codeDir_100"
    [Effect.mkdirTemp "/tmp" "codeDir_" (some "/tmp/codeDir_100"),
      Effect.createFile "/tmp/codeDir_100/solution.cpp",
      Effect.writeString "/tmp/codeDir_100/solution.cpp" "int main(){}"]
    (by decide) [⟨"a.txt", false⟩, ⟨"b.txt", false⟩] rfl ⟨"b.txt", false⟩
    (by decide) rfl "no such file or directory" rfl

/-! ## Paths made by the judge -/

/-- A text without `/` is a single path element. -/
theorem splitSlash_of_no_slash (e : List Char) (h : '/' ∉ e) : splitSlash e = [e] := by
  induction e with
  | nil => rfl
  | cons c cs ih =>
    have hc : c ≠ '/' := fun hc => h (by simp [hc])
    have hcs : '/' ∉ cs := fun hcs => h (List.mem_cons_of_mem _ hcs)
    simp [splitSlash, hc, ih hcs]

/-- The first `/` after a text without `/` ends the first path element. -/
theorem splitSlash_append_slash (e rest : List Char) (h : '/' ∉ e) :
    splitSlash (e ++ '/' :: rest) = e :: splitSlash rest := by
  induction e with
  | nil => simp [splitSlash]
  | cons c cs ih =>
    have hc : c ≠ '/' := fun hc => h (by simp [hc])
    have hcs : '/' ∉ cs := fun hcs => h (List.mem_cons_of_mem _ hcs)
    simp [splitSlash, hc, ih hcs]

/-- Splitting undoes joining with `/`, for elements without `/`. -/
theorem splitSlash_intercalate (elems : List (List Char)) (hne : elems ≠ [])
    (h : ∀ e ∈ elems, '/' ∉ e) : splitSlash (['/'].intercalate elems) = elems := by
  induction elems with
  | nil => exact absurd rfl hne
  | cons e rest ih =>
    cases rest with
    | nil =>
      have : ['/'].intercalate [e] = e := by simp [List.intercalate]
      rw [this]
      exact splitSlash_of_no_slash e (h e (by simp))
    | cons e' rest' =>
      have hstep : ['/'].intercalate (e :: e' :: rest') =
          e ++ '/' :: ['/'].intercalate (e' :: rest') := by
        simp [List.intercalate, List.intersperse]
      rw [hstep, splitSlash_append_slash e _ (h e (by simp)),
        ih (by simp) (fun x hx => h x (List.mem_cons_of_mem _ hx))]

/-- Cleaning below the root keeps every element that is neither empty nor a dot
element. -/
theorem foldl_cleanStep_plain (elems : List (List Char))
    (h : ∀ e ∈ elems, e ≠ ['.'] ∧ e ≠ ['.', '.']) (acc : List (List Char)) :
    elems.foldl (cleanStep true) acc =
      (elems.filter (fun e => decide (e ≠ []))).reverse ++ acc := by
  induction elems generalizing acc with
  | nil => simp
  | cons e rest ih =>
    have hrest : ∀ x ∈ rest, x ≠ ['.'] ∧ x ≠ ['.', '.'] :=
      fun x hx => h x (List.mem_cons_of_mem _ hx)
    obtain ⟨h1, h2⟩ := h e (by simp)
    rw [List.foldl_cons, ih hrest]
    by_cases he : e = []
    · simp [cleanStep, he]
    · simp [cleanStep, he, h1, h2]

/-- `filepath.Clean` on an absolute path whose elements are free of `/` and of dot
elements: the empty elements disappear and nothing else changes. -/
theorem Clean_rooted (elems : List (List Char)) (hne : elems ≠ [])
    (hslash : ∀ e ∈ elems, '/' ∉ e) (hdots : ∀ e ∈ elems, e ≠ ['.'] ∧ e ≠ ['.', '.']) :
    Clean (String.mk ('/' :: ['/'].intercalate elems)) =
      String.mk ('/' :: ['/'].intercalate (elems.filter (fun e => decide (e ≠ [])))) := by
  unfold Clean
  have hsplit : splitSlash ('/' :: ['/'].intercalate elems) = [] :: elems := by
    simp [splitSlash, splitSlash_intercalate elems hne hslash]
  have hrooted : decide (('/' :: ['/'].intercalate elems).head? = some '/') = true := by
    simp
  have hfirst : cleanStep true [] [] = [] := by simp [cleanStep]
  simp only [hsplit, List.foldl_cons, hrooted, hfirst, foldl_cleanStep_plain elems hdots]
  simp
  rfl

/-- No digit character is a `/`. -/
theorem digitChar_ne_slash (k : Nat) : Nat.digitChar k ≠ '/' := by
  match k with
  | 0 | 1 | 2 | 3 | 4 | 5 | 6 | 7 | 8 | 9 | 10 | 11 | 12 | 13 | 14 | 15 => decide
  | k + 16 =>
    have h : Nat.digitChar (k + 16) = '*' := by
      simp [Nat.digitChar]
    rw [h]
    decide

/-- The digits written by `Nat.toDigitsCore` hold no `/`. -/
theorem toDigitsCore_no_slash (fuel : Nat) :
    ∀ (n : Nat) (acc : List Char), '/' ∉ acc → '/' ∉ Nat.toDigitsCore 10 fuel n acc := by
  induction fuel with
  | zero => intro n acc h; simpa [Nat.toDigitsCore] using h
  | succ fuel ih =>
    intro n acc h
    have hacc : '/' ∉ Nat.digitChar (n % 10) :: acc := by
      intro hmem
      rcases List.mem_cons.mp hmem with h1 | h1
      · exact digitChar_ne_slash _ h1.symm
      · exact h h1
    simp only [Nat.toDigitsCore]
    split_ifs
    · exact hacc
    · exact ih _ _ hacc

/-- The text of `strconv.Itoa` holds no `/`. -/
theorem Itoa_no_slash (n : Int) : '/' ∉ (Itoa n).data := by
  cases n with
  | ofNat m =>
    show '/' ∉ (Nat.repr m).data
    simp only [Nat.repr, List.asString]
    exact toDigitsCore_no_slash _ _ _ (by simp)
  | negSucc m =>
    show '/' ∉ ("-" ++ Nat.repr (m + 1)).data
    simp only [String.data_append, Nat.repr, List.asString, List.mem_append, not_or]
    exact ⟨by decide, toDigitsCore_no_slash _ _ _ (by simp)⟩

/-- The directory name `problem_<id>` is one ordinary path element. -/
theorem problemDir_plain (problemID : Int) :
    '/' ∉ ("problem_" ++ Itoa problemID).data ∧
      ("problem_" ++ Itoa problemID).data ≠ [] ∧
      ("problem_" ++ Itoa problemID).data ≠ ['.'] ∧
      ("problem_" ++ Itoa problemID).data ≠ ['.', '.'] := by
  have h := Itoa_no_slash problemID
  refine ⟨?_, ?_, ?_, ?_⟩
  · simp only [String.data_append, List.mem_append, not_or]
    exact ⟨by decide, h⟩
  · simp [String.data_append]
  · simp [String.data_append]
  · simp [String.data_append]

/-- `GetFileSaveName "/tmp" id fileType ""` for a file type that is an ordinary path
element is `/tmp/problem_<id>/<fileType>`. -/
theorem GetFileSaveName_tmp (problemID : Int) (fileType : String)
    (htype : plainName fileType) :
    GetFileSaveName "/tmp" problemID fileType "" =
      "/tmp/problem_" ++ Itoa problemID ++ "/" ++ fileType := by
  obtain ⟨hp1, hp2, hp3, hp4⟩ := problemDir_plain problemID
  obtain ⟨ht1, ht2, ht3, ht4⟩ := htype
  have hjoin : stringsJoin ["/tmp", "problem_" ++ Itoa problemID, fileType, ""] "/" =
      String.mk ('/' :: ['/'].intercalate
        ["tmp".data, ("problem_" ++ Itoa problemID).data, fileType.data, []]) := by
    apply String.ext
    simp [stringsJoin, String.intercalate, String.intercalate.go, List.intercalate,
      List.intersperse, String.data_append]
  have hclean := Clean_rooted
    ["tmp".data, ("problem_" ++ Itoa problemID).data, fileType.data, []] (by simp)
    (by
      intro e he
      simp only [List.mem_cons, List.mem_singleton, List.not_mem_nil, or_false] at he
      rcases he with rfl | rfl | rfl | rfl
      · decide
      · exact hp1
      · exact ht2
      · simp)
    (by
      intro e he
      simp only [List.mem_cons, List.mem_singleton, List.not_mem_nil, or_false] at he
      rcases he with rfl | rfl | rfl | rfl
      · decide
      · exact ⟨hp3, hp4⟩
      · exact ⟨ht3, ht4⟩
      · simp)
  have hne : ("/tmp" : String) ≠ "" := by decide
  simp only [GetFileSaveName, Join, hne, if_false, hjoin, hclean]
  apply String.ext
  simp [hp2, ht1, List.intercalate, List.intersperse, String.data_append]

/-- A listed name joined to `/tmp/problem_<id>/<fileType>` is that directory, a `/` and
the name. -/
theorem Join_problem_file (problemID : Int) (fileType name : String)
    (htype : plainName fileType) (hname : plainName name) :
    Join [GetFileSaveName "/tmp" problemID fileType "", name] =
      "/tmp/problem_" ++ Itoa problemID ++ "/" ++ fileType ++ "/" ++ name := by
  obtain ⟨hp1, hp2, hp3, hp4⟩ := problemDir_plain problemID
  obtain ⟨ht1, ht2, ht3, ht4⟩ := htype
  obtain ⟨hn1, hn2, hn3, hn4⟩ := hname
  rw [GetFileSaveName_tmp problemID fileType ⟨ht1, ht2, ht3, ht4⟩]
  have hjoin : stringsJoin ["/tmp/problem_" ++ Itoa problemID ++ "/" ++ fileType, name] "/" =
      String.mk ('/' :: ['/'].intercalate
        ["tmp".data, ("problem_" ++ Itoa problemID).data, fileType.data, name.data]) := by
    apply String.ext
    simp [stringsJoin, String.intercalate, String.intercalate.go, List.intercalate,
      List.intersperse, String.data_append]
  have hclean := Clean_rooted
    ["tmp".data, ("problem_" ++ Itoa problemID).data, fileType.data, name.data] (by simp)
    (by
      intro e he
      simp only [List.mem_cons, List.mem_singleton, List.not_mem_nil, or_false] at he
      rcases he with rfl | rfl | rfl | rfl
      · decide
      · exact hp1
      · exact ht2
      · exact hn2)
    (by
      intro e he
      simp only [List.mem_cons, List.mem_singleton, List.not_mem_nil, or_false] at he
      rcases he with rfl | rfl | rfl | rfl
      · decide
      · exact ⟨hp3, hp4⟩
      · exact ⟨ht3, ht4⟩
      · exact ⟨hn3, hn4⟩)
  have hne : "/tmp/problem_" ++ Itoa problemID ++ "/" ++ fileType ≠ "" := by
    intro h
    have := congrArg String.data h
    simp [String.data_append] at this
  simp only [Join, hne, if_false, hjoin, hclean]
  apply String.ext
  simp [hp2, ht1, hn1, List.intercalate, List.intersperse, String.data_append]

/-- `filepath.Base` of a directory, a `/` and a listed name is the name. -/
theorem Base_append_plain (dir name : String) (hname : plainName name) :
    Base (dir ++ "/" ++ name) = name := by
  obtain ⟨hn1, hn2, _, _⟩ := hname
  have hlast : ∀ c ∈ name.data.reverse, c ≠ '/' := by
    intro c hc hslash
    subst hslash
    exact hn2 (List.mem_reverse.mp hc)
  have hdata : (dir ++ "/" ++ name).data.reverse =
      name.data.reverse ++ '/' :: dir.data.reverse := by
    simp [String.data_append]
  have hrev : name.data.reverse ≠ [] := by simpa using hn1
  obtain ⟨c, cs, hcs⟩ := List.exists_cons_of_ne_nil hrev
  have hc : c ≠ '/' := hlast c (by simp [hcs])
  have hdrop : (name.data.reverse ++ '/' :: dir.data.reverse).dropWhile
      (fun c => decide (c = '/')) = name.data.reverse ++ '/' :: dir.data.reverse := by
    rw [hcs]
    simp [List.dropWhile, hc]
  have htake : (name.data.reverse ++ '/' :: dir.data.reverse).takeWhile
      (fun c => decide (c ≠ '/')) = name.data.reverse := by
    rw [List.takeWhile_append_of_pos (by simpa using hlast)]
    simp [List.takeWhile]
  unfold Base
  have hne : (dir ++ "/" ++ name).data ≠ [] := by simp [String.data_append]
  simp only [hne, if_false, hdata, hdrop, htake, List.reverse_reverse, hn1]

/-! ## Resolving the test cases -/

/-- Assigning a key that the map does not hold appends the entry. -/
theorem mapSet_new (m : List (String × String)) (key value : String)
    (h : key ∉ m.map Prod.fst) : mapSet m key value = m ++ [(key, value)] := by
  induction m with
  | nil => rfl
  | cons kv rest ih =>
    obtain ⟨k, v⟩ := kv
    have hk : k ≠ key := fun hk => h (by simp [hk])
    have hrest : key ∉ rest.map Prod.fst := fun hr => h (by simp [hr])
    simp [mapSet, hk, ih hrest]

/-- The loop of `getTestCases` on a listing whose plain files all have a readable
counterpart and yield keys that are new and pairwise distinct: every plain file adds its
pair, in the order of the listing. -/
theorem getTestCasesLoop_ok (env : Env) (inDir outDir : String) :
    ∀ (entries : List DirEntry) (testCases : List (String × String)) (done : List Effect),
      (∀ e ∈ entries, e.IsDir = false →
        ∃ content, env.readFile (Join [outDir, e.Name]) = .ok content) →
      (testCases.map Prod.fst ++
        (entries.filter (fun e => !e.IsDir)).map (fun e => Join [inDir, e.Name])).Nodup →
      (getTestCasesLoop env inDir outDir entries testCases done).1 =
        .ok (testCases ++ (entries.filter (fun e => !e.IsDir)).map
          (fun e => (Join [inDir, e.Name], Join [outDir, e.Name]))) := by
  intro entries
  induction entries with
  | nil => intro testCases done _ _; simp [getTestCasesLoop]
  | cons inFile rest ih =>
    intro testCases done hread hnodup
    have hreadRest : ∀ e ∈ rest, e.IsDir = false →
        ∃ content, env.readFile (Join [outDir, e.Name]) = .ok content :=
      fun e he => hread e (List.mem_cons_of_mem _ he)
    unfold getTestCasesLoop
    cases hdir : inFile.IsDir with
    | true =>
      simp only [hdir, Bool.not_true, Bool.false_eq_true, if_false]
      have hfilter : (inFile :: rest).filter (fun e => !e.IsDir) =
          rest.filter (fun e => !e.IsDir) := by simp [List.filter, hdir]
      rw [hfilter] at hnodup ⊢
      exact ih _ _ hreadRest hnodup
    | false =>
      obtain ⟨content, hcontent⟩ := hread inFile (by simp) hdir
      have hfilter : (inFile :: rest).filter (fun e => !e.IsDir) =
          inFile :: rest.filter (fun e => !e.IsDir) := by simp [List.filter, hdir]
      rw [hfilter] at hnodup ⊢
      simp only [List.map_cons] at hnodup ⊢
      have hnew : Join [inDir, inFile.Name] ∉ testCases.map Prod.fst := by
        intro hmem
        have := List.nodup_append.mp hnodup
        exact this.2.2 hmem (by simp)
      have hnodup' : ((testCases ++ [(Join [inDir, inFile.Name],
          Join [outDir, inFile.Name])]).map Prod.fst ++
          (rest.filter (fun e => !e.IsDir)).map (fun e => Join [inDir, e.Name])).Nodup := by
        simpa [List.append_assoc] using hnodup
      simp only [Bool.not_false, if_true, hcontent, mapSet_new _ _ _ hnew]
      rw [ih _ _ hreadRest hnodup']
      simp [List.append_assoc]

/-- The asset path of a listed name is what `getTestCases` joins, and its base name is
the listed name. -/
theorem assetPath_eq (problemID : Int) (fileType name : String)
    (htype : plainName fileType) (hname : plainName name) :
    Join [GetFileSaveName "/tmp" problemID fileType "", name] =
        assetPath problemID fileType name ∧
      Base (assetPath problemID fileType name) = name :=
  ⟨Join_problem_file problemID fileType name htype hname,
    Base_append_plain _ name hname⟩

/-- Distinct names give distinct asset paths. -/
theorem assetPath_injective (problemID : Int) (fileType : String) :
    Function.Injective (assetPath problemID fileType) := by
  intro a b h
  have hdata := congrArg String.data h
  simp only [assetPath, String.data_append] at hdata
  exact String.ext (List.append_cancel_left hdata)

/-- C7. For a problem whose `in` and `out` directories can be listed, the listing of
`in` consisting of distinct ordinary names: `getTestCases` returns an error when some
entry of `in` that is not a directory has no readable file of the same name in `out`;
when every such entry has one, it returns the map with exactly one entry per plain input
file, from `/tmp/problem_<id>/in/<name>` to `/tmp/problem_<id>/out/<name>`, both with
base name `<name>`; and whenever it returns a map at all, it is that complete map. -/
theorem getTestCases_spec (env : Env) (problemID : Int)
    (entries outEntries : List DirEntry)
    (hin : env.readDir (GetFileSaveName "/tmp" problemID "in" "") = .ok entries)
    (hout : env.readDir (GetFileSaveName "/tmp" problemID "out" "") = .ok outEntries)
    (hnames : ∀ e ∈ entries, plainName e.Name)
    (hnodup : (entries.map (fun e => e.Name)).Nodup) :
    ((∃ e ∈ entries, e.IsDir = false ∧
        ∃ msg, env.readFile (assetPath problemID "out" e.Name) = .error msg) →
      ∃ err, (getTestCases env problemID).1 = .error err) ∧
    ((∀ e ∈ entries, e.IsDir = false →
        ∃ content, env.readFile (assetPath problemID "out" e.Name) = .ok content) →
      (getTestCases env problemID).1 = .ok (pairedCases problemID entries)) ∧
    (∀ testCases, (getTestCases env problemID).1 = .ok testCases →
      testCases = pairedCases problemID entries) ∧
    (∀ kv ∈ pairedCases problemID entries,
      ∃ e ∈ entries, e.IsDir = false ∧ Base kv.1 = e.Name ∧ Base kv.2 = e.Name) ∧
    ((pairedCases problemID entries).map Prod.fst).Nodup ∧
    (pairedCases problemID entries).length =
      (entries.filter (fun e => !e.IsDir)).length := by
  have hinT : plainName "in" := by unfold plainName; decide
  have houtT : plainName "out" := by unfold plainName; decide
  have hjoinIn : ∀ e ∈ entries,
      Join [GetFileSaveName "/tmp" problemID "in" "", e.Name] =
        assetPath problemID "in" e.Name :=
    fun e he => (assetPath_eq problemID "in" e.Name hinT (hnames e he)).1
  have hjoinOut : ∀ e ∈ entries,
      Join [GetFileSaveName "/tmp" problemID "out" "", e.Name] =
        assetPath problemID "out" e.Name :=
    fun e he => (assetPath_eq problemID "out" e.Name houtT (hnames e he)).1
  have hget : (getTestCases env problemID).1 =
      (getTestCasesLoop env (GetFileSaveName "/tmp" problemID "in" "")
        (GetFileSaveName "/tmp" problemID "out" "") entries []
        [Effect.readDir (GetFileSaveName "/tmp" problemID "in" ""),
          Effect.readDir (GetFileSaveName "/tmp" problemID "out" "")]).1 := by
    unfold getTestCases
    simp only [hin, hout]
  have hkeys : ((pairedCases problemID entries).map Prod.fst).Nodup := by
    have hsub : ((entries.filter (fun e => !e.IsDir)).map (fun e => e.Name)).Nodup :=
      hnodup.sublist (List.Sublist.map _ (List.filter_sublist _))
    have := hsub.map (assetPath_injective problemID "in")
    simpa [pairedCases, List.map_map, Function.comp] using this
  have hmiss : (∃ e ∈ entries, e.IsDir = false ∧
      ∃ msg, env.readFile (assetPath problemID "out" e.Name) = .error msg) →
      ∃ err, (getTestCases env problemID).1 = .error err := by
    rintro ⟨e, he, hfile, msg, hmsg⟩
    rw [hget]
    apply getTestCasesLoop_missing
    exact ⟨e, he, hfile, msg, by rw [hjoinOut e he]; exact hmsg⟩
  have hfull : (∀ e ∈ entries, e.IsDir = false →
      ∃ content, env.readFile (assetPath problemID "out" e.Name) = .ok content) →
      (getTestCases env problemID).1 = .ok (pairedCases problemID entries) := by
    intro hread
    have hmap : (entries.filter (fun e => !e.IsDir)).map
        (fun e => (Join [GetFileSaveName "/tmp" problemID "in" "", e.Name],
          Join [GetFileSaveName "/tmp" problemID "out" "", e.Name])) =
        pairedCases problemID entries := by
      unfold pairedCases
      apply List.map_congr_left
      intro e he
      have hmem := (List.mem_filter.mp he).1
      rw [hjoinIn e hmem, hjoinOut e hmem]
    have hmapKeys : (entries.filter (fun e => !e.IsDir)).map
        (fun e => Join [GetFileSaveName "/tmp" problemID "in" "", e.Name]) =
        (pairedCases problemID entries).map Prod.fst := by
      rw [← hmap, List.map_map]
      rfl
    rw [hget, getTestCasesLoop_ok env _ _ entries [] _
      (fun e he hfile => by rw [hjoinOut e he]; exact hread e he hfile)
      (by simpa [hmapKeys] using hkeys)]
    simp [hmap]
  refine ⟨hmiss, hfull, ?_, ?_, hkeys, by simp [pairedCases]⟩
  · intro testCases hok
    by_cases hall : ∀ e ∈ entries, e.IsDir = false →
        ∃ content, env.readFile (assetPath problemID "out" e.Name) = .ok content
    · rw [hfull hall] at hok
      exact (Except.ok.inj hok).symm
    · exfalso
      simp only [not_forall] at hall
      obtain ⟨e, he, hfile, hno⟩ := hall
      have : ∃ msg, env.readFile (assetPath problemID "out" e.Name) = .error msg := by
        cases hr : env.readFile (assetPath problemID "out" e.Name) with
        | error msg => exact ⟨msg, rfl⟩
        | ok content => exact absurd ⟨content, hr⟩ hno
      obtain ⟨err, herr⟩ := hmiss ⟨e, he, hfile, this⟩
      rw [herr] at hok
      cases hok
  · intro kv hkv
    simp only [pairedCases, List.mem_map, List.mem_filter] at hkv
    obtain ⟨e, ⟨he, hfile⟩, rfl⟩ := hkv
    refine ⟨e, he, by simpa using hfile, ?_, ?_⟩
    · exact (assetPath_eq problemID "in" e.Name hinT (hnames e he)).2
    · exact (assetPath_eq problemID "out" e.Name houtT (hnames e he)).2

/-- Witness of C7: the sample problem resolves to its one pair, and with `b.txt`
unpaired the resolution fails. -/
theorem getTestCases_spec_witness :
    (getTestCases sampleEnv 7).1 =
        .ok [("/tmp/problem_7/in/a.txt", "/tmp/problem_7/out/a.txt")] ∧
      ∃ err, (getTestCases unpairedEnv 7).1 = .error err :=
  ⟨(getTestCases_spec sampleEnv 7 [⟨"a.txt", false⟩] [⟨"a.txt", false⟩] rfl rfl
      (by
        intro e he
        simp only [List.mem_singleton] at he
        subst he
        unfold plainName
        decide)
      (by decide)).2.1
      (by
        intro e _ _
        exact ⟨"1\n", rfl⟩),
    (getTestCases_spec unpairedEnv 7 [⟨"a.txt", false⟩, ⟨"b.txt", false⟩]
      [⟨"a.txt", false⟩] rfl rfl
      (by
        intro e he
        simp only [List.mem_cons, List.mem_singleton, List.not_mem_nil, or_false] at he
        rcases he with rfl | rfl <;> (unfold plainName; decide))
      (by decide)).1
      ⟨⟨"b.txt", false⟩, by simp, rfl, "no such file or directory", rfl⟩⟩

/-! ## The summary -/

/-- Classifying a case keeps the total and the list of verdicts and raises the sum of
the three counters by one. -/
theorem classifyCase_sum (results : ResultDetail) (r : ExecutionResult) :
    (classifyCase results r).1.TotalCases = results.TotalCases ∧
    (classifyCase results r).1.CaseResults = results.CaseResults ∧
    (classifyCase results r).1.CorrectCases + (classifyCase results r).1.IncorrectCases +
        (classifyCase results r).1.TimeLimitExceeded =
      results.CorrectCases + results.IncorrectCases + results.TimeLimitExceeded + 1 := by
  unfold classifyCase
  split_ifs <;> refine ⟨rfl, rfl, ?_⟩ <;> simp only <;> omega

/-- Taking the element at a position out of a list and putting it in front gives the
same elements. -/
theorem perm_cons_eraseIdx {α : Type} (l : List α) :
    ∀ (i : Nat) (c : α), l[i]? = some c → (c :: l.eraseIdx i).Perm l := by
  induction l with
  | nil => intro i c h; simp at h
  | cons a l ih =>
    intro i c h
    cases i with
    | zero =>
      simp only [List.getElem?_cons_zero, Option.some.injEq] at h
      subst h
      exact List.Perm.refl _
    | succ i =>
      simp only [List.getElem?_cons_succ] at h
      simp only [List.eraseIdx_cons_succ]
      exact (List.Perm.swap a c _).trans ((ih i c h).cons a)

/-- The cases that have run, the case that runs next and the cases left are the cases
that have run and the cases that had not. -/
theorem perm_run_next {α : Type} (finished l : List α) (i : Nat) (c : α)
    (h : l[i]? = some c) : (finished ++ [c] ++ l.eraseIdx i).Perm (finished ++ l) := by
  rw [List.append_assoc]
  exact (perm_cons_eraseIdx l i c h).append_left finished

/-- A case task whose scratch file is created, run while the context is live and
`errChan` is empty: it leaves the context, `errChan` and the waiting tasks as they are,
counts the case in exactly one counter and queues one verdict, named after the input
file. -/
theorem runTask_live (env : Env) (langConfig : LanguageConfig) (codeFilePath : String)
    (problemID : Int) (takeDone : Bool) (inputFilePath outputFilePath : String)
    (st : Orch)
    (hscratch : ∀ call, ∃ p, (CreateTempFile env call).1 = .ok p)
    (hctx : st.ctxErr = none) :
    ∃ caseResult : CaseResult,
      caseResult.CaseName = Base inputFilePath ∧
      (runTask env langConfig codeFilePath problemID takeDone inputFilePath outputFilePath
        st).resultsChan = st.resultsChan ++ [caseResult] ∧
      (runTask env langConfig codeFilePath problemID takeDone inputFilePath outputFilePath
        st).ctxErr = none ∧
      (runTask env langConfig codeFilePath problemID takeDone inputFilePath outputFilePath
        st).errChan = st.errChan ∧
      (runTask env langConfig codeFilePath problemID takeDone inputFilePath outputFilePath
        st).blocked = st.blocked ∧
      (runTask env langConfig codeFilePath problemID takeDone inputFilePath outputFilePath
        st).pending = st.pending ∧
      (runTask env langConfig codeFilePath problemID takeDone inputFilePath outputFilePath
        st).results.TotalCases = st.results.TotalCases ∧
      (runTask env langConfig codeFilePath problemID takeDone inputFilePath outputFilePath
        st).results.CaseResults = st.results.CaseResults ∧
      (runTask env langConfig codeFilePath problemID takeDone inputFilePath outputFilePath
          st).results.CorrectCases +
        (runTask env langConfig codeFilePath problemID takeDone inputFilePath outputFilePath
          st).results.IncorrectCases +
        (runTask env langConfig codeFilePath problemID takeDone inputFilePath outputFilePath
          st).results.TimeLimitExceeded =
        st.results.CorrectCases + st.results.IncorrectCases +
          st.results.TimeLimitExceeded + 1 := by
  obtain ⟨⟨tempFilePath, tempDirPath⟩, hp⟩ := hscratch (st.started + 1 - 1)
  cases hc : CreateTempFile env (st.started + 1 - 1) with
  | mk res made =>
    rw [hc] at hp
    simp only at hp
    subst hp
    unfold runTask
    simp only [hc, executeDockerCommand, hctx, Option.isSome_none, Bool.false_and,
      Bool.false_eq_true, if_false]
    obtain ⟨h1, h2, h3⟩ := classifyCase_sum st.results
      (parseOutput (env.runCommand (buildDockerRunCommandWithTimeout langConfig codeFilePath
        inputFilePath tempFilePath outputFilePath problemID timeout)).1
        (env.runCommand (buildDockerRunCommandWithTimeout langConfig codeFilePath
        inputFilePath tempFilePath outputFilePath problemID timeout)).2)
    exact ⟨_, rfl, rfl, trivial, trivial, trivial, trivial, h1, h2, h3⟩

/-- Along a schedule without cancellation, from a state with a live context, an empty
`errChan` and no waiting task, in an environment where every scratch file can be
created: if the collecting loop returns a summary, it returns no error, and the summary
has the total it started with, one verdict per case of the run, named after the input
files (in the order in which the tasks ran, which is some order of the cases), and
counters that add up to the number of cases. -/
theorem collect_complete (env : Env) (langConfig : LanguageConfig) (codeFilePath : String)
    (problemID : Int)
    (hscratch : ∀ call, ∃ p, (CreateTempFile env call).1 = .ok p) :
    ∀ (sched : List Event) (st : Orch) (finished : List (String × String)),
      (∀ msg, Event.cancel msg ∉ sched) →
      st.ctxErr = none → st.errChan = none → st.blocked = 0 →
      (st.results.CaseResults ++ st.resultsChan).map (fun r => r.CaseName) =
        finished.map (fun c => Base c.1) →
      st.results.CorrectCases + st.results.IncorrectCases + st.results.TimeLimitExceeded =
        finished.length →
      ∀ (summary : ResultDetail) (err : Option String) (final : Orch),
        collect env langConfig codeFilePath problemID st sched =
          some (some summary, err, final) →
        err = none ∧
        summary.TotalCases = st.results.TotalCases ∧
        (summary.CaseResults.map (fun r => r.CaseName)).Perm
          ((finished ++ st.pending).map (fun c => Base c.1)) ∧
        summary.CorrectCases + summary.IncorrectCases + summary.TimeLimitExceeded =
          (finished ++ st.pending).length := by
  intro sched
  induction sched with
  | nil => intro st finished _ _ _ _ _ _ summary err final h; simp [collect] at h
  | cons ev evs ih =>
    intro st finished hnocancel hctx herr hblocked hnames hsum summary err final h
    have hnocancel' : ∀ msg, Event.cancel msg ∉ evs :=
      fun msg hmem => hnocancel msg (List.mem_cons_of_mem _ hmem)
    unfold collect at h
    cases ev with
    | task pick takeDone =>
      cases hpend : st.pending[pick]? with
      | none => simp [step, hpend] at h
      | some c =>
        obtain ⟨inputFilePath, outputFilePath⟩ := c
        simp only [step, hpend] at h
        have hperm := perm_run_next finished st.pending pick _ hpend
        obtain ⟨caseResult, hname, hchan, hctx', herr', hblocked', hpend', htotal, hres,
          hsum'⟩ := runTask_live env langConfig codeFilePath problemID takeDone
            inputFilePath outputFilePath { st with pending := st.pending.eraseIdx pick }
            hscratch hctx
        have hnames' : ((runTask env langConfig codeFilePath problemID takeDone
            inputFilePath outputFilePath
              { st with pending := st.pending.eraseIdx pick }).results.CaseResults ++
            (runTask env langConfig codeFilePath problemID takeDone inputFilePath
              outputFilePath { st with pending := st.pending.eraseIdx pick }).resultsChan).map
              (fun r => r.CaseName) =
            (finished ++ [(inputFilePath, outputFilePath)]).map (fun c => Base c.1) := by
          rw [hres, hchan, ← List.append_assoc, List.map_append, hnames]
          simp [hname]
        have hsum'' : (runTask env langConfig codeFilePath problemID takeDone
            inputFilePath outputFilePath
              { st with pending := st.pending.eraseIdx pick }).results.CorrectCases +
            (runTask env langConfig codeFilePath problemID takeDone inputFilePath
              outputFilePath
                { st with pending := st.pending.eraseIdx pick }).results.IncorrectCases +
            (runTask env langConfig codeFilePath problemID takeDone inputFilePath
              outputFilePath
                { st with pending := st.pending.eraseIdx pick }).results.TimeLimitExceeded =
            ((finished ++ [(inputFilePath, outputFilePath)]).length : Int) := by
          rw [hsum']
          simp only at hsum ⊢
          rw [hsum]
          simp
        have := ih _ (finished ++ [(inputFilePath, outputFilePath)]) hnocancel' hctx'
          (by rw [herr']; exact herr) (by rw [hblocked']; exact hblocked) hnames' hsum''
          summary err final h
        rw [htotal, hpend'] at this
        obtain ⟨h1, h2, h3, h4⟩ := this
        refine ⟨h1, h2, h3.trans (hperm.map _), ?_⟩
        rw [h4, hperm.length_eq]
    | cancel msg => exact absurd (List.mem_cons_self _ _) (hnocancel msg)
    | recvErr =>
      by_cases hclosed : st.closed = true
      · simp only [step, herr, hclosed, if_true] at h
        exact ih st finished hnocancel' hctx herr hblocked hnames hsum summary err final h
      · simp [step, herr, hclosed] at h
    | recvResult =>
      cases hchan : st.resultsChan with
      | cons result rest =>
        simp only [step, hchan] at h
        have := ih
          { st with
            results := { st.results with CaseResults := st.results.CaseResults ++ [result] },
            resultsChan := rest }
          finished hnocancel' hctx herr hblocked
          (by simpa [hchan, List.append_assoc] using hnames) hsum summary err final h
        simpa using this
      | nil =>
        by_cases hclosed : st.closed = true
        · simp only [step, hchan, hclosed, if_true, Option.some.injEq, Prod.mk.injEq] at h
          obtain ⟨hsummary, herr', _⟩ := h
          subst hsummary
          have hpend : st.pending = [] := by
            have h1 : st.pending.isEmpty = true := by
              unfold Orch.closed at hclosed
              simp only [Bool.and_eq_true] at hclosed
              exact hclosed.1
            exact List.isEmpty_iff.mp h1
          rw [hchan, List.append_nil] at hnames
          refine ⟨herr'.symm, rfl, ?_, ?_⟩
          · rw [hpend, List.append_nil, hnames]
          · rw [hpend, List.append_nil]; exact hsum
        · simp [step, hchan, hclosed] at h
    | recvDone => simp [step, hctx] at h

/-- In an environment where every scratch file can be created and along a schedule
without cancellation, a summary returned by `BuildAndRunInContainer` comes without
error, has `TotalCases` equal to the number of resolved test cases, holds one verdict
per test case, named after the base name of its input file, in some order, and its
three counters add up to `TotalCases`. -/
theorem BuildAndRunInContainer_complete (env : Env) (sched : List Event)
    (solution : Solution)
    (hscratch : ∀ call, ∃ p, (CreateTempFile env call).1 = .ok p)
    (hnocancel : ∀ msg, Event.cancel msg ∉ sched)
    (summary : ResultDetail) (err : Option String) (trace : List Effect)
    (hret : BuildAndRunInContainer env sched solution = some ⟨some summary, err, trace⟩) :
    ∃ ioFiles, (getTestCases env solution.ProblemID).1 = .ok ioFiles ∧
      err = none ∧
      summary.TotalCases = ioFiles.length ∧
      (summary.CaseResults.map (fun r => r.CaseName)).Perm
        (ioFiles.map (fun c => Base c.1)) ∧
      summary.CorrectCases + summary.IncorrectCases + summary.TimeLimitExceeded =
        summary.TotalCases := by
  unfold BuildAndRunInContainer at hret
  split at hret
  split at hret
  · simp at hret
  · simp only [] at hret
    split at hret
    · simp at hret
    · split at hret
      · simp at hret
      · split at hret
        · simp at hret
        · rename_i ioFiles listed hget
          split at hret
          · simp at hret
          · rename_i summary' err' final hcollect
            simp only [Option.some.injEq, Returned.mk.injEq] at hret
            obtain ⟨hs, he, _⟩ := hret
            subst hs
            subst he
            have := collect_complete env _ _ _ hscratch sched _ [] hnocancel rfl rfl rfl
              (by simp [ResultDetail.zero]) (by simp [ResultDetail.zero]) _ _ _ hcollect
            obtain ⟨h1, h2, h3, h4⟩ := this
            refine ⟨ioFiles, by rw [hget], h1, ?_, ?_, ?_⟩
            · simpa using h2
            · simpa using h3
            · rw [h4, h2]; simp

/-- Scenario A: the sample C++ submission with its one matching test case is judged
`{total_cases: 1, correct_cases: 1, incorrect_cases: 0, time_limit_exceeded: 0}` with
the single verdict "PASSED". -/
theorem BuildAndRunInContainer_scenarioA :
    (BuildAndRunInContainer sampleEnv
        [Event.task 0 false, Event.recvResult, Event.recvResult]
        sampleSolution).map (fun r => (r.summary, r.err)) =
      some (some { TotalCases := 1, CorrectCases := 1, IncorrectCases := 0,
                   TimeLimitExceeded := 0,
                   CaseResults := [{ CaseName := "a.txt", Result := "PASSED",
                                     ExecutionTime := 5000 }],
                   ErrorMessage := "" },
        none) := by
  decide

/-- C4, at the failing inputs. (1) The one case task cannot create its scratch
directory and buffers its error in `errChan`; all tasks are then over, both channels are
closed, and the collecting `select` takes the closed `resultsChan`: the summary is
returned with a nil error, `TotalCases = 1`, no verdict and all counters 0.  (2) The
context ends, the sandbox process is killed and counted as incorrect, the task's
`select` takes `ctx.Done()` instead of the send, and the collecting `select` takes the
closed `resultsChan`: the summary is returned with a nil error, `TotalCases = 1`,
`IncorrectCases = 1` and no verdict. -/
theorem BuildAndRunInContainer_partial_summary :
    (BuildAndRunInContainer scratchFailEnv [Event.task 0 false, Event.recvResult]
        sampleSolution).map (fun r => (r.summary, r.err)) =
      some (some { TotalCases := 1, CorrectCases := 0, IncorrectCases := 0,
                   TimeLimitExceeded := 0, CaseResults := [], ErrorMessage := "" },
        none) ∧
    (BuildAndRunInContainer killedEnv
        [Event.cancel "context canceled", Event.task 0 true, Event.recvResult]
        sampleSolution).map (fun r => (r.summary, r.err)) =
      some (some { TotalCases := 1, CorrectCases := 0, IncorrectCases := 1,
                   TimeLimitExceeded := 0, CaseResults := [], ErrorMessage := "" },
        none) := by
  decide

/-! ## The steps of the in-container script -/

/-- C13. The built command ends with the comparison
`diff -q /workspace/tmp/<base of the scratch file> /workspace/io/out/<base of the
expected output>` and the closing quote; it comes right after the timed run, whose run
step redirects the program's output to the same `/workspace/tmp/<base of the scratch
file>`. -/
theorem buildDockerRunCommandWithTimeout_last_step (langConfig : LanguageConfig)
    (codeFilePath inputFilePath tempFilePath outputFilePath : String)
    (problemID timeoutSec : Int) :
    ∃ head : String,
      buildDockerRunCommandWithTimeout langConfig codeFilePath inputFilePath tempFilePath
          outputFilePath problemID timeoutSec =
        head
          ++ (runCmd langConfig codeFilePath ++ " < /workspace/io/in/" ++ Base inputFilePath
            ++ " > " ++ ("/workspace/tmp/" ++ Base tempFilePath))
          ++ "; end=\\$(date +%s%N); echo Execution time: \\$((end-start)) nanoseconds'"
          ++ (" && " ++ ("diff -q " ++ ("/workspace/tmp/" ++ Base tempFilePath)
            ++ " /workspace/io/out/" ++ Base outputFilePath))
          ++ "\"" := by
  refine ⟨"docker run --rm " ++ stringsJoin securityOpts " " ++ " "
    ++ codeFileVolume codeFilePath ++ " " ++ ioVolumeMapping problemID ++ " "
    ++ tempFileVolume tempFilePath ++ " --memory " ++ memoryLimit ++ " --cpus " ++ cpuLimit
    ++ " " ++ langConfig.Image ++ " /bin/sh -c \"" ++ langConfig.Setup ++ " "
    ++ compileCmd langConfig codeFilePath ++ " timeout --preserve-status "
    ++ Itoa timeoutSec ++ "s /bin/sh -c 'start=\\$(date +%s%N); ", ?_⟩
  unfold buildDockerRunCommandWithTimeout commandWithTimeout executionCmd compareScript
  simp only [String.append_assoc]
  rfl

/-! ## The parser -/

/-- C16. The parsed outcome has `Success = true` and an empty `ErrorMessage` exactly
when the process error is nil; with a process error it has `Success = false` and the
message of the error; the elapsed time and the diff flag do not depend on the process
error.  `executeDockerCommand` parses what the environment captured in this way. -/
theorem parseOutput_error (output : String) (err : Option String) :
    (((parseOutput output err).Success = true ∧ (parseOutput output err).ErrorMessage = "")
        ↔ err = none) ∧
    (∀ e, err = some e →
      (parseOutput output err).Success = false ∧ (parseOutput output err).ErrorMessage = e) ∧
    (parseOutput output err).ExecutionTime = (parseOutput output none).ExecutionTime ∧
    (parseOutput output err).OutputDiff = (parseOutput output none).OutputDiff ∧
    (∀ (env : Env) (dockerCmd : String),
      (executeDockerCommand env dockerCmd).1 =
        parseOutput (env.runCommand dockerCmd).1 (env.runCommand dockerCmd).2) := by
  cases err with
  | none => simp [parseOutput, executeDockerCommand]
  | some e => simp [parseOutput, executeDockerCommand]

/-- Witness of C16: a run that exits with status 1 is parsed as a failure with that
message. -/
theorem parseOutput_error_witness :
    (parseOutput "Execution time: 5000 nanoseconds\n" (some "exit status 1")).Success = false ∧
      (parseOutput "Execution time: 5000 nanoseconds\n" (some "exit status 1")).ErrorMessage
        = "exit status 1" :=
  (parseOutput_error "Execution time: 5000 nanoseconds\n" (some "exit status 1")).2.1
    "exit status 1" rfl

/-- C11 as stated fails: in the command built for the C++ profile the compile command
`g++ /workspace/code/solution.cpp -o /workspace/tmp/a.out` stands in front of the
`timeout` invocation and does not occur in the part that `timeout` executes. -/
theorem commandWithTimeout_compile_counterexample :
    ¬ (∀ (langConfig : LanguageConfig)
        (codeFilePath inputFilePath tempFilePath : String) (timeoutSec : Int),
        langConfig.Compile ≠ "" →
        occursIn
            (stringsReplaceAll langConfig.Compile "{code}"
              ("/workspace/code/" ++ Base codeFilePath)).data
            (beforeFirst "timeout --preserve-status".data
              (commandWithTimeout langConfig codeFilePath inputFilePath tempFilePath
                timeoutSec).data) = false ∧
        occursIn
            (stringsReplaceAll langConfig.Compile "{code}"
              ("/workspace/code/" ++ Base codeFilePath)).data
            (fromFirst "timeout --preserve-status".data
              (commandWithTimeout langConfig codeFilePath inputFilePath tempFilePath
                timeoutSec).data) = true) := by
  intro h
  have h1 := (h (GetLanguageConfigByID 2).1 "/tmp/codeDir_100/solution.cpp"
    "/tmp/problem_7/in/a.txt" "/tmp/judge_100/tempfile.txt" 1 (by decide)).1
  revert h1
  decide

/-- C11, amended. The script of every built command is the setup command, a blank, the
compile step, and then the `timeout` invocation, which executes the start timestamp, the
run step with its redirections, the end timestamp and the timing marker.  With a
non-empty compile template the compile step is the substituted compile command followed
by ` && `: it stands in front of the `timeout` invocation, and only the run step is
bounded by the timeout and lies between the timestamps. -/
theorem commandWithTimeout_compile_before_timeout (langConfig : LanguageConfig)
    (codeFilePath inputFilePath tempFilePath : String) (timeoutSec : Int)
    (hcompile : langConfig.Compile ≠ "") :
    commandWithTimeout langConfig codeFilePath inputFilePath tempFilePath timeoutSec =
      langConfig.Setup ++ " "
        ++ (stringsReplaceAll langConfig.Compile "{code}"
            ("/workspace/code/" ++ Base codeFilePath) ++ " && ")
        ++ (" timeout --preserve-status " ++ Itoa timeoutSec ++ "s /bin/sh -c '"
          ++ ("start=\\$(date +%s%N); "
            ++ executionCmd langConfig codeFilePath inputFilePath tempFilePath
            ++ "; end=\\$(date +%s%N); echo Execution time: \\$((end-start)) nanoseconds")
          ++ "'") := by
  unfold commandWithTimeout compileCmd
  simp only [hcompile, ne_eq, not_false_eq_true, if_true, String.append_assoc]
  rfl

/-- Witness of the amended C11: for the C++ profile the text in front of the `timeout`
invocation is the setup and the compile step, and what follows holds no compile
command. -/
theorem commandWithTimeout_compile_before_timeout_witness :
    commandWithTimeout (GetLanguageConfigByID 2).1 "/tmp/codeDir_100/solution.cpp"
        "/tmp/problem_7/in/a.txt" "/tmp/judge_100/tempfile.txt" 1 =
      "export TMPDIR=/workspace/tmp &&" ++ " "
        ++ (stringsReplaceAll "g++ {code} -o /workspace/tmp/a.out" "{code}"
            ("/workspace/code/" ++ Base "/tmp/codeDir_100/solution.cpp") ++ " && ")
        ++ (" timeout --preserve-status " ++ Itoa 1 ++ "s /bin/sh -c '"
          ++ ("start=\\$(date +%s%N); "
            ++ executionCmd (GetLanguageConfigByID 2).1 "/tmp/codeDir_100/solution.cpp"
              "/tmp/problem_7/in/a.txt" "/tmp/judge_100/tempfile.txt"
            ++ "; end=\\$(date +%s%N); echo Execution time: \\$((end-start)) nanoseconds")
          ++ "'") :=
  commandWithTimeout_compile_before_timeout (GetLanguageConfigByID 2).1
    "/tmp/codeDir_100/solution.cpp" "/tmp/problem_7/in/a.txt"
    "/tmp/judge_100/tempfile.txt" 1 (by decide)

/-! ## Replacing the placeholder -/

/-- Characters that are being skipped do not reach the result. -/
theorem replaceGo_skip (old new : List Char) (xs rest : List Char) :
    replaceGo old new xs.length (xs ++ rest) = replaceGo old new 0 rest := by
  induction xs with
  | nil => rfl
  | cons x xs ih => simpa [replaceGo] using ih

/-- A stretch of text in which no occurrence of `old` begins is copied. -/
theorem replaceGo_copy (old new : List Char) (p rest : List Char)
    (h : ∀ t, t ≠ [] → t <:+ p → old.isPrefixOf (t ++ rest) = false) :
    replaceGo old new 0 (p ++ rest) = p ++ replaceGo old new 0 rest := by
  induction p with
  | nil => rfl
  | cons c p ih =>
    have hhead := h (c :: p) (by simp) (List.suffix_refl _)
    have htail : ∀ t, t ≠ [] → t <:+ p → old.isPrefixOf (t ++ rest) = false :=
      fun t ht hsuf => h t ht (List.IsSuffix.trans hsuf (List.suffix_cons c p))
    simp only [List.cons_append] at hhead ⊢
    simp only [replaceGo, hhead, Bool.false_eq_true, if_false, ih htail]

/-- An occurrence of `old` at the head is replaced by `new`. -/
theorem replaceGo_match (old new : List Char) (rest : List Char) (hold : old ≠ []) :
    replaceGo old new 0 (old ++ rest) = new ++ replaceGo old new 0 rest := by
  obtain ⟨c, cs, rfl⟩ := List.exists_cons_of_ne_nil hold
  have hpre : (c :: cs).isPrefixOf (c :: (cs ++ rest)) = true := by
    rw [List.isPrefixOf_iff_prefix]
    exact List.prefix_append (c :: cs) rest
  have hstep : replaceGo (c :: cs) new 0 (c :: (cs ++ rest)) =
      new ++ replaceGo (c :: cs) new cs.length (cs ++ rest) := by
    show (if (c :: cs).isPrefixOf (c :: (cs ++ rest)) = true then
        new ++ replaceGo (c :: cs) new ((c :: cs).length - 1) (cs ++ rest)
      else c :: replaceGo (c :: cs) new 0 (cs ++ rest)) = _
    rw [if_pos hpre]
    rfl
  rw [List.cons_append, hstep, replaceGo_skip]

/-- The placeholder does not overlap itself: it is no prefix of a shorter non-empty
text followed by the placeholder. -/
theorem placeholder_no_overlap (t rest : List Char) (ht : t ≠ []) (hlen : t.length < 6) :
    "{code}".data.isPrefixOf (t ++ "{code}".data ++ rest) = false := by
  rcases t with _ | ⟨a, _ | ⟨b, _ | ⟨c, _ | ⟨d, _ | ⟨e, _ | ⟨f, t⟩⟩⟩⟩⟩⟩
  · exact absurd rfl ht
  all_goals first
    | (simp only [List.length_cons] at hlen; omega)
    | (simp [List.isPrefixOf])

/-- A text in which `pat` does not occur has no tail that begins with `pat`. -/
theorem occursIn_false_iff (pat s : List Char) :
    occursIn pat s = false ↔ ∀ t, t <:+ s → pat.isPrefixOf t = false := by
  simp only [occursIn, List.any_eq_false, List.mem_tails, Bool.not_eq_true]

/-- In a piece without placeholder, followed by a placeholder, no placeholder begins. -/
theorem piece_then_placeholder (p rest : List Char)
    (hfree : occursIn "{code}".data p = false) :
    ∀ t, t ≠ [] → t <:+ p →
      "{code}".data.isPrefixOf (t ++ ("{code}".data ++ rest)) = false := by
  intro t ht hsuf
  by_cases hlen : t.length < 6
  · rw [← List.append_assoc]
    exact placeholder_no_overlap t rest ht hlen
  · by_contra hpre
    have hpre' : "{code}".data <+: t ++ ("{code}".data ++ rest) := by
      rw [← List.isPrefixOf_iff_prefix]
      simpa using hpre
    have hshort : "{code}".data <+: t :=
      List.prefix_of_prefix_length_le hpre' (List.prefix_append t _)
        (by simp only [not_lt] at hlen; exact hlen)
    have := (occursIn_false_iff _ _).mp hfree t hsuf
    rw [List.isPrefixOf_iff_prefix.mpr hshort] at this
    exact absurd this (by decide)

/-- `strings.Replace` with the placeholder, on a template given by its pieces between
the placeholders: the pieces are kept and every placeholder becomes `new`. -/
theorem replaceGo_placeholder (new : List Char) :
    ∀ pieces : List (List Char), pieces ≠ [] →
      (∀ p ∈ pieces, occursIn "{code}".data p = false) →
      replaceGo "{code}".data new 0 ("{code}".data.intercalate pieces) =
        new.intercalate pieces := by
  intro pieces
  induction pieces with
  | nil => intro h; exact absurd rfl h
  | cons p rest ih =>
    intro _ hfree
    have hp := hfree p (by simp)
    cases rest with
    | nil =>
      have h1 : "{code}".data.intercalate [p] = p ++ [] := by simp [List.intercalate]
      have h2 : new.intercalate [p] = p := by simp [List.intercalate]
      rw [h1, h2, replaceGo_copy]
      · simp [replaceGo]
      · intro t _ hsuf
        rw [List.append_nil]
        exact (occursIn_false_iff _ _).mp hp t hsuf
    | cons q qs =>
      have h1 : "{code}".data.intercalate (p :: q :: qs) =
          p ++ ("{code}".data ++ "{code}".data.intercalate (q :: qs)) := by
        simp [List.intercalate, List.intersperse]
      have h2 : new.intercalate (p :: q :: qs) =
          p ++ (new ++ new.intercalate (q :: qs)) := by
        simp [List.intercalate, List.intersperse]
      rw [h1, h2, replaceGo_copy _ _ _ _ (piece_then_placeholder p _ hp),
        replaceGo_match _ _ _ (by decide),
        ih (by simp) (fun x hx => hfree x (List.mem_cons_of_mem _ hx))]

/-! ## The characters of cleaned paths -/

/-- The elements of a path hold characters of the path only. -/
theorem mem_of_mem_splitSlash (s e : List Char) (he : e ∈ splitSlash s) :
    ∀ x ∈ e, x ∈ s := by
  induction s generalizing e with
  | nil =>
    simp only [splitSlash, List.mem_singleton] at he
    subst he
    simp
  | cons c cs ih =>
    unfold splitSlash at he
    split at he
    · rcases List.mem_cons.mp he with h | h
      · subst h; simp
      · intro x hx
        exact List.mem_cons_of_mem _ (ih e h x hx)
    · split at he
      · simp only [List.mem_singleton] at he
        subst he
        simp
      · rename_i first others hsplit
        rcases List.mem_cons.mp he with h | h
        · subst h
          intro x hx
          rcases List.mem_cons.mp hx with h1 | h1
          · subst h1; simp
          · exact List.mem_cons_of_mem _ (ih first (by rw [hsplit]; simp) x h1)
        · intro x hx
          exact List.mem_cons_of_mem _
            (ih e (by rw [hsplit]; exact List.mem_cons_of_mem _ h) x hx)

/-- One step of cleaning keeps a selection of what it is given. -/
theorem mem_cleanStep (rooted : Bool) (acc : List (List Char)) (el e : List Char)
    (h : e ∈ cleanStep rooted acc el) : e ∈ acc ∨ e = el := by
  unfold cleanStep at h
  by_cases h1 : el = [] ∨ el = ['.']
  · rw [if_pos h1] at h
    exact Or.inl h
  · rw [if_neg h1] at h
    by_cases h2 : el = ['.', '.']
    · rw [if_pos h2] at h
      cases acc with
      | nil =>
        cases rooted with
        | true => simp at h
        | false =>
          simp only [Bool.false_eq_true, if_false, List.mem_singleton] at h
          exact Or.inr h
      | cons top others =>
        simp only at h
        by_cases h3 : top = ['.', '.']
        · rw [if_pos h3] at h
          rcases List.mem_cons.mp h with h4 | h4
          · exact Or.inr h4
          · exact Or.inl h4
        · rw [if_neg h3] at h
          exact Or.inl (List.mem_cons_of_mem _ h)
    · rw [if_neg h2] at h
      rcases List.mem_cons.mp h with h4 | h4
      · exact Or.inr h4
      · exact Or.inl h4

/-- Cleaning keeps a selection of the elements it is given. -/
theorem mem_foldl_cleanStep (rooted : Bool) (elems : List (List Char)) :
    ∀ (acc : List (List Char)) (e : List Char),
      e ∈ elems.foldl (cleanStep rooted) acc → e ∈ acc ∨ e ∈ elems := by
  induction elems with
  | nil => intro acc e h; exact Or.inl h
  | cons el rest ih =>
    intro acc e h
    rw [List.foldl_cons] at h
    rcases ih _ e h with h1 | h1
    · rcases mem_cleanStep rooted acc el e h1 with h2 | h2
      · exact Or.inl h2
      · exact Or.inr (by rw [h2]; simp)
    · exact Or.inr (List.mem_cons_of_mem _ h1)

/-- The characters of a joined list come from the separator or from an element. -/
theorem mem_intercalate (sep : List Char) (elems : List (List Char)) (x : Char)
    (hx : x ∈ sep.intercalate elems) : x ∈ sep ∨ ∃ e ∈ elems, x ∈ e := by
  induction elems with
  | nil => simp [List.intercalate] at hx
  | cons e rest ih =>
    cases rest with
    | nil =>
      have : sep.intercalate [e] = e := by simp [List.intercalate]
      rw [this] at hx
      exact Or.inr ⟨e, by simp, hx⟩
    | cons e' rest' =>
      have hstep : sep.intercalate (e :: e' :: rest') =
          e ++ (sep ++ sep.intercalate (e' :: rest')) := by
        simp [List.intercalate, List.intersperse]
      rw [hstep] at hx
      rcases List.mem_append.mp hx with h | h
      · exact Or.inr ⟨e, by simp, h⟩
      · rcases List.mem_append.mp h with h | h
        · exact Or.inl h
        · rcases ih h with h1 | ⟨y, hy, hxy⟩
          · exact Or.inl h1
          · exact Or.inr ⟨y, List.mem_cons_of_mem _ hy, hxy⟩

/-- `filepath.Clean` adds no character other than `/` and `.`. -/
theorem mem_Clean (path : String) (x : Char) (hx : x ∈ (Clean path).data) :
    x ∈ path.data ∨ x = '/' ∨ x = '.' := by
  unfold Clean at hx
  have hkept : ∀ rooted : Bool,
      x ∈ ['/'].intercalate ((splitSlash path.data).foldl (cleanStep rooted) []).reverse →
      x ∈ path.data ∨ x = '/' ∨ x = '.' := by
    intro rooted h
    rcases mem_intercalate _ _ x h with h1 | ⟨e, he, hxe⟩
    · simp only [List.mem_singleton] at h1
      exact Or.inr (Or.inl h1)
    · rcases mem_foldl_cleanStep rooted _ [] e (List.mem_reverse.mp he) with h2 | h2
      · simp at h2
      · exact Or.inl (mem_of_mem_splitSlash _ e h2 x hxe)
  simp only [] at hx
  split_ifs at hx
  · simp only [List.mem_singleton] at hx
    exact Or.inr (Or.inr hx)
  · simp only [String.data_append, List.mem_append] at hx
    rcases hx with h | h
    · simp only [List.mem_singleton] at h
      exact Or.inr (Or.inl h)
    · exact hkept _ h
  · simp only [List.mem_singleton] at hx
    exact Or.inr (Or.inr hx)
  · exact hkept _ hx

/-- `filepath.Dir` adds no character other than `/` and `.`. -/
theorem mem_Dir (path : String) (x : Char) (hx : x ∈ (Dir path).data) :
    x ∈ path.data ∨ x = '/' ∨ x = '.' := by
  unfold Dir at hx
  rcases mem_Clean _ x hx with h | h
  · left
    have h1 : x ∈ (path.data.reverse.dropWhile (fun c => c ≠ '/')) := List.mem_reverse.mp h
    exact List.mem_reverse.mp ((List.dropWhile_sublist _).subset h1)
  · exact Or.inr h

/-- `filepath.Base` adds no character other than `/` and `.`. -/
theorem mem_Base (path : String) (x : Char) (hx : x ∈ (Base path).data) :
    x ∈ path.data ∨ x = '/' ∨ x = '.' := by
  unfold Base at hx
  simp only [] at hx
  split_ifs at hx
  · simp only [List.mem_singleton] at hx
    exact Or.inr (Or.inr hx)
  · simp only [List.mem_singleton] at hx
    exact Or.inr (Or.inl hx)
  · left
    have h1 := List.mem_reverse.mp hx
    have h2 := (List.takeWhile_sublist _).subset h1
    exact List.mem_reverse.mp ((List.dropWhile_sublist _).subset h2)

/-- The digits written by `Nat.toDigitsCore` are digit characters or come from the
accumulator. -/
theorem mem_toDigitsCore (c : Char) (hc : ∀ k, Nat.digitChar k ≠ c) (fuel : Nat) :
    ∀ (n : Nat) (acc : List Char), c ∉ acc → c ∉ Nat.toDigitsCore 10 fuel n acc := by
  induction fuel with
  | zero => intro n acc h; simpa [Nat.toDigitsCore] using h
  | succ fuel ih =>
    intro n acc h
    have hacc : c ∉ Nat.digitChar (n % 10) :: acc := by
      intro hmem
      rcases List.mem_cons.mp hmem with h1 | h1
      · exact hc _ h1.symm
      · exact h h1
    simp only [Nat.toDigitsCore]
    split_ifs
    · exact hacc
    · exact ih _ _ hacc

/-- No digit character is a `{`. -/
theorem digitChar_ne_brace (k : Nat) : Nat.digitChar k ≠ '{' := by
  match k with
  | 0 | 1 | 2 | 3 | 4 | 5 | 6 | 7 | 8 | 9 | 10 | 11 | 12 | 13 | 14 | 15 => decide
  | k + 16 =>
    have h : Nat.digitChar (k + 16) = '*' := by
      simp [Nat.digitChar]
    rw [h]
    decide

/-- The text of `strconv.Itoa` holds no `{`. -/
theorem Itoa_no_brace (n : Int) : '{' ∉ (Itoa n).data := by
  cases n with
  | ofNat m =>
    show '{' ∉ (Nat.repr m).data
    simp only [Nat.repr, List.asString]
    exact mem_toDigitsCore _ digitChar_ne_brace _ _ _ (by simp)
  | negSucc m =>
    show '{' ∉ ("-" ++ Nat.repr (m + 1)).data
    simp only [String.data_append, Nat.repr, List.asString, List.mem_append, not_or]
    exact ⟨by decide, mem_toDigitsCore _ digitChar_ne_brace _ _ _ (by simp)⟩

/-- A text without `{` holds no placeholder. -/
theorem occursIn_placeholder_of_no_brace (s : List Char) (h : '{' ∉ s) :
    occursIn "{code}".data s = false := by
  rw [occursIn_false_iff]
  intro t hsuf
  by_contra hpre
  have hpre' : "{code}".data <+: t := by
    rw [← List.isPrefixOf_iff_prefix]
    simpa using hpre
  obtain ⟨r, hr⟩ := hpre'
  apply h
  apply hsuf.subset
  rw [← hr]
  exact List.mem_append_left _ (by decide)

/-- Replacing the placeholders of a template whose pieces hold no `{` by a target
without `{` leaves no `{`. -/
theorem stringsReplaceAll_no_brace (template target : String) (pieces : List (List Char))
    (hne : pieces ≠ []) (hpieces : template.data = "{code}".data.intercalate pieces)
    (hfree : ∀ p ∈ pieces, '{' ∉ p) (htarget : '{' ∉ target.data) :
    '{' ∉ (stringsReplaceAll template "{code}" target).data := by
  have hold : ¬ ("{code}" : String).data = [] := by decide
  unfold stringsReplaceAll
  rw [if_neg hold, hpieces, replaceGo_placeholder _ pieces hne
    (fun p hp => occursIn_placeholder_of_no_brace p (hfree p hp))]
  intro hmem
  rcases mem_intercalate _ _ _ hmem with h | ⟨e, he, hxe⟩
  · exact htarget h
  · exact hfree e he hxe

/-- The templates of the registered profiles, cut at their placeholders: no piece holds
a `{`, and neither do the setup command and the image. -/
theorem registered_templates (entry : Int × LanguageConfig)
    (hentry : entry ∈ SupportedLanguages) :
    ∃ compilePieces runPieces : List (List Char),
      compilePieces ≠ [] ∧ runPieces ≠ [] ∧
      entry.2.Compile.data = "{code}".data.intercalate compilePieces ∧
      entry.2.Run.data = "{code}".data.intercalate runPieces ∧
      (∀ p ∈ compilePieces, '{' ∉ p) ∧ (∀ p ∈ runPieces, '{' ∉ p) ∧
      '{' ∉ entry.2.Setup.data ∧ '{' ∉ entry.2.Image.data := by
  simp only [SupportedLanguages, List.mem_cons, List.mem_singleton, List.not_mem_nil,
    or_false] at hentry
  rcases hentry with rfl | rfl | rfl | rfl | rfl
  · exact ⟨[[]], ["python3 ".data, []], by decide, by decide, by decide, by decide,
      by decide, by decide, by decide, by decide⟩
  · exact ⟨["g++ ".data, " -o /workspace/tmp/a.out".data], ["/workspace/tmp/a.out".data],
      by decide, by decide, by decide, by decide, by decide, by decide, by decide,
      by decide⟩
  · exact ⟨["go build -o /workspace/tmp/a.out ".data, []], ["/workspace/tmp/a.out".data],
      by decide, by decide, by decide, by decide, by decide, by decide, by decide,
      by decide⟩
  · exact ⟨["javac ".data, []], ["java -cp /workspace/code Main".data],
      by decide, by decide, by decide, by decide, by decide, by decide, by decide,
      by decide⟩
  · exact ⟨["rustc ".data, " -o /workspace/tmp/code".data], ["/workspace/tmp/code".data],
      by decide, by decide, by decide, by decide, by decide, by decide, by decide,
      by decide⟩

/-- The mount point of the test assets holds no `{`. -/
theorem GetFileSaveName_no_brace (problemID : Int) :
    '{' ∉ (GetFileSaveName "/tmp" problemID "" "").data := by
  intro hmem
  have hne : ("/tmp" : String) ≠ "" := by decide
  simp only [GetFileSaveName, Join, hne, if_false] at hmem
  rcases mem_Clean _ _ hmem with h | h | h
  · have := Itoa_no_brace problemID
    simp [stringsJoin, String.intercalate, String.intercalate.go, String.data_append,
      this] at h
  · revert h; decide
  · revert h; decide

/-- The command built for a registered profile from paths without `{` holds no `{`. -/
theorem buildDockerRunCommandWithTimeout_no_brace (entry : Int × LanguageConfig)
    (hentry : entry ∈ SupportedLanguages)
    (codeFilePath inputFilePath tempFilePath outputFilePath : String)
    (problemID timeoutSec : Int)
    (hcode : '{' ∉ codeFilePath.data) (hinput : '{' ∉ inputFilePath.data)
    (htemp : '{' ∉ tempFilePath.data) (houtput : '{' ∉ outputFilePath.data) :
    '{' ∉ (buildDockerRunCommandWithTimeout entry.2 codeFilePath inputFilePath tempFilePath
      outputFilePath problemID timeoutSec).data := by
  obtain ⟨compilePieces, runPieces, hc1, hr1, hc2, hr2, hc3, hr3, hsetup, himage⟩ :=
    registered_templates entry hentry
  have hbase : ∀ path : String, '{' ∉ path.data → '{' ∉ (Base path).data := by
    intro path hp hmem
    rcases mem_Base path _ hmem with h | h | h
    · exact hp h
    · revert h; decide
    · revert h; decide
  have hdir : ∀ path : String, '{' ∉ path.data → '{' ∉ (Dir path).data := by
    intro path hp hmem
    rcases mem_Dir path _ hmem with h | h | h
    · exact hp h
    · revert h; decide
    · revert h; decide
  have htarget : '{' ∉ ("/workspace/code/" ++ Base codeFilePath).data := by
    simp only [String.data_append, List.mem_append, not_or]
    exact ⟨by decide, hbase _ hcode⟩
  have hcompile : '{' ∉ (compileCmd entry.2 codeFilePath).data := by
    unfold compileCmd
    split_ifs
    · simp only [String.data_append, List.mem_append, not_or]
      exact ⟨stringsReplaceAll_no_brace _ _ compilePieces hc1 hc2 hc3 htarget, by decide⟩
    · decide
  have hrun : '{' ∉ (runCmd entry.2 codeFilePath).data :=
    stringsReplaceAll_no_brace _ _ runPieces hr1 hr2 hr3 htarget
  have hjoin : '{' ∉ (stringsJoin securityOpts " ").data := by decide
  have hmem : '{' ∉ memoryLimit.data := by decide
  have hcpu : '{' ∉ cpuLimit.data := by decide
  have hio := GetFileSaveName_no_brace problemID
  have htime := Itoa_no_brace timeoutSec
  have h1 := hdir _ hcode
  have h2 := hdir _ htemp
  have h3 := hbase _ hinput
  have h4 := hbase _ htemp
  have h5 := hbase _ houtput
  simp only [buildDockerRunCommandWithTimeout, commandWithTimeout, executionCmd,
    compareScript, codeFileVolume, ioVolumeMapping, tempFileVolume, String.data_append,
    List.mem_append, not_or]
  repeat' apply And.intro
  all_goals first
    | assumption
    | decide

set_option maxRecDepth 100000

/-- C12 as stated fails: for the registered C++ profile and a test case whose files are
named `{code}.txt`, a name that `ValidateFiles` accepts, the built command still holds
`{code}`, in the operands of the redirect and of the comparison, which are not
templates and are not substituted. -/
theorem compileCmd_placeholder_counterexample :
    (2, (GetLanguageConfigByID 2).1) ∈ SupportedLanguages ∧
      ValidateFiles id ["{code}.txt"] ["{code}.txt"] = none ∧
      occursIn "{code}".data
        (buildDockerRunCommandWithTimeout (GetLanguageConfigByID 2).1
          "/tmp/codeDir_100/solution.cpp" "/tmp/problem_7/in/{code}.txt"
          "/tmp/judge_100/tempfile.txt" "/tmp/problem_7/out/{code}.txt" 7 1).data = true := by
  decide

/-- C12, amended.  The compile step of the built command is present exactly when the
compile template is non-empty.  With an empty template only blanks stand between the
setup command and the `timeout` invocation.  With a non-empty template the step is the
template in which every placeholder `{code}` is replaced by
`/workspace/code/<base name of the staged source file>` (the pieces of the template
between the placeholders are kept), followed by ` && `.  The command built for a
registered profile from paths without `{` holds no `{code}`. -/
theorem compileCmd_spec (langConfig : LanguageConfig)
    (codeFilePath inputFilePath tempFilePath outputFilePath : String)
    (problemID timeoutSec : Int) :
    (compileCmd langConfig codeFilePath = "" ↔ langConfig.Compile = "") ∧
    (langConfig.Compile = "" →
      buildDockerRunCommandWithTimeout langConfig codeFilePath inputFilePath tempFilePath
          outputFilePath problemID timeoutSec =
        "docker run --rm " ++ stringsJoin securityOpts " " ++ " "
          ++ codeFileVolume codeFilePath ++ " " ++ ioVolumeMapping problemID ++ " "
          ++ tempFileVolume tempFilePath ++ " --memory " ++ memoryLimit ++ " --cpus "
          ++ cpuLimit ++ " " ++ langConfig.Image ++ " /bin/sh -c \""
          ++ (langConfig.Setup ++ " " ++ ""
            ++ (" timeout --preserve-status " ++ Itoa timeoutSec
              ++ "s /bin/sh -c 'start=\\$(date +%s%N); "
              ++ executionCmd langConfig codeFilePath inputFilePath tempFilePath
              ++ "; end=\\$(date +%s%N); echo Execution time: \\$((end-start)) nanoseconds'"))
          ++ compareScript tempFilePath outputFilePath ++ "\"") ∧
    (langConfig.Compile ≠ "" →
      ∀ pieces : List (List Char), pieces ≠ [] →
        (∀ p ∈ pieces, occursIn "{code}".data p = false) →
        langConfig.Compile.data = "{code}".data.intercalate pieces →
        buildDockerRunCommandWithTimeout langConfig codeFilePath inputFilePath tempFilePath
            outputFilePath problemID timeoutSec =
          "docker run --rm " ++ stringsJoin securityOpts " " ++ " "
          ++ codeFileVolume codeFilePath ++ " " ++ ioVolumeMapping problemID ++ " "
          ++ tempFileVolume tempFilePath ++ " --memory " ++ memoryLimit ++ " --cpus "
          ++ cpuLimit ++ " " ++ langConfig.Image ++ " /bin/sh -c \""
          ++ (langConfig.Setup ++ " "
            ++ (String.mk (("/workspace/code/" ++ Base codeFilePath).data.intercalate pieces)
              ++ " && ")
            ++ (" timeout --preserve-status " ++ Itoa timeoutSec
              ++ "s /bin/sh -c 'start=\\$(date +%s%N); "
              ++ executionCmd langConfig codeFilePath inputFilePath tempFilePath
              ++ "; end=\\$(date +%s%N); echo Execution time: \\$((end-start)) nanoseconds'"))
          ++ compareScript tempFilePath outputFilePath ++ "\"") ∧
    (∀ entry ∈ SupportedLanguages,
      '{' ∉ codeFilePath.data → '{' ∉ inputFilePath.data → '{' ∉ tempFilePath.data →
      '{' ∉ outputFilePath.data →
      occursIn "{code}".data
        (buildDockerRunCommandWithTimeout entry.2 codeFilePath inputFilePath tempFilePath
          outputFilePath problemID timeoutSec).data = false) := by
  refine ⟨?_, ?_, ?_, ?_⟩
  · unfold compileCmd
    constructor
    · intro h
      by_contra hne
      rw [if_pos hne] at h
      have := congrArg String.data h
      simp [String.data_append] at this
    · intro h
      simp [h]
  · intro h
    have hcmd : commandWithTimeout langConfig codeFilePath inputFilePath tempFilePath
        timeoutSec =
        langConfig.Setup ++ " " ++ ""
          ++ (" timeout --preserve-status " ++ Itoa timeoutSec
            ++ "s /bin/sh -c 'start=\\$(date +%s%N); "
            ++ executionCmd langConfig codeFilePath inputFilePath tempFilePath
            ++ "; end=\\$(date +%s%N); echo Execution time: \\$((end-start)) nanoseconds'") := by
      unfold commandWithTimeout compileCmd
      simp only [h, ne_eq, not_true_eq_false, if_false, String.append_assoc]
    unfold buildDockerRunCommandWithTimeout
    rw [hcmd]
  · intro h pieces hne hfree hpieces
    have hold : ¬ ("{code}" : String).data = [] := by decide
    have hrep : stringsReplaceAll langConfig.Compile "{code}"
        ("/workspace/code/" ++ Base codeFilePath) =
        String.mk (("/workspace/code/" ++ Base codeFilePath).data.intercalate pieces) := by
      unfold stringsReplaceAll
      rw [if_neg hold, hpieces, replaceGo_placeholder _ pieces hne hfree]
    have hcmd : commandWithTimeout langConfig codeFilePath inputFilePath tempFilePath
        timeoutSec =
        langConfig.Setup ++ " "
          ++ (String.mk (("/workspace/code/" ++ Base codeFilePath).data.intercalate pieces)
            ++ " && ")
          ++ (" timeout --preserve-status " ++ Itoa timeoutSec
            ++ "s /bin/sh -c 'start=\\$(date +%s%N); "
            ++ executionCmd langConfig codeFilePath inputFilePath tempFilePath
            ++ "; end=\\$(date +%s%N); echo Execution time: \\$((end-start)) nanoseconds'") := by
      unfold commandWithTimeout compileCmd
      simp only [h, ne_eq, not_false_eq_true, if_true, hrep, String.append_assoc]
    unfold buildDockerRunCommandWithTimeout
    rw [hcmd]
  · intro entry hentry hcode hinput htemp houtput
    exact occursIn_placeholder_of_no_brace _
      (buildDockerRunCommandWithTimeout_no_brace entry hentry _ _ _ _ _ _ hcode hinput
        htemp houtput)

/-- Witness of the amended C12: the C++ command for the sample paths has the compile
step `g++ /workspace/code/solution.cpp -o /workspace/tmp/a.out && ` between the setup
command and `timeout`, and holds no `{code}`; the Python profile has no compile
template and no compile step. -/
theorem compileCmd_spec_witness :
    (compileCmd (GetLanguageConfigByID 1).1 "/tmp/codeDir_100/solution.py" = "" ↔
        (GetLanguageConfigByID 1).1.Compile = "") ∧
    buildDockerRunCommandWithTimeout (GetLanguageConfigByID 2).1
        "/tmp/codeDir_100/solution.cpp" "/tmp/problem_7/in/a.txt"
        "/tmp/judge_100/tempfile.txt" "/tmp/problem_7/out/a.txt" 7 1 =
      "docker run --rm " ++ stringsJoin securityOpts " " ++ " "
          ++ codeFileVolume "/tmp/codeDir_100/solution.cpp" ++ " " ++ ioVolumeMapping 7
          ++ " " ++ tempFileVolume "/tmp/judge_100/tempfile.txt" ++ " --memory "
          ++ memoryLimit ++ " --cpus " ++ cpuLimit ++ " "
          ++ (GetLanguageConfigByID 2).1.Image ++ " /bin/sh -c \""
          ++ ((GetLanguageConfigByID 2).1.Setup ++ " "
            ++ (String.mk
                (("/workspace/code/" ++ Base "/tmp/codeDir_100/solution.cpp").data.intercalate
                  ["g++ ".data, " -o /workspace/tmp/a.out".data])
              ++ " && ")
            ++ (" timeout --preserve-status " ++ Itoa 1
              ++ "s /bin/sh -c 'start=\\$(date +%s%N); "
              ++ executionCmd (GetLanguageConfigByID 2).1 "/tmp/codeDir_100/solution.cpp"
                "/tmp/problem_7/in/a.txt" "/tmp/judge_100/tempfile.txt"
              ++ "; end=\\$(date +%s%N); echo Execution time: \\$((end-start)) nanoseconds'"))
          ++ compareScript "/tmp/judge_100/tempfile.txt" "/tmp/problem_7/out/a.txt" ++ "\"" ∧
    occursIn "{code}".data
      (buildDockerRunCommandWithTimeout (GetLanguageConfigByID 2).1
        "/tmp/codeDir_100/solution.cpp" "/tmp/problem_7/in/a.txt"
        "/tmp/judge_100/tempfile.txt" "/tmp/problem_7/out/a.txt" 7 1).data = false :=
  ⟨(compileCmd_spec (GetLanguageConfigByID 1).1 "/tmp/codeDir_100/solution.py"
      "/tmp/problem_7/in/a.txt" "/tmp/judge_100/tempfile.txt" "/tmp/problem_7/out/a.txt"
      7 1).1,
    (compileCmd_spec (GetLanguageConfigByID 2).1 "/tmp/codeDir_100/solution.cpp"
      "/tmp/problem_7/in/a.txt" "/tmp/judge_100/tempfile.txt" "/tmp/problem_7/out/a.txt"
      7 1).2.2.1 (by decide)
      ["g++ ".data, " -o /workspace/tmp/a.out".data] (by decide) (by decide) (by decide),
    (compileCmd_spec (GetLanguageConfigByID 2).1 "/tmp/codeDir_100/solution.cpp"
      "/tmp/problem_7/in/a.txt" "/tmp/judge_100/tempfile.txt" "/tmp/problem_7/out/a.txt"
      7 1).2.2.2
      (2, (GetLanguageConfigByID 2).1) (by decide) (by decide) (by decide) (by decide)
      (by decide)⟩

/-! ## The diff flag -/

/-- What `dotPlusThen` accepts: a non-empty stretch without newline, the literal, and a
remainder that `next` accepts. -/
theorem dotPlusThen_iff (lit : List Char) (next : List Char → Bool) (s : List Char) :
    dotPlusThen lit next s = true ↔
      ∃ x rest, x ≠ [] ∧ '\n' ∉ x ∧ s = x ++ lit ++ rest ∧ next rest = true := by
  induction s with
  | nil =>
    constructor
    · intro h; simp [dotPlusThen] at h
    · rintro ⟨x, rest, hx, _, hs, _⟩
      cases x with
      | nil => exact absurd rfl hx
      | cons a x => simp at hs
  | cons c cs ih =>
    constructor
    · intro h
      simp only [dotPlusThen, Bool.and_eq_true, Bool.or_eq_true, decide_eq_true_eq] at h
      obtain ⟨hc, h⟩ := h
      rcases h with ⟨hpre, hnext⟩ | hrec
      · obtain ⟨r, hr⟩ := List.isPrefixOf_iff_prefix.mp hpre
        refine ⟨[c], r, by simp, by simpa using fun h => hc h.symm, by simp [← hr], ?_⟩
        rw [← hr] at hnext
        simpa using hnext
      · obtain ⟨x, rest, _, hnl, hs, hnext⟩ := ih.mp hrec
        refine ⟨c :: x, rest, by simp, ?_, by simp [hs], hnext⟩
        intro hmem
        rcases List.mem_cons.mp hmem with h1 | h1
        · exact hc h1.symm
        · exact hnl h1
    · rintro ⟨x, rest, hx, hnl, hs, hnext⟩
      cases x with
      | nil => exact absurd rfl hx
      | cons a x =>
        simp only [List.cons_append, List.cons.injEq] at hs
        obtain ⟨hca, hcs⟩ := hs
        subst hca
        have hc : c ≠ '\n' := fun h => hnl (by simp [h])
        have hnl' : '\n' ∉ x := fun h => hnl (List.mem_cons_of_mem _ h)
        simp only [dotPlusThen, Bool.and_eq_true, Bool.or_eq_true, decide_eq_true_eq]
        refine ⟨hc, ?_⟩
        by_cases hxe : x = []
        · left
          subst hxe
          simp only [List.nil_append] at hcs
          subst hcs
          constructor
          · exact List.isPrefixOf_iff_prefix.mpr (List.prefix_append lit rest)
          · simpa using hnext
        · right
          exact ih.mpr ⟨x, rest, hxe, hnl', hcs, hnext⟩

/-- A match of the diff pattern at the head of `s` is the comparison's message with two
non-empty operand names free of newlines. -/
theorem diffMatchAt_iff (s : List Char) :
    diffMatchAt s = true ↔
      ∃ x y post, x ≠ [] ∧ y ≠ [] ∧ '\n' ∉ x ∧ '\n' ∉ y ∧ s = diffMessage x y ++ post := by
  unfold diffMatchAt
  simp only [Bool.and_eq_true, dotPlusThen_iff, List.isPrefixOf_iff_prefix]
  constructor
  · rintro ⟨⟨r, hr⟩, x, rest, hx, hxnl, hs, y, post, hy, hynl, hrest, _⟩
    refine ⟨x, y, post, hx, hy, hxnl, hynl, ?_⟩
    rw [← hr, List.drop_left] at hs
    rw [← hr, hs, hrest]
    simp [diffMessage, List.append_assoc]
  · rintro ⟨x, y, post, hx, hy, hxnl, hynl, hs⟩
    have hs' : s = "Files /workspace/tmp/".data ++
        (x ++ " and /workspace/io/out/".data ++ (y ++ " differ".data ++ post)) := by
      rw [hs]
      simp [diffMessage, List.append_assoc]
    refine ⟨⟨_, hs'.symm⟩, x, y ++ " differ".data ++ post, hx, hxnl, ?_, y, post, hy, hynl,
      rfl, trivial⟩
    rw [hs', List.drop_left]

/-- C15. The parser sets `OutputDiff` exactly when the captured output contains the
message `Files /workspace/tmp/<x> and /workspace/io/out/<y> differ` with `<x>` and `<y>`
non-empty and free of newlines, so that the whole message stands on one line of the
output; the process error plays no part. -/
theorem parseOutput_diff (output : String) (err : Option String) :
    (parseOutput output err).OutputDiff = true ↔
      ∃ pre x y post, x ≠ [] ∧ y ≠ [] ∧ '\n' ∉ x ∧ '\n' ∉ y ∧
        output.data = pre ++ diffMessage x y ++ post := by
  have hflag : (parseOutput output err).OutputDiff = diffMatch output.data := by
    cases err <;> rfl
  rw [hflag]
  unfold diffMatch
  simp only [List.any_eq_true, List.mem_tails, diffMatchAt_iff]
  constructor
  · rintro ⟨t, ⟨pre, hpre⟩, x, y, post, hx, hy, hxnl, hynl, ht⟩
    exact ⟨pre, x, y, post, hx, hy, hxnl, hynl, by rw [← hpre, ht, List.append_assoc]⟩
  · rintro ⟨pre, x, y, post, hx, hy, hxnl, hynl, hs⟩
    exact ⟨diffMessage x y ++ post, ⟨pre, by rw [hs, List.append_assoc]⟩, x, y, post, hx, hy,
      hxnl, hynl, rfl⟩

/-! ## The elapsed time -/

/-- The timing pattern matches at the head of a timing marker and captures its digits. -/
theorem timeMatchAt_marker (digits post : List Char) (hd : isDecimal digits) :
    timeMatchAt (timeMarker digits ++ post) = some digits := by
  obtain ⟨hne, hall⟩ := hd
  have hshape : timeMarker digits ++ post =
      "Execution time: ".data ++ (digits ++ ' ' :: ("nanoseconds".data ++ post)) := by
    simp [timeMarker, List.append_assoc]
  have hpre : "Execution time: ".data.isPrefixOf (timeMarker digits ++ post) = true := by
    rw [hshape, List.isPrefixOf_iff_prefix]
    exact List.prefix_append _ _
  have htake : (digits ++ ' ' :: ("nanoseconds".data ++ post)).takeWhile Char.isDigit =
      digits := by
    rw [List.takeWhile_append_of_pos hall]
    simp [List.takeWhile]
  have hdrop : (digits ++ ' ' :: ("nanoseconds".data ++ post)).dropWhile Char.isDigit =
      ' ' :: ("nanoseconds".data ++ post) := by
    rw [List.dropWhile_append_of_pos hall]
    simp [List.dropWhile]
  have hafter : " nanoseconds".data.isPrefixOf (' ' :: ("nanoseconds".data ++ post)) = true := by
    rw [List.isPrefixOf_iff_prefix]
    exact ⟨post, by simp⟩
  unfold timeMatchAt
  rw [if_pos hpre]
  simp only []
  rw [hshape, List.drop_left, htake, hdrop, if_pos ⟨hne, hafter⟩]

/-- A match of the timing pattern at the head of `s` is a timing marker. -/
theorem timeMatchAt_some (s digits : List Char) (h : timeMatchAt s = some digits) :
    isDecimal digits ∧ ∃ post, s = timeMarker digits ++ post := by
  unfold timeMatchAt at h
  simp only [] at h
  split_ifs at h with hpre hrest
  · simp only [Option.some.injEq] at h
    obtain ⟨r, hr⟩ := List.isPrefixOf_iff_prefix.mp hpre
    obtain ⟨hne, hafter⟩ := hrest
    obtain ⟨post, hpost⟩ := List.isPrefixOf_iff_prefix.mp hafter
    rw [← hr, List.drop_left] at h hne hpost
    refine ⟨⟨by rw [← h]; exact hne, ?_⟩, post, ?_⟩
    · intro c hc
      rw [← h] at hc
      exact (List.mem_takeWhile_imp hc)
    · rw [← hr, ← h, timeMarker, List.append_assoc, List.append_assoc, hpost,
        List.takeWhile_append_dropWhile]

/-- Without a timing marker in the text the search finds nothing. -/
theorem findTime_none (s : List Char)
    (h : ∀ pre digits post, isDecimal digits → s ≠ pre ++ timeMarker digits ++ post) :
    findTime s = none := by
  induction s with
  | nil => rfl
  | cons c cs ih =>
    unfold findTime
    cases hm : timeMatchAt (c :: cs) with
    | some digits =>
      obtain ⟨hd, post, hpost⟩ := timeMatchAt_some _ _ hm
      exact absurd (by simpa using hpost) (h [] digits post hd)
    | none =>
      simp only []
      apply ih
      intro pre digits post hd hcs
      exact h (c :: pre) digits post hd (by simp [hcs])

/-- The search returns the digits of the leftmost timing marker. -/
theorem findTime_leftmost (pre digits post : List Char) (hd : isDecimal digits) :
    ∀ s : List Char, s = pre ++ timeMarker digits ++ post →
      (∀ pre' digits' post', isDecimal digits' → s = pre' ++ timeMarker digits' ++ post' →
        pre.length ≤ pre'.length) →
      findTime s = some digits := by
  induction pre with
  | nil =>
    intro s hs _
    have hm := timeMatchAt_marker digits post hd
    rw [List.nil_append] at hs
    rw [← hs] at hm
    cases s with
    | nil => simp [timeMatchAt] at hm
    | cons c cs =>
      unfold findTime
      rw [hm]
  | cons a pre ih =>
    intro s hs hleft
    rw [hs]
    simp only [List.cons_append]
    unfold findTime
    cases hm : timeMatchAt (a :: (pre ++ timeMarker digits ++ post)) with
    | some digits' =>
      obtain ⟨hd', post', hpost'⟩ := timeMatchAt_some _ _ hm
      have := hleft [] digits' post' hd' (by rw [hs]; simpa using hpost')
      simp at this
    | none =>
      simp only []
      apply ih _ rfl
      intro pre' digits' post' hd' hrest
      have := hleft (a :: pre') digits' post' hd' (by rw [hs]; simp [hrest])
      simpa using this

/-- C14 as stated fails: the output `Execution time: 99999999999999999999 nanoseconds`
contains no marker whose number fits a signed 64-bit integer, yet the elapsed time is
not left at zero: it is set to 9223372036854775807. -/
theorem parseOutput_time_counterexample :
    ¬ (∀ (output : String) (err : Option String),
        (∀ pre digits post, isDecimal digits → decimalValue digits < 2 ^ 63 →
          output.data ≠ pre ++ timeMarker digits ++ post) →
        (parseOutput output err).ExecutionTime = 0) := by
  intro h
  have hvalue : (parseOutput "Execution time: 99999999999999999999 nanoseconds" none).ExecutionTime
      = 9223372036854775807 := by decide
  have hcheck : ∀ k, k < 50 → ∀ digits,
      timeMatchAt ("Execution time: 99999999999999999999 nanoseconds".data.drop k) =
        some digits → ¬ decimalValue digits < 2 ^ 63 := by
    decide
  have := h "Execution time: 99999999999999999999 nanoseconds" none (by
    intro pre digits post hd hfit hs
    have hlen : pre.length < 50 := by
      have := congrArg List.length hs
      simp [timeMarker] at this
      omega
    have hm := timeMatchAt_marker digits post hd
    have hdrop : "Execution time: 99999999999999999999 nanoseconds".data.drop pre.length =
        timeMarker digits ++ post := by
      rw [hs, List.append_assoc, List.drop_left]
    rw [← hdrop] at hm
    exact hcheck pre.length hlen digits hm hfit)
  rw [hvalue] at this
  exact absurd this (by decide)

/-- C14, amended. The parser leaves the elapsed time at zero when the captured output
contains no marker `Execution time: <digits> nanoseconds` at all.  When the first such
marker of the output carries the decimal number `N`, it sets the elapsed time to `N` if
`N` fits a signed 64-bit integer, and to 9223372036854775807 if it does not.  The
process error plays no part. -/
theorem parseOutput_time (output : String) (err : Option String) :
    ((∀ pre digits post, isDecimal digits →
        output.data ≠ pre ++ timeMarker digits ++ post) →
      (parseOutput output err).ExecutionTime = 0) ∧
    (∀ pre digits post, isDecimal digits →
      output.data = pre ++ timeMarker digits ++ post →
      (∀ pre' digits' post', isDecimal digits' →
        output.data = pre' ++ timeMarker digits' ++ post' → pre.length ≤ pre'.length) →
      (decimalValue digits < 2 ^ 63 →
        (parseOutput output err).ExecutionTime = (decimalValue digits : Int)) ∧
      (¬ decimalValue digits < 2 ^ 63 →
        (parseOutput output err).ExecutionTime = 9223372036854775807)) := by
  have htime : (parseOutput output err).ExecutionTime =
      match findTime output.data with
      | some digits => ParseInt digits
      | none => 0 := by
    cases err <;> rfl
  constructor
  · intro h
    rw [htime, findTime_none _ h]
  · intro pre digits post hd hs hleft
    rw [htime, findTime_leftmost pre digits post hd _ hs hleft]
    simp only [ParseInt]
    constructor
    · intro hfit
      rw [if_neg (by omega)]
    · intro hfit
      rw [if_pos (by omega)]
      norm_num

/-- Witness of the amended C14: the marker of the sample run gives 5000 ns, and an
output without any marker gives 0. -/
theorem parseOutput_time_witness :
    (parseOutput "Execution time: 5000 nanoseconds\n" none).ExecutionTime =
        (decimalValue "5000".data : Int) ∧
      (parseOutput "Terminated\n" (some "exit status 143")).ExecutionTime = 0 :=
  ⟨((parseOutput_time "Execution time: 5000 nanoseconds\n" none).2 [] "5000".data "\n".data
      (by unfold isDecimal; decide) rfl (fun _ _ _ _ _ => Nat.zero_le _)).1 (by decide),
    (parseOutput_time "Terminated\n" (some "exit status 143")).1 (by
      intro pre digits post hd hs
      have hm : ∀ k, k < 11 → timeMatchAt ("Terminated\n".data.drop k) = none := by decide
      have hlen : pre.length < 11 := by
        have := congrArg List.length hs
        simp [timeMarker] at this
        omega
      have hmk := timeMatchAt_marker digits post hd
      have hdrop : "Terminated\n".data.drop pre.length = timeMarker digits ++ post := by
        rw [hs, List.append_assoc, List.drop_left]
      rw [← hdrop, hm _ hlen] at hmk
      cases hmk)⟩

/-! ## Verdicts of the sandbox runs -/

set_option maxRecDepth 100000

/-- The verdict text of a case does not depend on the counters. -/
theorem classifyCase_verdict (results₁ results₂ : ResultDetail) (r : ExecutionResult) :
    (classifyCase results₁ r).2 = (classifyCase results₂ r).2 := by
  unfold classifyCase
  split_ifs <;> rfl

/-- A run with a process error whose message is not empty is an "INTERNAL ERROR",
whatever was captured. -/
theorem classifyCase_process_error (results : ResultDetail) (output e : String)
    (he : e ≠ "") :
    (classifyCase results (parseOutput output (some e))).2 = "INTERNAL ERROR" := by
  have hmsg : (parseOutput output (some e)).ErrorMessage = e := rfl
  unfold classifyCase
  rw [if_pos (by rw [hmsg]; exact he)]

/-- The verdicts of two stretches of cases. -/
theorem caseVerdicts_append (env : Env) (langConfig : LanguageConfig)
    (codeFilePath : String) (problemID : Int) (first second : List (String × String)) :
    ∀ call, caseVerdicts env langConfig codeFilePath problemID call (first ++ second) =
      caseVerdicts env langConfig codeFilePath problemID call first ++
        caseVerdicts env langConfig codeFilePath problemID (call + first.length) second := by
  induction first with
  | nil => intro call; simp [caseVerdicts]
  | cons c rest ih =>
    intro call
    have hidx : call + (c :: rest).length = call + 1 + rest.length := by
      simp only [List.length_cons]
      omega
    show caseVerdict env langConfig codeFilePath problemID call c ::
        caseVerdicts env langConfig codeFilePath problemID (call + 1) (rest ++ second) = _
    rw [ih, hidx]
    rfl

/-- A case task whose scratch file is created, run while the context is live: it queues
the verdict of its case, counts it as `classifyCase` says, and leaves the context,
`errChan`, the waiting tasks and the collected verdicts as they are. -/
theorem runTask_verdict (env : Env) (langConfig : LanguageConfig) (codeFilePath : String)
    (problemID : Int) (takeDone : Bool) (inputFilePath outputFilePath : String)
    (st : Orch)
    (hscratch : ∀ call, ∃ p, (CreateTempFile env call).1 = .ok p)
    (hctx : st.ctxErr = none) :
    (runTask env langConfig codeFilePath problemID takeDone inputFilePath outputFilePath
        st).resultsChan =
      st.resultsChan ++ [caseVerdict env langConfig codeFilePath problemID st.started
        (inputFilePath, outputFilePath)] ∧
    (runTask env langConfig codeFilePath problemID takeDone inputFilePath outputFilePath
        st).started = st.started + 1 ∧
    (runTask env langConfig codeFilePath problemID takeDone inputFilePath outputFilePath
        st).results =
      (classifyCase st.results (caseRun env langConfig codeFilePath problemID st.started
        (inputFilePath, outputFilePath))).1 := by
  obtain ⟨⟨tempFilePath, tempDirPath⟩, hp⟩ := hscratch (st.started + 1 - 1)
  cases hc : CreateTempFile env (st.started + 1 - 1) with
  | mk res made =>
    rw [hc] at hp
    simp only at hp
    subst hp
    have hc' : CreateTempFile env st.started = (.ok (tempFilePath, tempDirPath), made) := by
      simpa using hc
    have hpath : scratchPath env st.started = tempFilePath := by
      simp [scratchPath, hc']
    unfold runTask
    simp only [hc, executeDockerCommand, hctx, Option.isSome_none, Bool.false_and,
      Bool.false_eq_true, if_false]
    refine ⟨?_, trivial, ?_⟩
    · simp only [caseVerdict, caseRun, executeDockerCommand, hpath]
      rw [classifyCase_verdict ResultDetail.zero st.results]
    · simp only [caseRun, executeDockerCommand, hpath]

/-- Along a schedule without cancellation, from a state with a live context, an empty
`errChan` and no waiting task, in an environment where every scratch file can be
created: a summary that the collecting loop returns holds the verdicts of all cases,
each one the verdict of its own run, in the order in which the tasks ran, which is some
order of the cases. -/
theorem collect_verdicts (env : Env) (langConfig : LanguageConfig) (codeFilePath : String)
    (problemID : Int)
    (hscratch : ∀ call, ∃ p, (CreateTempFile env call).1 = .ok p) :
    ∀ (sched : List Event) (st : Orch) (finished : List (String × String)),
      (∀ msg, Event.cancel msg ∉ sched) →
      st.ctxErr = none → st.errChan = none → st.blocked = 0 →
      st.started = finished.length →
      st.results.CaseResults ++ st.resultsChan =
        caseVerdicts env langConfig codeFilePath problemID 0 finished →
      ∀ (summary : Option ResultDetail) (err : Option String) (final : Orch),
        collect env langConfig codeFilePath problemID st sched =
          some (summary, err, final) →
        err = none ∧
        ∃ results order, summary = some results ∧ order.Perm (finished ++ st.pending) ∧
          results.CaseResults =
            caseVerdicts env langConfig codeFilePath problemID 0 order := by
  intro sched
  induction sched with
  | nil => intro st finished _ _ _ _ _ _ summary err final h; simp [collect] at h
  | cons ev evs ih =>
    intro st finished hnocancel hctx herr hblocked hstarted hverdicts summary err final h
    have hnocancel' : ∀ msg, Event.cancel msg ∉ evs :=
      fun msg hmem => hnocancel msg (List.mem_cons_of_mem _ hmem)
    unfold collect at h
    cases ev with
    | task pick takeDone =>
      cases hpend : st.pending[pick]? with
      | none => simp [step, hpend] at h
      | some c =>
        obtain ⟨inputFilePath, outputFilePath⟩ := c
        simp only [step, hpend] at h
        have hperm := perm_run_next finished st.pending pick _ hpend
        obtain ⟨_, _, _, hctx', herr', hblocked', hpend', _, hres, _⟩ :=
          runTask_live env langConfig codeFilePath problemID takeDone
            inputFilePath outputFilePath { st with pending := st.pending.eraseIdx pick }
            hscratch hctx
        obtain ⟨hchan, hstarted', _⟩ :=
          runTask_verdict env langConfig codeFilePath problemID takeDone
            inputFilePath outputFilePath { st with pending := st.pending.eraseIdx pick }
            hscratch hctx
        have := ih _ (finished ++ [(inputFilePath, outputFilePath)]) hnocancel' hctx'
          (by rw [herr']; exact herr) (by rw [hblocked']; exact hblocked)
          (by rw [hstarted']; simp [hstarted])
          (by
            rw [hres, hchan, ← List.append_assoc, hverdicts, caseVerdicts_append]
            simp [caseVerdicts, hstarted])
          summary err final h
        rw [hpend'] at this
        obtain ⟨h1, results, order, h2, h3, h4⟩ := this
        exact ⟨h1, results, order, h2, h3.trans hperm, h4⟩
    | cancel msg => exact absurd (List.mem_cons_self _ _) (hnocancel msg)
    | recvErr =>
      by_cases hclosed : st.closed = true
      · simp only [step, herr, hclosed, if_true] at h
        exact ih st finished hnocancel' hctx herr hblocked hstarted hverdicts summary err
          final h
      · simp [step, herr, hclosed] at h
    | recvResult =>
      cases hchan : st.resultsChan with
      | cons result rest =>
        simp only [step, hchan] at h
        have := ih
          { st with
            results := { st.results with CaseResults := st.results.CaseResults ++ [result] },
            resultsChan := rest }
          finished hnocancel' hctx herr hblocked hstarted
          (by simpa [hchan, List.append_assoc] using hverdicts) summary err final h
        simpa using this
      | nil =>
        by_cases hclosed : st.closed = true
        · simp only [step, hchan, hclosed, if_true, Option.some.injEq, Prod.mk.injEq] at h
          obtain ⟨hsummary, herr', _⟩ := h
          have hpend : st.pending = [] := by
            have h1 : st.pending.isEmpty = true := by
              unfold Orch.closed at hclosed
              simp only [Bool.and_eq_true] at hclosed
              exact hclosed.1
            exact List.isEmpty_iff.mp h1
          rw [hchan, List.append_nil] at hverdicts
          refine ⟨herr'.symm, st.results, finished, hsummary.symm, ?_, hverdicts⟩
          rw [hpend, List.append_nil]
        · simp [step, hchan, hclosed] at h
    | recvDone => simp [step, hctx] at h

/-- Once all tasks are over, taking `<-resultsChan` once more than there are queued
verdicts returns the summary with a nil error. -/
theorem collect_drain (env : Env) (langConfig : LanguageConfig) (codeFilePath : String)
    (problemID : Int) :
    ∀ (queued : List CaseResult) (st : Orch),
      st.resultsChan = queued → st.pending = [] → st.blocked = 0 →
      ∃ results final,
        collect env langConfig codeFilePath problemID st
          (List.replicate (queued.length + 1) Event.recvResult) =
            some (some results, none, final) := by
  intro queued
  induction queued with
  | nil =>
    intro st hchan hpend hblocked
    have hclosed : st.closed = true := by simp [Orch.closed, hpend, hblocked]
    exact ⟨st.results, st, by simp [List.replicate, collect, step, hchan, hclosed]⟩
  | cons result rest ih =>
    intro st hchan hpend hblocked
    obtain ⟨results, final, h⟩ := ih
      { st with
        results := { st.results with CaseResults := st.results.CaseResults ++ [result] },
        resultsChan := rest } rfl hpend hblocked
    refine ⟨results, final, ?_⟩
    rw [List.length_cons, List.replicate_succ]
    unfold collect
    simp only [step, hchan]
    exact h

/-- Liveness: when every scratch file can be created and the context stays live, the
schedule that runs the pending tasks one after another and then drains `resultsChan`
takes the collecting loop to the return of a summary with a nil error. -/
theorem collect_runAll (env : Env) (langConfig : LanguageConfig) (codeFilePath : String)
    (problemID : Int)
    (hscratch : ∀ call, ∃ p, (CreateTempFile env call).1 = .ok p) :
    ∀ (pending : List (String × String)) (st : Orch),
      st.pending = pending → st.ctxErr = none → st.blocked = 0 →
      ∃ results final,
        collect env langConfig codeFilePath problemID st
          (List.replicate pending.length (Event.task 0 false) ++
            List.replicate (st.resultsChan.length + pending.length + 1) Event.recvResult) =
          some (some results, none, final) := by
  intro pending
  induction pending with
  | nil =>
    intro st hpend _ hblocked
    simpa using collect_drain env langConfig codeFilePath problemID st.resultsChan st rfl
      hpend hblocked
  | cons c rest ih =>
    intro st hpend hctx hblocked
    obtain ⟨inputFilePath, outputFilePath⟩ := c
    obtain ⟨_, _, hchan, hctx', _, hblocked', hpend', _, _, _⟩ :=
      runTask_live env langConfig codeFilePath problemID false
        inputFilePath outputFilePath { st with pending := rest } hscratch hctx
    obtain ⟨results, final, h⟩ := ih _ hpend' hctx' (by rw [hblocked']; exact hblocked)
    refine ⟨results, final, ?_⟩
    rw [List.length_cons, List.replicate_succ, List.cons_append]
    unfold collect
    simp only [step, hpend, List.getElem?_cons_zero, List.eraseIdx_cons_zero]
    rw [hchan, List.length_append, List.length_singleton] at h
    have hlen : st.resultsChan.length + 1 + rest.length + 1 =
        st.resultsChan.length + (rest.length + 1) + 1 := by omega
    rw [hlen] at h
    exact h

/-- After staging, download and listing have succeeded, `BuildAndRunInContainer` is the
collecting loop started on the resolved cases. -/
theorem BuildAndRunInContainer_fanout (env : Env) (sched : List Event) (solution : Solution)
    (codeFilePath : String) (langConfig : LanguageConfig) (codeDir : String)
    (staged : List Effect) (ioFiles : List (String × String))
    (hstage : SaveCodeToFile env solution.LanguageID solution.Code =
      (⟨codeFilePath, langConfig, some codeDir, none⟩, staged))
    (hdownload : env.downloadIOFiles solution.ProblemID = none)
    (hcases : (getTestCases env solution.ProblemID).1 = .ok ioFiles) :
    BuildAndRunInContainer env sched solution =
      match collect env langConfig codeFilePath solution.ProblemID
          { results := { ResultDetail.zero with TotalCases := ioFiles.length },
            pending := ioFiles, started := 0, blocked := 0, errChan := none,
            resultsChan := [], ctxErr := none,
            trace := staged ++ [Effect.download solution.ProblemID] ++
              (getTestCases env solution.ProblemID).2 } sched with
      | none => none
      | some (summary, err, st) =>
        some ⟨summary, err, st.trace ++ [Effect.removeAll codeDir]⟩ := by
  obtain ⟨_, hok⟩ := SaveCodeToFile_created env _ _ _ _ _ _ hstage
  cases hget : getTestCases env solution.ProblemID with
  | mk res listed =>
    rw [hget] at hcases
    simp only at hcases
    subst hcases
    unfold BuildAndRunInContainer
    simp only [hstage, hok, hdownload, hget, deferredCleanup, Bool.not_true,
      Bool.false_eq_true, if_false]

/-- With staging, download and listing done, every scratch file creatable and no
cancellation: whatever the sandbox runs do, a return of `BuildAndRunInContainer`
carries no error but a summary with the verdict of every case, each computed from its
own run, in the order in which the tasks ran; and the schedule `runAll` does take it to
a return. -/
theorem BuildAndRunInContainer_verdicts (env : Env) (solution : Solution)
    (codeFilePath : String) (langConfig : LanguageConfig) (codeDir : String)
    (staged : List Effect) (ioFiles : List (String × String))
    (hstage : SaveCodeToFile env solution.LanguageID solution.Code =
      (⟨codeFilePath, langConfig, some codeDir, none⟩, staged))
    (hdownload : env.downloadIOFiles solution.ProblemID = none)
    (hcases : (getTestCases env solution.ProblemID).1 = .ok ioFiles)
    (hscratch : ∀ call, ∃ p, (CreateTempFile env call).1 = .ok p) :
    (∀ sched r, (∀ msg, Event.cancel msg ∉ sched) →
      BuildAndRunInContainer env sched solution = some r →
      r.err = none ∧ ∃ results order, r.summary = some results ∧ order.Perm ioFiles ∧
        results.CaseResults =
          caseVerdicts env langConfig codeFilePath solution.ProblemID 0 order) ∧
    (∃ results trace, BuildAndRunInContainer env (runAll ioFiles.length) solution =
      some ⟨some results, none, trace⟩) := by
  constructor
  · intro sched r hnocancel hret
    rw [BuildAndRunInContainer_fanout env sched solution _ _ _ _ _ hstage hdownload hcases]
      at hret
    split at hret
    · simp at hret
    · rename_i summary err st hcollect
      simp only [Option.some.injEq] at hret
      subst hret
      have := collect_verdicts env _ _ _ hscratch sched _ [] hnocancel rfl rfl rfl rfl
        (by simp [ResultDetail.zero, caseVerdicts]) _ _ _ hcollect
      simpa using this
  · obtain ⟨results, final, h⟩ := collect_runAll env langConfig codeFilePath
      solution.ProblemID hscratch ioFiles
      { results := { ResultDetail.zero with TotalCases := ioFiles.length },
        pending := ioFiles, started := 0, blocked := 0, errChan := none,
        resultsChan := [], ctxErr := none,
        trace := staged ++ [Effect.download solution.ProblemID] ++
          (getTestCases env solution.ProblemID).2 } rfl rfl rfl
    refine ⟨results, final.trace ++ [Effect.removeAll codeDir], ?_⟩
    rw [BuildAndRunInContainer_fanout env _ solution _ _ _ _ _ hstage hdownload hcases]
    simp only [List.length_nil, Nat.zero_add] at h
    unfold runAll
    rw [h]

/-! ## All or nothing -/

/-- Reporting an error does not touch the context. -/
theorem sendErr_ctxErr (st : Orch) (takeDone : Bool) (e : String) :
    (sendErr st takeDone e).ctxErr = st.ctxErr := by
  unfold sendErr
  split <;> try rfl
  split <;> rfl

/-- A case task does not touch the context. -/
theorem runTask_ctxErr (env : Env) (langConfig : LanguageConfig) (codeFilePath : String)
    (problemID : Int) (takeDone : Bool) (inputFilePath outputFilePath : String)
    (st : Orch) :
    (runTask env langConfig codeFilePath problemID takeDone inputFilePath outputFilePath
      st).ctxErr = st.ctxErr := by
  unfold runTask
  simp only []
  split
  · rw [sendErr_ctxErr]
  · split
    · rw [sendErr_ctxErr]
    · split <;> rfl

/-- Every return of the collecting loop carries either a summary and a nil error or a
nil summary and an error. -/
theorem collect_exactly_one (env : Env) (langConfig : LanguageConfig) (codeFilePath : String)
    (problemID : Int) :
    ∀ (sched : List Event) (st : Orch) (summary : Option ResultDetail)
      (err : Option String) (final : Orch),
      collect env langConfig codeFilePath problemID st sched = some (summary, err, final) →
      (summary.isSome = true ∧ err = none) ∨ (summary = none ∧ err.isSome = true) := by
  intro sched
  induction sched with
  | nil => intro st summary err final h; simp [collect] at h
  | cons ev evs ih =>
    intro st summary err final h
    unfold collect at h
    cases hstep : step env langConfig codeFilePath problemID st ev with
    | none => simp [hstep] at h
    | some next =>
      cases next with
      | inl st' =>
        simp only [hstep] at h
        exact ih st' summary err final h
      | inr ret =>
        obtain ⟨s, e⟩ := ret
        simp only [hstep, Option.some.injEq, Prod.mk.injEq] at h
        obtain ⟨hs, he, _⟩ := h
        subst hs
        subst he
        cases ev with
        | task takeDone =>
          simp only [step] at hstep
          split at hstep <;> simp at hstep
        | cancel msg =>
          simp only [step] at hstep
          split at hstep <;> simp at hstep
        | recvErr =>
          simp only [step] at hstep
          split at hstep
          · simp only [Option.some.injEq, Sum.inr.injEq, Prod.mk.injEq] at hstep
            obtain ⟨h1, h2⟩ := hstep
            subst h1
            subst h2
            exact Or.inr ⟨rfl, rfl⟩
          · split_ifs at hstep
            simp at hstep
        | recvResult =>
          simp only [step] at hstep
          split at hstep
          · simp at hstep
          · split_ifs at hstep
            simp only [Option.some.injEq, Sum.inr.injEq, Prod.mk.injEq] at hstep
            obtain ⟨h1, h2⟩ := hstep
            subst h1
            subst h2
            exact Or.inl ⟨rfl, rfl⟩
        | recvDone =>
          simp only [step] at hstep
          split at hstep
          · simp only [Option.some.injEq, Sum.inr.injEq, Prod.mk.injEq] at hstep
            obtain ⟨h1, h2⟩ := hstep
            subst h1
            subst h2
            exact Or.inr ⟨rfl, rfl⟩
          · simp at hstep

/-- A step that does not return keeps the context error, unless it is the cancellation
that sets it. -/
theorem step_ctxErr (env : Env) (langConfig : LanguageConfig) (codeFilePath : String)
    (problemID : Int) (st st' : Orch) (ev : Event)
    (hstep : step env langConfig codeFilePath problemID st ev = some (.inl st'))
    (msg : String) (hmsg : st'.ctxErr = some msg) :
    st.ctxErr = some msg ∨ ev = Event.cancel msg := by
  cases ev with
  | task takeDone =>
    simp only [step] at hstep
    split at hstep
    · simp at hstep
    · simp only [Option.some.injEq, Sum.inl.injEq] at hstep
      rw [← hstep, runTask_ctxErr] at hmsg
      exact Or.inl hmsg
  | cancel m =>
    simp only [step] at hstep
    split at hstep
    · simp at hstep
    · simp only [Option.some.injEq, Sum.inl.injEq] at hstep
      rw [← hstep] at hmsg
      simp only [Option.some.injEq] at hmsg
      exact Or.inr (by rw [hmsg])
  | recvErr =>
    simp only [step] at hstep
    split at hstep
    · simp at hstep
    · split_ifs at hstep
      simp only [Option.some.injEq, Sum.inl.injEq] at hstep
      rw [← hstep] at hmsg
      exact Or.inl hmsg
  | recvResult =>
    simp only [step] at hstep
    split at hstep
    · simp only [Option.some.injEq, Sum.inl.injEq] at hstep
      rw [← hstep] at hmsg
      exact Or.inl hmsg
    · split_ifs at hstep
      simp at hstep
  | recvDone =>
    simp only [step] at hstep
    split at hstep <;> simp at hstep

/-- A run that has not returned and then takes `<-ctx.Done()` returns a nil summary and
the error of the context, which a cancellation of the schedule has set (or which was
already known). -/
theorem collect_recvDone (env : Env) (langConfig : LanguageConfig) (codeFilePath : String)
    (problemID : Int) :
    ∀ (pre : List Event) (st : Orch) (known : String → Prop),
      (∀ msg, st.ctxErr = some msg → known msg) →
      collect env langConfig codeFilePath problemID st pre = none →
      ∀ (summary : Option ResultDetail) (err : Option String) (final : Orch),
        collect env langConfig codeFilePath problemID st (pre ++ [Event.recvDone]) =
          some (summary, err, final) →
        summary = none ∧ ∃ msg, err = some msg ∧ (known msg ∨ Event.cancel msg ∈ pre) := by
  intro pre
  induction pre with
  | nil =>
    intro st known hknown _ summary err final h
    simp only [List.nil_append, collect, step] at h
    split at h
    · simp at h
    · rename_i s e hret
      split at hret
      · rename_i msg hctx
        simp only [Option.some.injEq, Sum.inr.injEq, Prod.mk.injEq] at hret
        simp only [Option.some.injEq, Prod.mk.injEq] at h
        obtain ⟨hs, he, _⟩ := h
        obtain ⟨hs', he'⟩ := hret
        subst hs'
        subst he'
        exact ⟨hs.symm, msg, he.symm, Or.inl (hknown msg hctx)⟩
      · simp at hret
    · rename_i st' hret
      split at hret <;> simp at hret
  | cons ev evs ih =>
    intro st known hknown hnone summary err final h
    rw [List.cons_append] at h
    unfold collect at h hnone
    cases hstep : step env langConfig codeFilePath problemID st ev with
    | none => simp [hstep] at h
    | some next =>
      cases next with
      | inr ret => simp [hstep] at hnone
      | inl st' =>
        simp only [hstep] at h hnone
        obtain ⟨hs, msg, he, hm⟩ := ih st' (fun msg => known msg ∨ ev = Event.cancel msg)
          (fun msg hmsg => by
            rcases step_ctxErr env _ _ _ st st' ev hstep msg hmsg with h1 | h1
            · exact Or.inl (hknown msg h1)
            · exact Or.inr h1)
          hnone summary err final h
        refine ⟨hs, msg, he, ?_⟩
        rcases hm with (h1 | h1) | h1
        · exact Or.inl h1
        · exact Or.inr (by rw [h1]; exact List.mem_cons_self _ _)
        · exact Or.inr (List.mem_cons_of_mem _ h1)

/-- `BuildAndRunInContainer` either fails before the fan-out, with a nil summary and an
error that do not depend on the schedule, or is the collecting loop started with a live
context. -/
theorem BuildAndRunInContainer_shape (env : Env) (solution : Solution) :
    (∃ e trace, ∀ sched,
      BuildAndRunInContainer env sched solution = some ⟨none, some e, trace⟩) ∨
    (∃ (st : Orch) (langConfig : LanguageConfig) (codeFilePath : String)
      (cleanup : List Effect), st.ctxErr = none ∧ ∀ sched,
      BuildAndRunInContainer env sched solution =
        match collect env langConfig codeFilePath solution.ProblemID st sched with
        | none => none
        | some (summary, err, final) => some ⟨summary, err, final.trace ++ cleanup⟩) := by
  unfold BuildAndRunInContainer
  split
  split
  · exact Or.inl ⟨_, _, fun _ => rfl⟩
  · simp only []
    split
    · exact Or.inl ⟨_, _, fun _ => rfl⟩
    · split
      · exact Or.inl ⟨_, _, fun _ => rfl⟩
      · split
        · exact Or.inl ⟨_, _, fun _ => rfl⟩
        · exact Or.inr ⟨_, _, _, _, rfl, fun _ => rfl⟩

/-- Whatever the environment and the schedule are, a return of `BuildAndRunInContainer`
carries either a summary and a nil error, or a nil summary and an error.  When the run
has not returned yet and the collecting `select` then takes `<-ctx.Done()`, it returns
a nil summary and the error of the context, set by a cancellation earlier in the
schedule. -/
theorem BuildAndRunInContainer_return_shapes (env : Env) (sched : List Event)
    (solution : Solution) :
    (match BuildAndRunInContainer env sched solution with
      | some r => (r.summary.isSome = true ∧ r.err = none) ∨
          (r.summary = none ∧ r.err.isSome = true)
      | none => True) ∧
    (BuildAndRunInContainer env sched solution = none →
      BuildAndRunInContainer env (sched ++ [Event.recvDone]) solution = none ∨
      ∃ msg trace, Event.cancel msg ∈ sched ∧
        BuildAndRunInContainer env (sched ++ [Event.recvDone]) solution =
          some ⟨none, some msg, trace⟩) := by
  rcases BuildAndRunInContainer_shape env solution with
    ⟨e, trace, hfail⟩ | ⟨st, langConfig, codeFilePath, cleanup, hctx, hrun⟩
  · constructor
    · rw [hfail sched]
      exact Or.inr ⟨rfl, rfl⟩
    · intro hnone
      rw [hfail sched] at hnone
      cases hnone
  · constructor
    · rw [hrun sched]
      cases hc : collect env langConfig codeFilePath solution.ProblemID st sched with
      | none => trivial
      | some ret =>
        obtain ⟨summary, err, final⟩ := ret
        exact collect_exactly_one env _ _ _ sched st summary err final hc
    · intro hnone
      rw [hrun sched] at hnone
      rw [hrun (sched ++ [Event.recvDone])]
      cases hc : collect env langConfig codeFilePath solution.ProblemID st sched with
      | some ret => simp [hc] at hnone
      | none =>
        cases hd : collect env langConfig codeFilePath solution.ProblemID st
            (sched ++ [Event.recvDone]) with
        | none => exact Or.inl rfl
        | some ret =>
          obtain ⟨summary, err, final⟩ := ret
          obtain ⟨hs, msg, he, hm⟩ := collect_recvDone env _ _ _ sched st (fun _ => False)
            (fun msg hmsg => by rw [hctx] at hmsg; cases hmsg) hc summary err final hd
          subst hs
          subst he
          rcases hm with h1 | h1
          · exact absurd h1 id
          · exact Or.inr ⟨msg, _, h1, rfl⟩

/-- C20, at the failing input.  The submission has the cases `a.txt` and `b.txt`.  The
verdict of `a.txt` is collected, then the context ends with "context deadline exceeded"
before `b.txt` has a verdict: its process is killed and its task takes `<-ctx.Done()`
instead of the send.  All tasks are over, so `resultsChan` is closed, and the collecting
`select`, for which the closed `resultsChan` and `<-ctx.Done()` are both ready, takes
`resultsChan`: the function returns the summary with a nil error.  The summary counts
two cases and holds the one verdict collected so far, which is not discarded, and the
error of the context is not returned. -/
theorem BuildAndRunInContainer_cancelled_summary :
    (BuildAndRunInContainer deadlineEnv
        [Event.task 0 false, Event.recvResult, Event.cancel "context deadline exceeded",
          Event.task 0 true, Event.recvResult]
        sampleSolution).map (fun r => (r.summary, r.err)) =
      some (some { TotalCases := 2, CorrectCases := 1, IncorrectCases := 1,
                   TimeLimitExceeded := 0,
                   CaseResults := [{ CaseName := "a.txt", Result := "PASSED",
                                     ExecutionTime := 5000 }],
                   ErrorMessage := "" },
        none) := by
  decide

/-- In the same run, when the collecting `select` takes `<-ctx.Done()` instead, the
function returns a nil summary and the error of the context. -/
theorem BuildAndRunInContainer_cancelled_error :
    (BuildAndRunInContainer deadlineEnv
        [Event.task 0 false, Event.recvResult, Event.cancel "context deadline exceeded",
          Event.task 0 true, Event.recvDone]
        sampleSolution).map (fun r => (r.summary, r.err)) =
      some (none, some "context deadline exceeded") := by
  decide

/-! ## Failing sandbox runs -/

/-- C19. The failure of a sandbox run does not escalate.  `executeDockerCommand`
returns a nil error whatever the process did.  After staging, download and listing have
succeeded, with every scratch file creatable: a case whose process ended with an error
(with a non-empty message, such as "exit status 1") has the verdict "INTERNAL ERROR";
along every schedule without cancellation, whatever the order in which the case tasks
run, a return of `BuildAndRunInContainer` carries no error but the summary with the
verdict of every case, each computed from its own run: the verdicts are those of the
cases taken in some order, the one in which the tasks ran; and the schedule `runAll`
does reach this return. -/
theorem sandbox_failure_not_escalated (env : Env) (solution : Solution)
    (codeFilePath : String) (langConfig : LanguageConfig) (codeDir : String)
    (staged : List Effect) (ioFiles : List (String × String))
    (hstage : SaveCodeToFile env solution.LanguageID solution.Code =
      (⟨codeFilePath, langConfig, some codeDir, none⟩, staged))
    (hdownload : env.downloadIOFiles solution.ProblemID = none)
    (hcases : (getTestCases env solution.ProblemID).1 = .ok ioFiles)
    (hscratch : ∀ call, ∃ p, (CreateTempFile env call).1 = .ok p) :
    (∀ dockerCmd, (executeDockerCommand env dockerCmd).2 = none) ∧
    (∀ call testCase e,
      (env.runCommand (buildDockerRunCommandWithTimeout langConfig codeFilePath testCase.1
        (scratchPath env call) testCase.2 solution.ProblemID timeout)).2 = some e →
      e ≠ "" →
      (caseVerdict env langConfig codeFilePath solution.ProblemID call testCase).Result =
        "INTERNAL ERROR") ∧
    (∀ sched r, (∀ msg, Event.cancel msg ∉ sched) →
      BuildAndRunInContainer env sched solution = some r →
      r.err = none ∧ ∃ results order, r.summary = some results ∧ order.Perm ioFiles ∧
        results.CaseResults =
          caseVerdicts env langConfig codeFilePath solution.ProblemID 0 order) ∧
    (∃ results trace, BuildAndRunInContainer env (runAll ioFiles.length) solution =
      some ⟨some results, none, trace⟩) := by
  obtain ⟨hsafe, hlive⟩ := BuildAndRunInContainer_verdicts env solution codeFilePath
    langConfig codeDir staged ioFiles hstage hdownload hcases hscratch
  refine ⟨fun _ => rfl, ?_, hsafe, hlive⟩
  intro call testCase e herr he
  simp only [caseVerdict, caseRun, executeDockerCommand]
  have hrun : parseOutput
      (env.runCommand (buildDockerRunCommandWithTimeout langConfig codeFilePath testCase.1
        (scratchPath env call) testCase.2 solution.ProblemID timeout)).1
      (env.runCommand (buildDockerRunCommandWithTimeout langConfig codeFilePath testCase.1
        (scratchPath env call) testCase.2 solution.ProblemID timeout)).2 =
      parseOutput
        (env.runCommand (buildDockerRunCommandWithTimeout langConfig codeFilePath testCase.1
          (scratchPath env call) testCase.2 solution.ProblemID timeout)).1 (some e) := by
    rw [herr]
  rw [hrun]
  exact classifyCase_process_error _ _ e he

/-- Witness of C19: in the run of the sample submission whose second case exits with
status 1, that case is an "INTERNAL ERROR" and the summary is still returned. -/
theorem sandbox_failure_not_escalated_witness :
    (caseVerdict wrongAnswerEnv (GetLanguageConfigByID 2).1 "/tmp/codeDir_100/solution.cpp"
        7 1 ("/tmp/problem_7/in/b.txt", "/tmp/problem_7/out/b.txt")).Result =
      "INTERNAL ERROR" ∧
    ∃ results trace, BuildAndRunInContainer wrongAnswerEnv (runAll 2) sampleSolution =
      some ⟨some results, none, trace⟩ :=
  ⟨(sandbox_failure_not_escalated wrongAnswerEnv sampleSolution
      "/tmp/codeDir_100/solution.cpp" (GetLanguageConfigByID 2).1 "/tmp/codeDir_100"
      [Effect.mkdirTemp "/tmp" "codeDir_" (some "/tmp/codeDir_100"),
        Effect.createFile "/tmp/codeDir_100/solution.cpp",
        Effect.writeString "/tmp/codeDir_100/solution.cpp" "int main(){}"]
      [("/tmp/problem_7/in/a.txt", "/tmp/problem_7/out/a.txt"),
        ("/tmp/problem_7/in/b.txt", "/tmp/problem_7/out/b.txt")]
      (by decide) rfl rfl (fun _ => ⟨_, rfl⟩)).2.1 1
      ("/tmp/problem_7/in/b.txt", "/tmp/problem_7/out/b.txt") "exit status 1"
      (by decide) (by decide),
    (sandbox_failure_not_escalated wrongAnswerEnv sampleSolution
      "/tmp/codeDir_100/solution.cpp" (GetLanguageConfigByID 2).1 "/tmp/codeDir_100"
      [Effect.mkdirTemp "/tmp" "codeDir_" (some "/tmp/codeDir_100"),
        Effect.createFile "/tmp/codeDir_100/solution.cpp",
        Effect.writeString "/tmp/codeDir_100/solution.cpp" "int main(){}"]
      [("/tmp/problem_7/in/a.txt", "/tmp/problem_7/out/a.txt"),
        ("/tmp/problem_7/in/b.txt", "/tmp/problem_7/out/b.txt")]
      (by decide) rfl rfl (fun _ => ⟨_, rfl⟩)).2.2.2⟩

/-- The verdicts arrive in the order in which the tasks run: when the task of `b.txt`
runs before the task of `a.txt`, the summary lists `b.txt` first. -/
theorem BuildAndRunInContainer_arrival_order :
    (BuildAndRunInContainer wrongAnswerEnv
        [Event.task 1 false, Event.task 0 false, Event.recvResult, Event.recvResult,
          Event.recvResult]
        sampleSolution).map
        (fun r => ((r.summary.map (fun s => s.CaseResults)).getD []).map
          (fun c => (c.CaseName, c.Result))) =
      some [("b.txt", "INTERNAL ERROR"), ("a.txt", "PASSED")] := by
  decide

/-- C17, at the failing input.  The submission has the cases `a.txt` and `b.txt`; for
`b.txt` the comparison step reports the two files as differing, as the captured output
shows, and the pipeline therefore exits with status 1.  The diff flag of the parsed
outcome is set, but so is the error message, and the case is judged "INTERNAL ERROR",
not "FAILED".  `IncorrectCases` is 1 and the verdict of `a.txt` is "PASSED". -/
theorem BuildAndRunInContainer_wrong_answer :
    (caseRun wrongAnswerEnv (GetLanguageConfigByID 2).1 "/tmp/codeDir_100/solution.cpp" 7 1
        ("/tmp/problem_7/in/b.txt", "/tmp/problem_7/out/b.txt")).OutputDiff = true ∧
    (caseRun wrongAnswerEnv (GetLanguageConfigByID 2).1 "/tmp/codeDir_100/solution.cpp" 7 1
        ("/tmp/problem_7/in/b.txt", "/tmp/problem_7/out/b.txt")).ErrorMessage =
      "exit status 1" ∧
    (BuildAndRunInContainer wrongAnswerEnv (runAll 2) sampleSolution).map
        (fun r => (r.summary, r.err)) =
      some (some { TotalCases := 2, CorrectCases := 1, IncorrectCases := 1,
                   TimeLimitExceeded := 0,
                   CaseResults := [{ CaseName := "a.txt", Result := "PASSED",
                                     ExecutionTime := 5000 },
                                   { CaseName := "b.txt", Result := "INTERNAL ERROR",
                                     ExecutionTime := 5000 }],
                   ErrorMessage := "" },
        none) := by
  decide

/-- C18, at the failing input.  The program of the one case never ends; `timeout` ends
the timed shell, so the captured output holds no timing marker and the pipeline exits
with status 143.  The case is judged "INTERNAL ERROR" with elapsed time 0;
`IncorrectCases` is 1 and `TimeLimitExceeded` stays 0. -/
theorem BuildAndRunInContainer_never_ending :
    (BuildAndRunInContainer timedOutEnv (runAll 1) sampleSolution).map
        (fun r => (r.summary, r.err)) =
      some (some { TotalCases := 1, CorrectCases := 0, IncorrectCases := 1,
                   TimeLimitExceeded := 0,
                   CaseResults := [{ CaseName := "a.txt", Result := "INTERNAL ERROR",
                                     ExecutionTime := 0 }],
                   ErrorMessage := "" },
        none) := by
  decide

/-- A captured output without timing marker is never judged "TIME LIMITED EXCEEDED",
with or without a process error. -/
theorem classifyCase_no_marker (results : ResultDetail) (output : String)
    (err : Option String)
    (hnone : ∀ pre digits post, isDecimal digits →
      output.data ≠ pre ++ timeMarker digits ++ post) :
    (classifyCase results (parseOutput output err)).2 ≠ "TIME LIMITED EXCEEDED" := by
  have htime : (parseOutput output err).ExecutionTime = 0 := by
    have h0 : (parseOutput output err).ExecutionTime =
        match findTime output.data with
        | some digits => ParseInt digits
        | none => 0 := by
      cases err <;> rfl
    rw [h0, findTime_none _ hnone]
  unfold classifyCase
  rw [htime]
  split_ifs with h1 h2 h3
  · show "INTERNAL ERROR" ≠ "TIME LIMITED EXCEEDED"
    decide
  · show "FAILED" ≠ "TIME LIMITED EXCEEDED"
    decide
  · exact absurd h3 (by decide)
  · show "PASSED" ≠ "TIME LIMITED EXCEEDED"
    decide

/-! ## Escaped newlines of the staged source -/

/-- The test `a == b` on characters decides `b = a`. -/
theorem beq_char_decide (a b : Char) : (a == b) = decide (b = a) := by
  by_cases h : b = a
  · subst h; simp
  · have h2 : a ≠ b := fun e => h e.symm
    simp [h, h2]

/-- The escape sequence begins a text exactly when its first two characters are a
backslash and `n`. -/
theorem escape_begins (c d : Char) (cs : List Char) :
    "\\n".data.isPrefixOf (c :: d :: cs) = decide (c = '\\' ∧ d = 'n') := by
  show ['\\', 'n'].isPrefixOf (c :: d :: cs) = _
  simp only [List.isPrefixOf, Bool.and_true, Bool.decide_and]
  congr 1
  · exact beq_char_decide _ _
  · exact beq_char_decide _ _

/-- The call `strings.Replace(code, "\\n", "\n", -1)` computes `restoreNewlines`. -/
theorem replaceGo_restoreNewlines (s : List Char) :
    replaceGo "\\n".data "\n".data 0 s = restoreNewlines s := by
  induction s using restoreNewlines.induct with
  | case1 => rfl
  | case2 c =>
    show (if ['\\', 'n'].isPrefixOf [c] = true then _ else _) = _
    simp [List.isPrefixOf, replaceGo, restoreNewlines]
  | case3 c d cs h ih =>
    rw [restoreNewlines, if_pos h, ← ih]
    show (if "\\n".data.isPrefixOf (c :: d :: cs) = true then _ else _) = _
    rw [escape_begins, if_pos (by simpa using h)]
    rfl
  | case4 c d cs h ih =>
    rw [restoreNewlines, if_neg h, ← ih]
    show (if "\\n".data.isPrefixOf (c :: d :: cs) = true then _ else _) = _
    rw [escape_begins, if_neg (by simpa using h)]

/-- An occurrence in `c :: cs` begins at `c` or lies in `cs`. -/
theorem occursIn_cons (pat : List Char) (c : Char) (cs : List Char) :
    occursIn pat (c :: cs) = (pat.isPrefixOf (c :: cs) || occursIn pat cs) := by
  simp [occursIn, List.tails]

/-- The first character of a restored text is a newline or the first character of the
source. -/
theorem restoreNewlines_head (s : List Char) :
    ∀ d rest, restoreNewlines s = d :: rest → d = '\n' ∨ ∃ t, s = d :: t := by
  intro d rest h
  match s, h with
  | [c], h => simp [restoreNewlines] at h; exact Or.inr ⟨[], by simp [h.1]⟩
  | c :: e :: cs, h =>
    rw [restoreNewlines] at h
    split_ifs at h with hc
    · left; simp at h; exact h.1.symm
    · right; simp at h; exact ⟨e :: cs, by rw [h.1]⟩

/-- A restored text holds no escape sequence. -/
theorem restoreNewlines_clean (s : List Char) :
    occursIn "\\n".data (restoreNewlines s) = false := by
  induction s using restoreNewlines.induct with
  | case1 => rfl
  | case2 c => simp [restoreNewlines, occursIn, List.tails, List.isPrefixOf]
  | case3 c d cs h ih =>
    rw [restoreNewlines, if_pos h, occursIn_cons, ih]
    cases hr : restoreNewlines cs <;> simp [List.isPrefixOf]
  | case4 c d cs h ih =>
    rw [restoreNewlines, if_neg h, occursIn_cons, ih, Bool.or_false]
    cases hr : restoreNewlines (d :: cs) with
    | nil => simp [List.isPrefixOf]
    | cons x rest =>
      rw [escape_begins]
      rcases restoreNewlines_head _ x rest hr with hx | ⟨t, ht⟩
      · simp [hx]
      · simp only [List.cons.injEq] at ht
        rw [← ht.1]
        simpa using h

/-- Replacing in a text in which `old` does not occur changes nothing. -/
theorem replaceGo_absent (old new s : List Char) (h : occursIn old s = false) :
    replaceGo old new 0 s = s := by
  have hcopy := replaceGo_copy old new s []
    (fun t _ hsuf => by
      rw [List.append_nil]
      exact (occursIn_false_iff old s).1 h t hsuf)
  simpa [replaceGo] using hcopy

/-- The text that `SaveCodeToFile` writes. -/
theorem SaveCodeToFile_writes (env : Env) (languageID : Int) (code name content : String)
    (h : Effect.writeString name content ∈ (SaveCodeToFile env languageID code).2) :
    content = stringsReplaceAll code "\\n" "\n" := by
  unfold SaveCodeToFile at h
  split at h
  split at h
  · simp at h
  · split at h
    · simp at h
    · simp only [] at h
      split at h
      · simp at h
      · split at h <;>
        · simp only [List.mem_append, List.mem_cons, List.mem_singleton, List.not_mem_nil,
            Effect.writeString.injEq, or_false, false_or, reduceCtorEq] at h
          exact h.2

/-- C21: whatever `SaveCodeToFile` writes to the staged file is the submitted source
with every backslash-`n` sequence turned into one newline and every other character
kept in order; the written text holds no backslash-`n` sequence, and normalising it
once more gives the same text. -/
theorem SaveCodeToFile_content (env : Env) (languageID : Int) (code name content : String)
    (h : Effect.writeString name content ∈ (SaveCodeToFile env languageID code).2) :
    content.data = restoreNewlines code.data ∧
      occursIn "\\n".data content.data = false ∧
      stringsReplaceAll content "\\n" "\n" = content := by
  have hc := SaveCodeToFile_writes env languageID code name content h
  have hdata : content.data = restoreNewlines code.data := by
    rw [hc]
    show (if "\\n".data = [] then _ else _ : String).data = _
    rw [if_neg (by decide)]
    exact replaceGo_restoreNewlines _
  have hclean : occursIn "\\n".data content.data = false := by
    rw [hdata]; exact restoreNewlines_clean _
  refine ⟨hdata, hclean, ?_⟩
  show (if "\\n".data = [] then _ else _ : String) = _
  rw [if_neg (by decide), replaceGo_absent _ _ _ hclean]

/-- The staging of `print(1)\nprint(2)`, sent with an escaped newline, writes the two
lines. -/
theorem SaveCodeToFile_content_witness :
    Effect.writeString "/tmp/codeDir_100/solution.py" "print(1)\nprint(2)" ∈
        (SaveCodeToFile sampleEnv 1 "print(1)\\nprint(2)").2 ∧
      ("print(1)\nprint(2)".data = restoreNewlines "print(1)\\nprint(2)".data ∧
        occursIn "\\n".data "print(1)\nprint(2)".data = false ∧
        stringsReplaceAll "print(1)\nprint(2)" "\\n" "\n" = "print(1)\nprint(2)") :=
  ⟨by decide, SaveCodeToFile_content sampleEnv 1 "print(1)\\nprint(2)"
    "/tmp/codeDir_100/solution.py" "print(1)\nprint(2)" (by decide)⟩

/-! ## Removal of the staging directory -/

/-- Staging removes nothing. -/
theorem SaveCodeToFile_no_removal (env : Env) (languageID : Int) (code : String) :
    ∀ path, Effect.removeAll path ∉ (SaveCodeToFile env languageID code).2 := by
  intro path
  unfold SaveCodeToFile
  split
  split
  · simp
  · split
    · simp
    · simp only []
      split
      · simp
      · split <;> simp

/-- A staging that hands out a cleanup function has created the directory that the
function removes. -/
theorem SaveCodeToFile_cleanupFunc (env : Env) (languageID : Int) (code codeDir : String)
    (h : (SaveCodeToFile env languageID code).1.cleanupFunc = some codeDir) :
    Effect.mkdirTemp "/tmp" "codeDir_" (some codeDir) ∈
      (SaveCodeToFile env languageID code).2 := by
  generalize hres : SaveCodeToFile env languageID code = res at h ⊢
  unfold SaveCodeToFile at hres
  split at hres
  split at hres
  · subst hres; simp at h
  · split at hres
    · subst hres; simp at h
    · simp only [] at hres
      split at hres
      · subst hres
        simp only [Option.some.injEq] at h
        simp [h]
      · split at hres <;>
        · subst hres
          simp only [Option.some.injEq] at h
          simp [h]

/-- After a successful staging every return of `BuildAndRunInContainer` is preceded by
the removal of the staging directory: it is the last call of the run. -/
theorem BuildAndRunInContainer_cleanup_after_staging (env : Env) (sched : List Event)
    (solution : Solution) (codeDir : String) (r : Returned)
    (hok : (SaveCodeToFile env solution.LanguageID solution.Code).1.err = none)
    (hdir : (SaveCodeToFile env solution.LanguageID solution.Code).1.cleanupFunc =
      some codeDir)
    (hr : BuildAndRunInContainer env sched solution = some r) :
    r.trace.getLast? = some (Effect.removeAll codeDir) := by
  have hlast : ∀ xs : List Effect,
      (xs ++ deferredCleanup (some codeDir)).getLast? = some (Effect.removeAll codeDir) :=
    fun xs => List.getLast?_concat _
  unfold BuildAndRunInContainer at hr
  split at hr
  rename_i cfg ok hcfg
  split at hr
  · rename_i hlang
    unfold SaveCodeToFile at hdir
    simp only [hcfg] at hdir
    rw [if_pos hlang] at hdir
    simp at hdir
  · simp only [] at hr
    rw [hok] at hr
    simp only [hdir] at hr
    split at hr
    · simp only [Option.some.injEq] at hr
      rw [← hr]; exact hlast _
    · split at hr
      · simp only [Option.some.injEq] at hr
        rw [← hr]; exact hlast _
      · split at hr
        · simp at hr
        · simp only [Option.some.injEq] at hr
          rw [← hr]; exact hlast _

/-- C22: the staging directory is not removed on every exit path.  When staging fails
after its directory was created (the code file cannot be created or written),
`BuildAndRunInContainer` returns the staging error at once, whatever the schedule: the
run has created the directory and holds no removal at all. -/
theorem BuildAndRunInContainer_staging_leak (env : Env) (sched : List Event)
    (solution : Solution) (codeDir e : String)
    (herr : (SaveCodeToFile env solution.LanguageID solution.Code).1.err = some e)
    (hdir : (SaveCodeToFile env solution.LanguageID solution.Code).1.cleanupFunc =
      some codeDir) :
    ∃ trace, BuildAndRunInContainer env sched solution = some ⟨none, some e, trace⟩ ∧
      Effect.mkdirTemp "/tmp" "codeDir_" (some codeDir) ∈ trace ∧
      ∀ path, Effect.removeAll path ∉ trace := by
  refine ⟨(SaveCodeToFile env solution.LanguageID solution.Code).2, ?_,
    SaveCodeToFile_cleanupFunc env _ _ codeDir hdir,
    SaveCodeToFile_no_removal env _ _⟩
  unfold BuildAndRunInContainer
  split
  rename_i cfg ok hcfg
  split
  · rename_i hlang
    unfold SaveCodeToFile at hdir
    simp only [hcfg] at hdir
    rw [if_pos hlang] at hdir
    simp at hdir
  · simp only []
    rw [herr]

/-- The code file cannot be created: the run ends with the staging error after two
calls, the creation of `/tmp/codeDir_100` and the failed creation of the file. -/
theorem BuildAndRunInContainer_staging_leak_witness :
    ∃ trace, BuildAndRunInContainer createFailEnv [] sampleSolution =
        some ⟨none, some "failed to create code file: no space left on device", trace⟩ ∧
      Effect.mkdirTemp "/tmp" "codeDir_" (some "/tmp/codeDir_100") ∈ trace ∧
      ∀ path, Effect.removeAll path ∉ trace :=
  BuildAndRunInContainer_staging_leak createFailEnv [] sampleSolution "/tmp/codeDir_100"
    "failed to create code file: no space left on device" (by decide) (by decide)

/-- The source text cannot be written: the run ends after the three staging calls, and
the directory `/tmp/codeDir_100` stays behind with the empty code file. -/
theorem BuildAndRunInContainer_write_failure :
    BuildAndRunInContainer writeFailEnv [] sampleSolution =
      some ⟨none, some "failed to write code to file: no space left on device",
        [Effect.mkdirTemp "/tmp" "codeDir_" (some "/tmp/codeDir_100"),
          Effect.createFile "/tmp/codeDir_100/solution.cpp",
          Effect.writeString "/tmp/codeDir_100/solution.cpp" sampleSolution.Code]⟩ := by
  decide

/-! ## The sweep of the retention directory -/

/-- Removing by name removes one entry, when no other entry has its name. -/
theorem osRemove_result (directory : String) (disk : List FileInfo) (f : FileInfo)
    (huniq : ∀ g ∈ disk, g.Name = f.Name → g = f) :
    (osRemove directory disk f.Name).1 =
      disk.filter (fun g => !(decide (g = f) && !f.nonEmptyDir)) := by
  unfold osRemove
  split
  · rename_i hnone
    rw [List.find?_eq_none] at hnone
    symm
    rw [List.filter_eq_self]
    intro g hg
    have hne : g ≠ f := fun e => hnone g hg (by simp [e])
    simp [hne]
  · rename_i g hsome
    have hg : g ∈ disk := List.mem_of_find?_eq_some hsome
    have hname : g.Name = f.Name := by
      have := List.find?_some hsome
      simpa using this
    have hgf : g = f := huniq g hg hname
    subst hgf
    split
    · rename_i hdir
      symm
      rw [List.filter_eq_self]
      intro x _
      have : g.nonEmptyDir = true := hdir
      simp [this]
    · rename_i hdir
      have hfalse : g.nonEmptyDir = false := by
        simpa [FileInfo.nonEmptyDir] using hdir
      apply List.filter_congr
      intro x hx
      by_cases hxg : x = g
      · subst hxg; simp [hfalse]
      · have : x.Name ≠ g.Name := fun e => hxg (huniq x hx e)
        simp [hxg, this, hfalse]

/-- The loop of the sweep over a listing whose names are those of single entries. -/
theorem sweep_loop (now : Int) (directory : String) (maxAge : Int) (files : List FileInfo) :
    ∀ disk : List FileInfo,
      (∀ f ∈ files, ∀ g ∈ disk, g.Name = f.Name → g = f) →
      files.foldl
          (fun disk file =>
            if timeSub now file.ModTime > maxAge then (osRemove directory disk file.Name).1
            else disk)
          disk =
        disk.filter (fun g =>
          !(decide (g ∈ files) && decide (timeSub now g.ModTime > maxAge) &&
            !g.nonEmptyDir)) := by
  induction files with
  | nil => intro disk _; simp
  | cons f files ih =>
    intro disk huniq
    have hf := huniq f (List.mem_cons_self _ _)
    have hrest : ∀ disk2 : List FileInfo, disk2.Sublist disk →
        ∀ f2 ∈ files, ∀ g ∈ disk2, g.Name = f2.Name → g = f2 :=
      fun disk2 hsub f2 hf2 g hg =>
        huniq f2 (List.mem_cons_of_mem _ hf2) g (hsub.subset hg)
    rw [List.foldl_cons]
    by_cases hold : timeSub now f.ModTime > maxAge
    · rw [if_pos hold, osRemove_result directory disk f hf,
        ih _ (hrest _ (List.filter_sublist _)), List.filter_filter]
      apply List.filter_congr
      intro g _
      by_cases hgf : g = f
      · subst hgf
        cases hne : g.nonEmptyDir <;> simp [hold, hne]
      · simp [hgf]
    · rw [if_neg hold, ih _ (hrest _ (List.Sublist.refl _))]
      apply List.filter_congr
      intro g _
      by_cases hgf : g = f
      · subst hgf; simp [hold]
      · simp [hgf]

/-- What one sweep leaves of a directory that could be listed: the entries that are not
older than `maxAge`, and the older directories that hold entries; every other entry is
removed. -/
theorem cleanupTmpFiles_sweep (now : Int) (directory : String) (maxAge : Int)
    (disk : List FileInfo) (hnames : (disk.map FileInfo.Name).Nodup) :
    cleanupTmpFiles none now directory maxAge disk =
      disk.filter (fun f => !decide (timeSub now f.ModTime > maxAge) || f.nonEmptyDir) := by
  have huniq : ∀ f ∈ disk, ∀ g ∈ disk, g.Name = f.Name → g = f :=
    fun f hf g hg hname => List.inj_on_of_nodup_map hnames hg hf hname
  show disk.foldl _ disk = _
  rw [sweep_loop now directory maxAge disk disk huniq]
  apply List.filter_congr
  intro g hg
  cases hne : g.nonEmptyDir <;> simp [hg, hne]

/-- C23, at the failing input.  Three hours after the instant 0 the directory `/tmp` is
swept with a retention of two hours: the emptied scratch directory and the stray file
are removed and the fresh scratch directory stays, but the leaked workspace
`codeDir_100`, three hours old, stays as well, because it holds its code file. -/
theorem cleanupTmpFiles_leaked_workspace :
    cleanupTmpFiles none 10800000000000 "/tmp" 7200000000000 sampleTmp =
        [⟨"codeDir_100", 0, true, 1⟩, ⟨"judge_200", 10200000000000, true, 1⟩] ∧
      notOlderThan 10800000000000 7200000000000 sampleTmp =
        [⟨"judge_200", 10200000000000, true, 1⟩] := by
  decide

/-! ## Error responses -/

/-- Every error is mapped to an API error, whose status code is one of 400, 401, 403,
404 and 500. -/
theorem ErrorToAPIError_codes (err : GoError) :
    ∃ a, ErrorToAPIError (some err) = some a ∧
      a.StatusCode ∈ [(400 : Int), 401, 403, 404, 500] := by
  cases err <;> simp only [ErrorToAPIError] <;>
    (repeat' split) <;>
    exact ⟨_, rfl, by simp [NewAPIError, StatusBadRequest, StatusUnauthorized,
      StatusForbidden, StatusNotFound, StatusInternalServerError]⟩

/-- C24, as the code behaves.  For every error the response written to a fresh writer
carries the body of the claim, with `"status"` the code of the mapped API error, which
is not a 2xx code; but `WriteHeader` is never called, so the status line is written by
`Write` and the HTTP status code of the response is 200. -/
theorem SendErrorResponse_status (err : GoError) :
    ∃ a, ErrorToAPIError (some err) = some a ∧
      ¬ (200 ≤ a.StatusCode ∧ a.StatusCode ≤ 299) ∧
      (SendErrorResponse ResponseWriter.fresh (some err)).statusCode = some 200 ∧
      (SendErrorResponse ResponseWriter.fresh (some err)).body =
        [JSON.object [("message", JSON.string err.Error), ("result", JSON.null),
          ("status", JSON.number a.StatusCode)]] := by
  obtain ⟨a, ha, hcode⟩ := ErrorToAPIError_codes err
  refine ⟨a, ha, ?_, rfl, ?_⟩
  · simp only [List.mem_cons, List.mem_singleton, List.not_mem_nil, or_false] at hcode
    omega
  · simp only [SendErrorResponse, ha]
    rfl

/-- A malformed body sent to the judge: the mapped status is 400 and the body says so,
but the response goes out with the HTTP status 200. -/
theorem SendErrorResponse_malformed_body :
    SendErrorResponse ResponseWriter.fresh
        (DecodeRequestBody (some (.plain "unexpected EOF"))) =
      { header := [("Content-Type", "application/json")],
        statusCode := some 200,
        body := [JSON.object
          [("message", JSON.string "Failed to decode request body: unexpected EOF"),
            ("result", JSON.null), ("status", JSON.number 400)]] } := by
  rfl

/-! ## Status codes of the judge's failures -/

/-- C25, counterexample.  For the language id 9, which is not registered, the judge
returns the untyped error "unsupported language ID: 9", and `ErrorToAPIError` maps it to
the status code 500, not to a code between 400 and 499. -/
theorem ErrorToAPIError_unknown_language_counterexample :
    BuildAndRunInContainer sampleEnv [] { sampleSolution with LanguageID := 9 } =
        some ⟨none, some (unsupportedLanguage 9).Error, []⟩ ∧
      (unsupportedLanguage 9).Error = "unsupported language ID: 9" ∧
      ErrorToAPIError (some (unsupportedLanguage 9)) =
        some ⟨500, "Unexpected error occurred"⟩ ∧
      ¬ ((400 : Int) ≤ 500 ∧ (500 : Int) ≤ 499) := by
  decide

/-- C25, amended.  A malformed payload is mapped to the status code 400; for every
language id that is not registered the judge returns an untyped error, which is mapped
to 500 with the message "Unexpected error occurred"; a storage error is mapped to 500. -/
theorem ErrorToAPIError_judge (env : Env) (sched : List Event) (solution : Solution)
    (decodeErr : GoError) (action message : String)
    (hlang : (GetLanguageConfigByID solution.LanguageID).2 = false) :
    ErrorToAPIError (DecodeRequestBody (some decodeErr)) =
        some ⟨400, "Failed to decode request body: " ++ decodeErr.Error⟩ ∧
      BuildAndRunInContainer env sched solution =
        some ⟨none, some (unsupportedLanguage solution.LanguageID).Error, []⟩ ∧
      ErrorToAPIError (some (unsupportedLanguage solution.LanguageID)) =
        some ⟨500, "Unexpected error occurred"⟩ ∧
      ErrorToAPIError (some (.MinIOError action message)) =
        some ⟨500, "File storage error"⟩ := by
  refine ⟨rfl, ?_, rfl, rfl⟩
  unfold BuildAndRunInContainer
  split
  rename_i cfg ok hcfg
  have hok : ok = false := by rw [hcfg] at hlang; exact hlang
  subst hok
  rfl

/-- The amended claim at a truncated payload, the language id 9 and a failed download. -/
theorem ErrorToAPIError_judge_witness :
    ErrorToAPIError (DecodeRequestBody (some (.plain "unexpected EOF"))) =
        some ⟨400, "Failed to decode request body: " ++
          (GoError.plain "unexpected EOF").Error⟩ ∧
      BuildAndRunInContainer sampleEnv [] { sampleSolution with LanguageID := 9 } =
        some ⟨none, some (unsupportedLanguage 9).Error, []⟩ ∧
      ErrorToAPIError (some (unsupportedLanguage 9)) =
        some ⟨500, "Unexpected error occurred"⟩ ∧
      ErrorToAPIError (some (.MinIOError "downloading files from MinIO" "timeout")) =
        some ⟨500, "File storage error"⟩ :=
  ErrorToAPIError_judge sampleEnv [] { sampleSolution with LanguageID := 9 }
    (.plain "unexpected EOF") "downloading files from MinIO" "timeout" (by decide)

/-! ## The verdict and the captured output -/

/-- The parsed outcome is fixed by the elapsed time, the difference flag and the
process error. -/
theorem parseOutput_determined (output₁ output₂ : String) (err : Option String)
    (htime : (parseOutput output₁ err).ExecutionTime =
      (parseOutput output₂ err).ExecutionTime)
    (hdiff : (parseOutput output₁ err).OutputDiff = (parseOutput output₂ err).OutputDiff) :
    parseOutput output₁ err = parseOutput output₂ err := by
  cases err with
  | none =>
    have h1 : parseOutput output₁ none =
        ⟨true, (parseOutput output₁ none).ExecutionTime,
          (parseOutput output₁ none).OutputDiff, ""⟩ := rfl
    have h2 : parseOutput output₂ none =
        ⟨true, (parseOutput output₂ none).ExecutionTime,
          (parseOutput output₂ none).OutputDiff, ""⟩ := rfl
    rw [h1, h2, htime, hdiff]
  | some e =>
    have h1 : parseOutput output₁ (some e) =
        ⟨false, (parseOutput output₁ (some e)).ExecutionTime,
          (parseOutput output₁ (some e)).OutputDiff, e⟩ := rfl
    have h2 : parseOutput output₂ (some e) =
        ⟨false, (parseOutput output₂ (some e)).ExecutionTime,
          (parseOutput output₂ (some e)).OutputDiff, e⟩ := rfl
    rw [h1, h2, htime, hdiff]

/-- The verdict text is one of four constants. -/
theorem classifyCase_texts (results : ResultDetail) (r : ExecutionResult) :
    (classifyCase results r).2 ∈
      ["INTERNAL ERROR", "FAILED", "TIME LIMITED EXCEEDED", "PASSED"] := by
  unfold classifyCase
  split_ifs <;> simp

/-- The loop over the listing does not run the sandbox. -/
theorem getTestCasesLoop_runCommand (env : Env)
    (runCommand : String → String × Option String) (inDir outDir : String)
    (entries : List DirEntry) :
    ∀ (testCases : List (String × String)) (done : List Effect),
      getTestCasesLoop { env with runCommand := runCommand } inDir outDir entries
          testCases done =
        getTestCasesLoop env inDir outDir entries testCases done := by
  induction entries with
  | nil => intro _ _; rfl
  | cons inFile rest ih =>
    intro testCases done
    simp only [getTestCasesLoop]
    split
    · split
      · exact ih _ _
      · rfl
    · exact ih _ _

/-- Pairing the test files does not run the sandbox. -/
theorem getTestCases_runCommand (env : Env)
    (runCommand : String → String × Option String) (problemID : Int) :
    getTestCases { env with runCommand := runCommand } problemID =
      getTestCases env problemID := by
  simp only [getTestCases]
  split
  · rfl
  · split
    · rfl
    · exact getTestCasesLoop_runCommand env runCommand _ _ _ _ _

/-- A case task under another sandbox answer with the same elapsed time, difference flag
and process error for every command. -/
theorem runTask_runCommand (env : Env) (runCommand : String → String × Option String)
    (herr : ∀ cmd, (runCommand cmd).2 = (env.runCommand cmd).2)
    (htime : ∀ cmd, (parseOutput (runCommand cmd).1 (runCommand cmd).2).ExecutionTime =
      (parseOutput (env.runCommand cmd).1 (env.runCommand cmd).2).ExecutionTime)
    (hdiff : ∀ cmd, (parseOutput (runCommand cmd).1 (runCommand cmd).2).OutputDiff =
      (parseOutput (env.runCommand cmd).1 (env.runCommand cmd).2).OutputDiff)
    (langConfig : LanguageConfig) (codeFilePath : String) (problemID : Int)
    (takeDone : Bool) (inputFilePath outputFilePath : String) (st : Orch) :
    runTask { env with runCommand := runCommand } langConfig codeFilePath problemID
        takeDone inputFilePath outputFilePath st =
      runTask env langConfig codeFilePath problemID takeDone inputFilePath
        outputFilePath st := by
  have hexec : ∀ cmd, executeDockerCommand { env with runCommand := runCommand } cmd =
      executeDockerCommand env cmd := by
    intro cmd
    show (parseOutput (runCommand cmd).1 (runCommand cmd).2, (none : Option String)) =
      (parseOutput (env.runCommand cmd).1 (env.runCommand cmd).2, none)
    have ht := htime cmd
    have hd := hdiff cmd
    rw [herr cmd] at ht hd ⊢
    rw [parseOutput_determined _ _ _ ht hd]
  have htemp : ∀ call, CreateTempFile { env with runCommand := runCommand } call =
      CreateTempFile env call := fun _ => rfl
  simp only [runTask, hexec, htemp]

/-- A run of the tasks and the collecting loop under such a sandbox answer. -/
theorem collect_runCommand (env : Env) (runCommand : String → String × Option String)
    (herr : ∀ cmd, (runCommand cmd).2 = (env.runCommand cmd).2)
    (htime : ∀ cmd, (parseOutput (runCommand cmd).1 (runCommand cmd).2).ExecutionTime =
      (parseOutput (env.runCommand cmd).1 (env.runCommand cmd).2).ExecutionTime)
    (hdiff : ∀ cmd, (parseOutput (runCommand cmd).1 (runCommand cmd).2).OutputDiff =
      (parseOutput (env.runCommand cmd).1 (env.runCommand cmd).2).OutputDiff)
    (langConfig : LanguageConfig) (codeFilePath : String) (problemID : Int)
    (sched : List Event) :
    ∀ st : Orch,
      collect { env with runCommand := runCommand } langConfig codeFilePath problemID st
          sched =
        collect env langConfig codeFilePath problemID st sched := by
  induction sched with
  | nil => intro _; rfl
  | cons ev evs ih =>
    intro st
    have hstep : step { env with runCommand := runCommand } langConfig codeFilePath
        problemID st ev = step env langConfig codeFilePath problemID st ev := by
      cases ev <;> simp only [step]
      split
      · rfl
      · rw [runTask_runCommand env runCommand herr htime hdiff]
    simp only [collect, hstep]
    split
    · rfl
    · rfl
    · exact ih _

/-- C26: the captured output of the sandbox reaches the result of a submission only
through the elapsed time and the difference flag.  When the sandbox answers every
command with another output that gives the same elapsed time and the same difference
flag under the same process error, every run returns the same summary, with the same
case results, the same error and the same calls; and the verdict text of a case is one
of the four constants, whatever was captured. -/
theorem BuildAndRunInContainer_output_independent (env : Env)
    (runCommand : String → String × Option String) (sched : List Event)
    (solution : Solution)
    (herr : ∀ cmd, (runCommand cmd).2 = (env.runCommand cmd).2)
    (htime : ∀ cmd, (parseOutput (runCommand cmd).1 (runCommand cmd).2).ExecutionTime =
      (parseOutput (env.runCommand cmd).1 (env.runCommand cmd).2).ExecutionTime)
    (hdiff : ∀ cmd, (parseOutput (runCommand cmd).1 (runCommand cmd).2).OutputDiff =
      (parseOutput (env.runCommand cmd).1 (env.runCommand cmd).2).OutputDiff) :
    BuildAndRunInContainer { env with runCommand := runCommand } sched solution =
        BuildAndRunInContainer env sched solution ∧
      ∀ (results : ResultDetail) (output : String) (e : Option String),
        (classifyCase results (parseOutput output e)).2 ∈
          ["INTERNAL ERROR", "FAILED", "TIME LIMITED EXCEEDED", "PASSED"] := by
  refine ⟨?_, fun results output e => classifyCase_texts results _⟩
  have hsave : SaveCodeToFile { env with runCommand := runCommand } solution.LanguageID
      solution.Code = SaveCodeToFile env solution.LanguageID solution.Code := rfl
  simp only [BuildAndRunInContainer, hsave, getTestCases_runCommand,
    collect_runCommand env runCommand herr htime hdiff]

/-- The sandbox of `sampleEnv` also captures a line that the program wrote to its error
stream; the elapsed time and the difference flag are the same, and so is the run. -/
theorem BuildAndRunInContainer_output_independent_witness :
    BuildAndRunInContainer
        { sampleEnv with
          runCommand := fun _ =>
            ("secret of the host\nExecution time: 5000 nanoseconds\n", none) }
        (runAll 1) sampleSolution =
        BuildAndRunInContainer sampleEnv (runAll 1) sampleSolution ∧
      ∀ (results : ResultDetail) (output : String) (e : Option String),
        (classifyCase results (parseOutput output e)).2 ∈
          ["INTERNAL ERROR", "FAILED", "TIME LIMITED EXCEEDED", "PASSED"] :=
  BuildAndRunInContainer_output_independent sampleEnv
    (fun _ => ("secret of the host\nExecution time: 5000 nanoseconds\n", none))
    (runAll 1) sampleSolution (fun _ => rfl)
    (fun _ => show (parseOutput "secret of the host\nExecution time: 5000 nanoseconds\n"
        none).ExecutionTime =
      (parseOutput "Execution time: 5000 nanoseconds\n" none).ExecutionTime by decide)
    (fun _ => show (parseOutput "secret of the host\nExecution time: 5000 nanoseconds\n"
        none).OutputDiff =
      (parseOutput "Execution time: 5000 nanoseconds\n" none).OutputDiff by decide)

/-! ## Validation of the uploaded file names -/

/-- A non-empty result of the loop of `filepath.Ext` begins at a dot of the path and
holds what follows it. -/
theorem extLoop_some (r : List Char) :
    ∀ seen e : List Char, extLoop r seen = e → e ≠ [] →
      ∃ pre post, r = pre ++ '.' :: post ∧ e = '.' :: (pre.reverse ++ seen) := by
  induction r with
  | nil => intro seen e h hne; exact absurd h.symm hne
  | cons c rest ih =>
    intro seen e h hne
    simp only [extLoop] at h
    split_ifs at h with hslash hdot
    · exact absurd h.symm hne
    · exact ⟨[], rest, by simp [hdot], by simp [← h, hdot]⟩
    · obtain ⟨pre, post, hr, he⟩ := ih (c :: seen) e h hne
      exact ⟨c :: pre, post, by simp [hr], by simp [he]⟩

/-- The extension of a name is `.txt` exactly when the name ends in `.txt`. -/
theorem Ext_txt (name : String) : Ext name = ".txt" ↔ hasTxtExtension name := by
  constructor
  · intro h
    have hdata : extLoop name.data.reverse [] = ".txt".data := by
      have := congrArg String.data h
      simpa [Ext] using this
    obtain ⟨pre, post, hr, he⟩ := extLoop_some _ _ _ hdata (by decide)
    have hname : name.data = post.reverse ++ '.' :: pre.reverse := by
      have := congrArg List.reverse hr
      simpa using this
    have hpre : pre.reverse = ['t', 'x', 't'] := by
      have : ".txt".data = '.' :: (pre.reverse ++ []) := he
      simpa using this.symm
    exact ⟨post.reverse, by rw [hname, hpre]⟩
  · rintro ⟨p, hp⟩
    have hrev : name.data.reverse = 't' :: 'x' :: 't' :: '.' :: p.reverse := by
      rw [← hp]
      show (p ++ ['.', 't', 'x', 't']).reverse = _
      simp
    show String.mk (extLoop name.data.reverse []) = ".txt"
    rw [hrev]
    rfl

/-- One checking loop: it fills the map with the names when every name ends in `.txt`
and none is met twice or is already a key; otherwise it returns a
`FileValidationError`. -/
theorem checkFileNames_spec (files : List String) :
    ∀ names : List String,
      ((∀ n ∈ files, Ext n = ".txt") ∧ files.Nodup ∧ (∀ n ∈ files, n ∉ names) →
          checkFileNames files names = .ok (names ++ files)) ∧
        (¬ ((∀ n ∈ files, Ext n = ".txt") ∧ files.Nodup ∧ (∀ n ∈ files, n ∉ names)) →
          ∃ msg, checkFileNames files names = .error (.FileValidationError msg)) := by
  induction files with
  | nil =>
    intro names
    constructor
    · intro _; simp [checkFileNames]
    · intro h; exact absurd ⟨by simp, List.nodup_nil, by simp⟩ h
  | cons file rest ih =>
    intro names
    obtain ⟨ihok, iherr⟩ := ih (names ++ [file])
    have hcond : ((∀ n ∈ rest, Ext n = ".txt") ∧ rest.Nodup ∧
          (∀ n ∈ rest, n ∉ names ++ [file])) ↔
        ((∀ n ∈ rest, Ext n = ".txt") ∧ rest.Nodup ∧ (∀ n ∈ rest, n ∉ names) ∧
          file ∉ rest) := by
      constructor
      · rintro ⟨h1, h2, h3⟩
        refine ⟨h1, h2, fun n hn hmem => h3 n hn (List.mem_append_left _ hmem), ?_⟩
        intro hmem
        exact h3 file hmem (by simp)
      · rintro ⟨h1, h2, h3, h4⟩
        refine ⟨h1, h2, fun n hn hmem => ?_⟩
        rcases List.mem_append.1 hmem with h | h
        · exact h3 n hn h
        · simp only [List.mem_singleton] at h
          exact h4 (h ▸ hn)
    simp only [checkFileNames]
    by_cases hext : Ext file = ".txt"
    · by_cases hdup : file ∈ names
      · constructor
        · rintro ⟨_, _, h3⟩
          exact absurd hdup (h3 file (List.mem_cons_self _ _))
        · intro _
          exact ⟨_, by
            simp only [hext, hdup, NewFileValidationError, ne_eq, not_true_eq_false,
              if_false, if_true]; rfl⟩
      · simp only [hext, ne_eq, not_true_eq_false, if_false, hdup]
        constructor
        · rintro ⟨h1, h2, h3⟩
          have hnd := List.nodup_cons.1 h2
          rw [ihok (hcond.2 ⟨fun n hn => h1 n (List.mem_cons_of_mem _ hn), hnd.2,
            fun n hn => h3 n (List.mem_cons_of_mem _ hn), hnd.1⟩)]
          simp
        · intro hnot
          apply iherr
          intro hrest
          obtain ⟨h1, h2, h3, h4⟩ := hcond.1 hrest
          apply hnot
          refine ⟨?_, List.nodup_cons.2 ⟨h4, h2⟩, ?_⟩
          · intro n hn
            rcases List.mem_cons.1 hn with h | h
            · rw [h]; exact hext
            · exact h1 n h
          · intro n hn
            rcases List.mem_cons.1 hn with h | h
            · rw [h]; exact hdup
            · exact h3 n h
    · constructor
      · rintro ⟨h1, _, _⟩
        exact absurd (h1 file (List.mem_cons_self _ _)) hext
      · intro _
        exact ⟨_, by
          simp only [hext, NewFileValidationError, ne_eq, not_false_eq_true, if_true]; rfl⟩

/-- The value of `ValidateFiles`: `nil` when both lists pass their loop and hold the
same names, and a `FileValidationError` otherwise. -/
theorem ValidateFiles_cases (rangeKeys : List String → List String)
    (hperm : ∀ ks, (rangeKeys ks).Perm ks) (inputFiles outputFiles : List String) :
    (((∀ n ∈ inputFiles, Ext n = ".txt") ∧ inputFiles.Nodup) ∧
        ((∀ n ∈ outputFiles, Ext n = ".txt") ∧ outputFiles.Nodup) ∧
        (∀ n, n ∈ inputFiles ↔ n ∈ outputFiles) ∧
        ValidateFiles rangeKeys inputFiles outputFiles = none) ∨
      (¬ (((∀ n ∈ inputFiles, Ext n = ".txt") ∧ inputFiles.Nodup) ∧
          ((∀ n ∈ outputFiles, Ext n = ".txt") ∧ outputFiles.Nodup) ∧
          (∀ n, n ∈ inputFiles ↔ n ∈ outputFiles)) ∧
        ∃ msg, ValidateFiles rangeKeys inputFiles outputFiles =
          some (.FileValidationError msg)) := by
  obtain ⟨hinOk, hinErr⟩ := checkFileNames_spec inputFiles []
  obtain ⟨houtOk, houtErr⟩ := checkFileNames_spec outputFiles []
  by_cases hin : (∀ n ∈ inputFiles, Ext n = ".txt") ∧ inputFiles.Nodup
  · have e1 := hinOk ⟨hin.1, hin.2, by simp⟩
    rw [List.nil_append] at e1
    by_cases hout : (∀ n ∈ outputFiles, Ext n = ".txt") ∧ outputFiles.Nodup
    · have e2 := houtOk ⟨hout.1, hout.2, by simp⟩
      rw [List.nil_append] at e2
      cases h3 : (rangeKeys inputFiles).find? (fun name => decide (name ∉ outputFiles)) with
      | some name =>
        right
        have hmem : name ∈ inputFiles :=
          (hperm inputFiles).subset (List.mem_of_find?_eq_some h3)
        have hnot : name ∉ outputFiles := by
          have := List.find?_some h3
          simpa using this
        refine ⟨fun h => hnot ((h.2.2 name).1 hmem),
          "input_file: " ++ name ++ " に対応する output_file が存在しません", ?_⟩
        simp only [ValidateFiles, e1, e2, h3, NewFileValidationError]
      | none =>
        have hsub : ∀ n ∈ inputFiles, n ∈ outputFiles := by
          intro n hn
          have := List.find?_eq_none.1 h3 n ((hperm inputFiles).symm.subset hn)
          simpa using this
        cases h4 : (rangeKeys outputFiles).find?
            (fun name => decide (name ∉ inputFiles)) with
        | some name =>
          right
          have hmem : name ∈ outputFiles :=
            (hperm outputFiles).subset (List.mem_of_find?_eq_some h4)
          have hnot : name ∉ inputFiles := by
            have := List.find?_some h4
            simpa using this
          refine ⟨fun h => hnot ((h.2.2 name).2 hmem),
            "output_file: " ++ name ++ " に対応する input_file が存在しません", ?_⟩
          simp only [ValidateFiles, e1, e2, h3, h4, NewFileValidationError]
        | none =>
          left
          have hsup : ∀ n ∈ outputFiles, n ∈ inputFiles := by
            intro n hn
            have := List.find?_eq_none.1 h4 n ((hperm outputFiles).symm.subset hn)
            simpa using this
          refine ⟨hin, hout, fun n => ⟨hsub n, hsup n⟩, ?_⟩
          simp only [ValidateFiles, e1, e2, h3, h4]
    · right
      obtain ⟨msg, e2⟩ := houtErr (fun h => hout ⟨h.1, h.2.1⟩)
      exact ⟨fun h => hout h.2.1, msg, by simp only [ValidateFiles, e1, e2]⟩
  · right
    obtain ⟨msg, e1⟩ := hinErr (fun h => hin ⟨h.1, h.2.1⟩)
    exact ⟨fun h => hin h.1, msg, by simp only [ValidateFiles, e1]⟩

/-- C27: `ValidateFiles` returns `nil` exactly when every name of both lists ends in
`.txt`, no name occurs twice in the input list or in the output list, and the two lists
hold the same names; in every other case it returns a `FileValidationError`.  This
holds for every order in which `range` visits the keys of the two maps. -/
theorem ValidateFiles_spec (rangeKeys : List String → List String)
    (hperm : ∀ ks, (rangeKeys ks).Perm ks) (inputFiles outputFiles : List String) :
    (ValidateFiles rangeKeys inputFiles outputFiles = none ↔
        (∀ n ∈ inputFiles ++ outputFiles, hasTxtExtension n) ∧
          inputFiles.Nodup ∧ outputFiles.Nodup ∧
          (∀ n, n ∈ inputFiles ↔ n ∈ outputFiles)) ∧
      (ValidateFiles rangeKeys inputFiles outputFiles ≠ none →
        ∃ msg, ValidateFiles rangeKeys inputFiles outputFiles =
          some (.FileValidationError msg)) := by
  have hspec : ((∀ n ∈ inputFiles ++ outputFiles, hasTxtExtension n) ∧
        inputFiles.Nodup ∧ outputFiles.Nodup ∧
        (∀ n, n ∈ inputFiles ↔ n ∈ outputFiles)) ↔
      (((∀ n ∈ inputFiles, Ext n = ".txt") ∧ inputFiles.Nodup) ∧
        ((∀ n ∈ outputFiles, Ext n = ".txt") ∧ outputFiles.Nodup) ∧
        (∀ n, n ∈ inputFiles ↔ n ∈ outputFiles)) := by
    constructor
    · rintro ⟨h1, h2, h3, h4⟩
      exact ⟨⟨fun n hn => (Ext_txt n).2 (h1 n (List.mem_append_left _ hn)), h2⟩,
        ⟨fun n hn => (Ext_txt n).2 (h1 n (List.mem_append_right _ hn)), h3⟩, h4⟩
    · rintro ⟨⟨h1, h2⟩, ⟨h3, h4⟩, h5⟩
      refine ⟨fun n hn => ?_, h2, h4, h5⟩
      rcases List.mem_append.1 hn with h | h
      · exact (Ext_txt n).1 (h1 n h)
      · exact (Ext_txt n).1 (h3 n h)
  rcases ValidateFiles_cases rangeKeys hperm inputFiles outputFiles with
    ⟨h1, h2, h3, hnil⟩ | ⟨hnot, msg, herr⟩
  · exact ⟨⟨fun _ => hspec.2 ⟨h1, h2, h3⟩, fun _ => hnil⟩, fun h => absurd hnil h⟩
  · refine ⟨⟨fun h => ?_, fun h => absurd (hspec.1 h) hnot⟩, fun _ => ⟨msg, herr⟩⟩
    rw [herr] at h
    exact absurd h (by simp)

/-- Two uploads under the order of insertion: the pair `a.txt`, `b.txt` with its outputs
in the other order is accepted. -/
theorem ValidateFiles_spec_witness :
    (ValidateFiles id ["a.txt", "b.txt"] ["b.txt", "a.txt"] = none ↔
        (∀ n ∈ ["a.txt", "b.txt"] ++ ["b.txt", "a.txt"], hasTxtExtension n) ∧
          ["a.txt", "b.txt"].Nodup ∧ ["b.txt", "a.txt"].Nodup ∧
          (∀ n, n ∈ ["a.txt", "b.txt"] ↔ n ∈ ["b.txt", "a.txt"])) ∧
      (ValidateFiles id ["a.txt", "b.txt"] ["b.txt", "a.txt"] ≠ none →
        ∃ msg, ValidateFiles id ["a.txt", "b.txt"] ["b.txt", "a.txt"] =
          some (.FileValidationError msg)) :=
  ValidateFiles_spec id (fun ks => List.Perm.refl ks) ["a.txt", "b.txt"] ["b.txt", "a.txt"]

/-- The accepted and the refused uploads of the example: matching names are accepted; a
missing output, a repeated name and a name that does not end in `.txt` are refused. -/
theorem ValidateFiles_examples :
    ValidateFiles id ["a.txt", "b.txt"] ["b.txt", "a.txt"] = none ∧
      ValidateFiles id ["a.txt", "b.txt"] ["a.txt"] =
        some (.FileValidationError
          "input_file: b.txt に対応する output_file が存在しません") ∧
      ValidateFiles id ["a.txt", "a.txt"] ["a.txt"] =
        some (.FileValidationError "重複するファイル名が存在します") ∧
      ValidateFiles id ["a.txt"] ["a.out"] =
        some (.FileValidationError "拡張子が .txt ではないファイルが存在します") := by
  decide

/-! ## Ownership of a problem -/

/-- C28, as the code behaves.  Whenever the ownership query can be run, `IsProblemOwner`
returns `nil`, whatever the table holds, because the scanned value is not read; so the
middleware calls the next handler for every authenticated user and every problem id,
the owner or not. -/
theorem IsProblemOwner_ignores_exists (table : List ProblemRow) (userID problemID : Int) :
    IsProblemOwner table none userID problemID = none ∧
      (ProblemOwnerMiddlewareFactory table none (.ok userID) (.ok problemID)).nextCalled =
        true :=
  ⟨rfl, rfl⟩

/-- The problem 7 belongs to the user 1: the query of the user 2 yields `false`, and
`IsProblemOwner` returns `nil` and the middleware calls the next handler. -/
theorem IsProblemOwner_not_owner :
    scanExists sampleProblems none 7 2 = .ok false ∧
      IsProblemOwner sampleProblems none 2 7 = none ∧
      (ProblemOwnerMiddlewareFactory sampleProblems none (.ok 2) (.ok 7)).nextCalled =
        true :=
  ⟨rfl, rfl, rfl⟩

/-- With the owner the query yields `true` and `IsProblemOwner` returns `nil`; a query
that cannot be run gives an error, and the next handler is not called. -/
theorem IsProblemOwner_owner_and_failure :
    scanExists sampleProblems none 7 1 = .ok true ∧
      IsProblemOwner sampleProblems none 1 7 = none ∧
      IsProblemOwner sampleProblems (some (.plain "invalid connection")) 1 7 =
        some (.DBError "SELECT" (.plain "invalid connection")) ∧
      (ProblemOwnerMiddlewareFactory sampleProblems (some (.plain "invalid connection"))
        (.ok 1) (.ok 7)).nextCalled = false :=
  ⟨rfl, rfl, rfl, rfl⟩

/-! ## The comparison message, from the builder to the parser -/

/-- C29: the builder and the parser agree on the comparison message.  The comparison
step that the builder writes runs `diff -q` on `/workspace/tmp/<scratch base>` and
`/workspace/io/out/<output base>`; when both base names are non-empty and hold no
newline, every captured output that contains the message `diff -q` prints for these two
operands, `Files <first> and <second> differ`, sets `OutputDiff`, whatever stands around
the message and whatever the process error is. -/
theorem compareScript_message_matched (tempFilePath outputFilePath output : String)
    (err : Option String) (pre post : List Char)
    (htemp : (Base tempFilePath).data ≠ []) (htempnl : '\n' ∉ (Base tempFilePath).data)
    (hout : (Base outputFilePath).data ≠ []) (houtnl : '\n' ∉ (Base outputFilePath).data)
    (hmsg : output.data = pre ++
      ("Files " ++ ("/workspace/tmp/" ++ Base tempFilePath) ++ " and " ++
        ("/workspace/io/out/" ++ Base outputFilePath) ++ " differ").data ++ post) :
    compareScript tempFilePath outputFilePath =
        " && diff -q " ++ ("/workspace/tmp/" ++ Base tempFilePath) ++ " " ++
          ("/workspace/io/out/" ++ Base outputFilePath) ∧
      (parseOutput output err).OutputDiff = true := by
  constructor
  · apply String.ext
    simp [compareScript, String.data_append, List.append_assoc]
  · have hflag : (parseOutput output err).OutputDiff = diffMatch output.data := by
      cases err <;> rfl
    rw [hflag]
    unfold diffMatch
    simp only [List.any_eq_true, List.mem_tails]
    refine ⟨diffMessage (Base tempFilePath).data (Base outputFilePath).data ++ post,
      ⟨pre, ?_⟩, (diffMatchAt_iff _).2 ⟨_, _, post, htemp, hout, htempnl, houtnl, rfl⟩⟩
    rw [hmsg]
    simp [diffMessage, String.data_append, List.append_assoc]

/-- The message for the scratch file and the expected output of the case `b.txt`,
between a timing marker and the end of the line. -/
theorem compareScript_message_matched_witness :
    compareScript "/tmp/judge_100/tempfile.txt" "/tmp/problem_7/out/b.txt" =
        " && diff -q " ++ ("/workspace/tmp/" ++ Base "/tmp/judge_100/tempfile.txt") ++ " " ++
          ("/workspace/io/out/" ++ Base "/tmp/problem_7/out/b.txt") ∧
      (parseOutput
        ("Execution time: 5000 nanoseconds\n" ++
          "Files /workspace/tmp/tempfile.txt and /workspace/io/out/b.txt differ\n")
        (some "exit status 1")).OutputDiff = true :=
  compareScript_message_matched "/tmp/judge_100/tempfile.txt" "/tmp/problem_7/out/b.txt"
    ("Execution time: 5000 nanoseconds\n" ++
      "Files /workspace/tmp/tempfile.txt and /workspace/io/out/b.txt differ\n")
    (some "exit status 1") "Execution time: 5000 nanoseconds\n".data "\n".data
    (by decide) (by decide) (by decide) (by decide) (by decide)

/-! ## The leftmost timing marker -/

/-- Behind its first character a timing marker holds no `E`. -/
theorem timeMarker_tail (d : List Char) (hd : isDecimal d) :
    ∃ tl, timeMarker d = 'E' :: tl ∧ 'E' ∉ tl := by
  refine ⟨"xecution time: ".data ++ d ++ " nanoseconds".data, ?_, ?_⟩
  · simp [timeMarker]
  · intro h
    rcases List.mem_append.1 h with h | h
    · rcases List.mem_append.1 h with h | h
      · revert h; decide
      · have hdig := hd.2 _ h
        revert hdig; decide
    · revert h; decide

/-- A match of the timing pattern that begins in a non-empty text `t` in front of a
timing marker ends inside `t`. -/
theorem timeMatchAt_within (t digits post d : List Char) (ht : t ≠ [])
    (hdig : isDecimal digits)
    (h : timeMatchAt (t ++ (timeMarker digits ++ post)) = some d) :
    timeMatchAt t = some d := by
  obtain ⟨hd, post', hpost⟩ := timeMatchAt_some _ _ h
  obtain ⟨tl, hm, hE⟩ := timeMarker_tail d hd
  obtain ⟨tl2, hm2, -⟩ := timeMarker_tail digits hdig
  rcases List.append_eq_append_iff.1 hpost with ⟨a, ha, hb⟩ | ⟨c, hc, -⟩
  · cases a with
    | nil =>
      rw [List.append_nil] at ha
      have := timeMatchAt_marker d [] hd
      rwa [List.append_nil, ha] at this
    | cons x a =>
      exfalso
      rw [hm2] at hb
      simp only [List.cons_append, List.cons.injEq] at hb
      obtain ⟨c, t', rfl⟩ := List.exists_cons_of_ne_nil ht
      rw [hm, ← hb.1] at ha
      simp only [List.cons_append, List.cons.injEq] at ha
      apply hE
      rw [ha.2]
      simp
  · rw [hc]
    exact timeMatchAt_marker d c hd

/-- In front of a timing marker, a text without complete marker does not stop the
search: the marker is found, whatever follows it. -/
theorem findTime_first (digits post : List Char) (hd : isDecimal digits) :
    ∀ pre : List Char, findTime pre = none →
      findTime (pre ++ (timeMarker digits ++ post)) = some digits := by
  intro pre
  induction pre with
  | nil =>
    intro _
    have hm := timeMatchAt_marker digits post hd
    obtain ⟨tl, htl, -⟩ := timeMarker_tail digits hd
    rw [List.nil_append]
    rw [htl] at hm ⊢
    simp only [List.cons_append] at hm ⊢
    unfold findTime
    rw [hm]
  | cons a pre ih =>
    intro hnone
    unfold findTime at hnone
    cases hm : timeMatchAt (a :: pre) with
    | some d => rw [hm] at hnone; cases hnone
    | none =>
      rw [hm] at hnone
      simp only [] at hnone
      rw [List.cons_append]
      unfold findTime
      cases hm2 : timeMatchAt (a :: (pre ++ (timeMarker digits ++ post))) with
      | some d =>
        have := timeMatchAt_within (a :: pre) digits post d (by simp) hd hm2
        rw [hm] at this
        cases this
      | none =>
        simp only []
        exact ih hnone

/-- A text in which the timing pattern matches at no position holds no timing marker. -/
theorem no_marker_of_matchless (pre : List Char)
    (h : ∀ k, k < pre.length → timeMatchAt (pre.drop k) = none) :
    ∀ a d b, isDecimal d → pre ≠ a ++ timeMarker d ++ b := by
  intro a d b hd hs
  have hlen : a.length < pre.length := by
    have := congrArg List.length hs
    simp [timeMarker] at this
    omega
  have hm := timeMatchAt_marker d b hd
  have hdrop : pre.drop a.length = timeMarker d ++ b := by
    rw [hs, List.append_assoc, List.drop_left]
  rw [← hdrop, h _ hlen] at hm
  cases hm

/-- Reading digits after a number read so far shifts that number to the left. -/
theorem decimal_foldl_shift (ds : List Char) :
    ∀ acc : Nat, ds.foldl (fun acc c => acc * 10 + (c.toNat - '0'.toNat)) acc =
      acc * 10 ^ ds.length + decimalValue ds := by
  induction ds with
  | nil => intro acc; simp [decimalValue]
  | cons d ds ih =>
    intro acc
    have h0 := ih (0 * 10 + (d.toNat - '0'.toNat))
    have h1 := ih (acc * 10 + (d.toNat - '0'.toNat))
    simp only [decimalValue, List.foldl_cons, List.length_cons] at h0 h1 ⊢
    rw [h1, h0]
    ring

/-- The character of a digit below ten is a decimal digit with that value. -/
theorem digitChar_decimal (d : Nat) (hd : d < 10) :
    (Nat.digitChar d).isDigit = true ∧ (Nat.digitChar d).toNat - '0'.toNat = d := by
  match d, hd with
  | 0, _ | 1, _ | 2, _ | 3, _ | 4, _ | 5, _ | 6, _ | 7, _ | 8, _ | 9, _ => decide
  | d + 10, h => omega

/-- The digits that `Nat.toDigitsCore` writes in front of `acc` are decimal digits, and
the whole text reads as the number followed by the digits of `acc`. -/
theorem toDigitsCore_decimal (fuel : Nat) :
    ∀ (n : Nat) (acc : List Char), n < fuel → (∀ c ∈ acc, c.isDigit = true) →
      Nat.toDigitsCore 10 fuel n acc ≠ [] ∧
      (∀ c ∈ Nat.toDigitsCore 10 fuel n acc, c.isDigit = true) ∧
      decimalValue (Nat.toDigitsCore 10 fuel n acc) =
        n * 10 ^ acc.length + decimalValue acc := by
  induction fuel with
  | zero => intro n acc h; omega
  | succ fuel ih =>
    intro n acc hn hacc
    obtain ⟨hdig, hval⟩ := digitChar_decimal (n % 10) (Nat.mod_lt _ (by omega))
    have hacc2 : ∀ c ∈ Nat.digitChar (n % 10) :: acc, c.isDigit = true := by
      intro c hc
      rcases List.mem_cons.mp hc with h | h
      · rw [h]; exact hdig
      · exact hacc c h
    have hcons : decimalValue (Nat.digitChar (n % 10) :: acc) =
        (n % 10) * 10 ^ acc.length + decimalValue acc := by
      have := decimal_foldl_shift acc (0 * 10 + ((Nat.digitChar (n % 10)).toNat - '0'.toNat))
      simp only [decimalValue, List.foldl_cons] at this ⊢
      rw [this, hval]
      ring
    simp only [Nat.toDigitsCore]
    split_ifs with hsmall
    · refine ⟨by simp, hacc2, ?_⟩
      rw [hcons]
      have : n % 10 = n := Nat.mod_eq_of_lt (by omega)
      rw [this]
    · obtain ⟨h1, h2, h3⟩ := ih (n / 10) (Nat.digitChar (n % 10) :: acc) (by omega) hacc2
      refine ⟨h1, h2, ?_⟩
      rw [h3, hcons, List.length_cons, pow_succ]
      have hn10 : n * 10 ^ acc.length = (10 * (n / 10) + n % 10) * 10 ^ acc.length := by
        rw [Nat.div_add_mod]
      rw [hn10]
      ring

/-- The numeral of a natural number is a non-empty run of decimal digits that reads as
the number. -/
theorem repr_decimal (n : Nat) :
    isDecimal (Nat.repr n).data ∧ decimalValue (Nat.repr n).data = n := by
  obtain ⟨h1, h2, h3⟩ := toDigitsCore_decimal (n + 1) n [] (by omega) (by simp)
  have hdata : (Nat.repr n).data = Nat.toDigitsCore 10 (n + 1) n [] := by
    simp [Nat.repr, Nat.toDigits, List.asString]
  rw [hdata]
  refine ⟨⟨h1, h2⟩, ?_⟩
  rw [h3]
  simp [decimalValue]

/-- C30: the elapsed time is that of the leftmost timing marker of the captured output.
When the output begins with a text without complete marker, followed by the marker
`Execution time: M nanoseconds` with the numeral of a number `M` below 2^63, the parser
returns the number `M`, whatever follows the marker: neither the remainder `mid` of the
prefix nor the text `rest` behind it, with the markers they may hold, plays a part, nor
does the process error. -/
theorem parseOutput_leftmost_marker (pre mid rest : String) (M : Nat)
    (err : Option String) (hfit : M < 2 ^ 63)
    (hfirst : ∀ a d b, isDecimal d → pre.data ≠ a ++ timeMarker d ++ b) :
    (parseOutput
        (pre ++ "Execution time: " ++ Nat.repr M ++ " nanoseconds" ++ mid ++ rest)
        err).ExecutionTime = (M : Int) := by
  obtain ⟨hd, hvalue⟩ := repr_decimal M
  have htime : ∀ output : String, (parseOutput output err).ExecutionTime =
      match findTime output.data with
      | some digits => ParseInt digits
      | none => 0 := by
    intro output
    cases err <;> rfl
  have hdata : (pre ++ "Execution time: " ++ Nat.repr M ++ " nanoseconds" ++ mid ++
      rest).data = pre.data ++ (timeMarker (Nat.repr M).data ++ (mid.data ++ rest.data)) := by
    simp [String.data_append, timeMarker, List.append_assoc]
  have hfound := findTime_first (Nat.repr M).data (mid.data ++ rest.data) hd pre.data
    (findTime_none pre.data hfirst)
  rw [htime, hdata, hfound]
  simp only [ParseInt, hvalue]
  rw [if_neg (by omega)]

/-- The program writes `Execution time: 1 nanoseconds` to its error stream before the
timing wrapper prints the measured three seconds: the parsed time is 1, not
3000000000. -/
theorem parseOutput_leftmost_marker_witness :
    (parseOutput
        ("warming up\n" ++ "Execution time: " ++ Nat.repr 1 ++ " nanoseconds" ++ "\n" ++
          "Execution time: 3000000000 nanoseconds\n")
        none).ExecutionTime = ((1 : Nat) : Int) ∧
      (parseOutput
        "warming up\nExecution time: 1 nanoseconds\nExecution time: 3000000000 nanoseconds\n"
        none).ExecutionTime = 1 ∧
      (parseOutput "Execution time: 3000000000 nanoseconds\n" none).ExecutionTime =
        3000000000 :=
  ⟨parseOutput_leftmost_marker "warming up\n" "\n"
      "Execution time: 3000000000 nanoseconds\n" 1 none (by decide)
      (no_marker_of_matchless _ (by decide)),
    by decide, by decide⟩

end Procon
